import Mathlib

/-!
lua-cmsgpack: a shallow embedding of `lua_cmsgpack.c`

The development follows the C source function by function.

Conventions of the embedding

* Target: LP64, two's complement, plain `char` signed (x86-64).  `size_t` and
  `uint64_t` are naturals below `2^64`, `int` is 32 bits wide.  A signed C value
  is an `Int`; where C works on its bit pattern the pattern is a `Nat` and the
  conversions are `bits` and `signed`.  A left shift that overflows `int`
  keeps the low 32 bits, which is what the supported compilers emit.
* A byte is a natural below 256 (type `Nat`); memory is a list of bytes.  A pointer into a
  block is the list of bytes from the pointed position to the end of the block.
* A value on the Lua stack is a `LuaValue`, described by what the Lua C API
  reports about it.  `lua.h` is not part of the sources; the API functions used
  by the codec are modelled from the Lua reference manual.
* `lua_Number` is `double`, IEEE-754 binary64 as the source asserts.  A
  number whose value is an integer is carried as that integer, any other
  number as its 64 bits.  A `float` and a `double` are given by their bits; the
  conversions between them and from the 64-bit integers round to nearest, ties
  to even.
* A Lua error leaves the C function by a long jump: the encoder returns in
  `Except String`, the decoder has the outcome `raised`.
* The lengths of the string buffer are naturals: `realloc` succeeds and the
  sizes `len + n` and `newlen * 2` stay below `2^64`.
-/

namespace CMsgPack


/-! ## Machine integers -/

/-- Conversion of a C integer to an unsigned type of `w` bits (its bit pattern). -/
def bits (w : Nat) (x : Int) : Nat := (x % (2 : Int) ^ w).toNat

/-- Value of the low `w` bits of `u` read as a signed two's complement integer. -/
def signed (w : Nat) (u : Nat) : Int :=
  if u % 2 ^ w < 2 ^ (w - 1) then ((u % 2 ^ w : Nat) : Int) else ((u % 2 ^ w : Nat) : Int) - (2 : Int) ^ w

/-- Conversion to `size_t`. -/
def size_t (x : Int) : Nat := bits 64 x

/-- Store into an `unsigned char`. -/
def uchar (x : Nat) : Nat := x % 256

/-- The conversion `(int64_t)n` of an integer-valued `lua_Number`.  Out of range
the conversion is undefined in C; x86-64 yields `INT64_MIN`. -/
def cast_int64 (n : Int) : Int :=
  if -(2 : Int) ^ 63 ≤ n ∧ n < (2 : Int) ^ 63 then n else -(2 : Int) ^ 63

/-- Bitwise or of two operands of a signed type of `w` bits. -/
def sor (w : Nat) (a b : Int) : Int := signed w (bits w a ||| bits w b)

/-- The expression `x << k` in a signed type of `w` bits; on overflow the low
`w` bits are kept. -/
def sshl (w : Nat) (x : Int) (k : Nat) : Int := signed w (bits w x <<< k)

/-- The expression `x << k` in an unsigned type of `w` bits. -/
def ushl (w : Nat) (x : Nat) (k : Nat) : Nat := (x <<< k) % 2 ^ w

/-! ## Floating point numbers -/

/-- The quotient `m / 2^s` rounded to the nearest integer, ties to even: the
rounding of IEEE-754 in its default mode. -/
def rne (m s : Nat) : Nat :=
  let q := m / 2 ^ s
  let r := m % 2 ^ s
  if 2 * r < 2 ^ s then q
  else if 2 ^ s < 2 * r then q + 1
  else if q % 2 = 0 then q else q + 1

/-- A `double` is given by its 64 bits, an IEEE-754 binary64 as the source
asserts: the sign, 11 bits of exponent, 52 bits of fraction.  The bits are
those of a NaN: exponent all ones, fraction not zero. -/
def double_isnan (d : Nat) : Bool := d / 2 ^ 52 % 2048 == 2047 && d % 2 ^ 52 != 0

/-- The comparison `a == b` of two `double`s: false when either is a NaN, true
on equal bits and on two zeros of any sign. -/
def double_eq (a b : Nat) : Bool :=
  !double_isnan a && !double_isnan b && (a == b || (a % 2 ^ 63 == 0 && b % 2 ^ 63 == 0))

/-- The conversion `(float)d`, from the bits of a `double` to the bits of a
`float` (IEEE-754 binary32: the sign, 8 bits of exponent, 23 bits of
fraction), rounding to nearest, ties to even.  A value too large becomes an
infinity, a small one a subnormal number or zero; a NaN keeps the upper bits of
its fraction and is made quiet, as the conversion instruction of x86-64 does. -/
def float_of_double (d : Nat) : Nat :=
  let s := d / 2 ^ 63 % 2
  let e := d / 2 ^ 52 % 2048
  let m := d % 2 ^ 52
  let mag :=
    if e = 2047 then
      if m = 0 then 0x7f800000 else 0x7fc00000 ||| (m / 2 ^ 29)
    else if e = 0 then 0
    else if e < 897 then rne (2 ^ 52 + m) (926 - e)
    else if (e - 897) * 2 ^ 23 + rne (2 ^ 52 + m) 29 < 0x7f800000 then
      (e - 897) * 2 ^ 23 + rne (2 ^ 52 + m) 29
    else 0x7f800000
  s * 2 ^ 31 + mag

/-- The position of the highest bit set in a fraction `m` of 23 bits. -/
def float_top_bit (m : Nat) : Nat :=
  (List.range 23).foldl (fun k i => if 2 ^ i ≤ m then i else k) 0

/-- The conversion `(double)f`, from the bits of a `float` to the bits of the
`double` of the same value; a NaN keeps its fraction and is made quiet. -/
def double_of_float (f : Nat) : Nat :=
  let s := f / 2 ^ 31 % 2
  let e := f / 2 ^ 23 % 256
  let m := f % 2 ^ 23
  let mag :=
    if e = 255 then
      if m = 0 then 0x7ff0000000000000 else 0x7ff8000000000000 ||| (m * 2 ^ 29)
    else if e = 0 then
      if m = 0 then 0
      else (float_top_bit m + 874) * 2 ^ 52 + (m * 2 ^ (52 - float_top_bit m) - 2 ^ 52)
    else (e + 896) * 2 ^ 52 + m * 2 ^ 29
  s * 2 ^ 63 + mag

/-- The `double` is finite and its value is an integer. -/
def double_is_integer (d : Nat) : Bool :=
  let e := d / 2 ^ 52 % 2048
  let m := d % 2 ^ 52
  if e = 2047 then false
  else if e = 0 then m == 0
  else if e < 1023 then false
  else if e < 1075 then (2 ^ 52 + m) % 2 ^ (1075 - e) == 0
  else true

/-- The test `floor(n) == n` on a `double`: it holds of the integers and of the
two infinities, and fails on a NaN. -/
def double_floor_eq (d : Nat) : Bool :=
  double_is_integer d || (d / 2 ^ 52 % 2048 == 2047 && d % 2 ^ 52 == 0)

/-- The value of a finite `double` with its fractional part cut off. -/
def double_trunc (d : Nat) : Int :=
  let e := d / 2 ^ 52 % 2048
  let m := d % 2 ^ 52
  let mag : Nat :=
    if e = 0 then 0
    else if e < 1075 then (2 ^ 52 + m) / 2 ^ (1075 - e)
    else (2 ^ 52 + m) * 2 ^ (e - 1075)
  if d / 2 ^ 63 % 2 = 1 then -(mag : Int) else (mag : Int)

/-- The conversion `(int64_t)d` of a `double`: the value cut off towards zero;
out of range, on an infinity and on a NaN the conversion is undefined in C and
x86-64 yields `INT64_MIN`. -/
def double_to_int64 (d : Nat) : Int :=
  if d / 2 ^ 52 % 2048 = 2047 then -(2 : Int) ^ 63 else cast_int64 (double_trunc d)

/-- The number of bits by which `a`, below `2^64`, exceeds the 53 bits the
significand of a `double` holds. -/
def excess_bits (a : Nat) : Nat :=
  ((List.range 11).filter (fun i => 2 ^ (53 + i) ≤ a)).length

/-- The conversion of a 64-bit integer `x`, signed or unsigned, to
`lua_Number`, which is `double`, given by the integer the `double` holds: `x`
itself when it has at most 53 significant bits, otherwise `x` rounded to 53
significant bits, to nearest, ties to even. -/
def to_lua_Number (x : Int) : Int :=
  let a := x.natAbs
  let s := excess_bits a
  if x < 0 then -((rne a s * 2 ^ s : Nat) : Int) else ((rne a s * 2 ^ s : Nat) : Int)

/-- The `w` bytes of an object in memory, least significant byte first
(x86-64 is little endian). -/
def le_bytes : Nat → Nat → List Nat
  | 0, _ => []
  | w + 1, x => x % 256 :: le_bytes w (x / 256)

/-- The object whose bytes in memory are `bs`, least significant byte first. -/
def load_le : List Nat → Nat
  | [] => 0
  | b :: bs => b % 256 + 256 * load_le bs

/-- The loop of `memrevifle`: `n` exchanges are left, `p` and `e` are the
offsets of the two pointers. -/
def memrevifle.loop : Nat → Nat → Nat → List Nat → List Nat
  | 0, _, _, mem => mem
  | n + 1, p, e, mem =>
    memrevifle.loop n (p + 1) (e - 1) ((mem.set p (mem.getD e 0)).set e (mem.getD p 0))

/-- The function `memrevifle` on a little-endian machine: the first `len`
bytes of `mem` are reversed by `len / 2` exchanges. -/
def memrevifle (mem : List Nat) (len : Nat) : List Nat :=
  memrevifle.loop (len / 2) 0 (len - 1) mem

/-! ## String buffer -/

/-- The struct `mp_buf`: `b` is the allocated block (its length is the size of
the allocation), `len` the number of bytes written and `free` the spare room
the buffer believes it has. -/
structure mp_buf where
  b : List Nat
  len : Nat
  free : Nat
deriving DecidableEq, Repr

/-- The function `mp_buf_new`. -/
def mp_buf_new : mp_buf := { b := [], len := 0, free := 0 }

/-- The library call `realloc(b, size)`: the old content up to the smaller of
the two sizes, then fresh bytes. -/
def realloc (b : List Nat) (size : Nat) : List Nat :=
  b.take size ++ List.replicate (size - b.length) 0

/-- The library call `memcpy(dst + off, src, n)`. -/
def memcpy (dst : List Nat) (off : Nat) (src : List Nat) (n : Nat) : List Nat :=
  dst.take off ++ src.take n ++ dst.drop (off + n)

/-- The function `mp_buf_append`.  Both allocator branches reallocate to
`newlen*2` bytes. -/
def mp_buf_append (buf : mp_buf) (s : List Nat) (len : Nat) : mp_buf :=
  let buf1 : mp_buf :=
    if buf.free < len then
      let newlen := buf.len + len
      { b := realloc buf.b (newlen * 2), len := buf.len, free := newlen }
    else buf
  { b := memcpy buf1.b buf1.len s len, len := buf1.len + len, free := buf1.free - len }

/-- The bytes `buf->b[0 .. buf->len)`, which `_mp_pack` hands to the caller. -/
def mp_buf.contents (buf : mp_buf) : List Nat := buf.b.take buf.len

/-- The room the buffer believes it has lies inside the allocation. -/
def mp_buf.inBlock (buf : mp_buf) : Prop := buf.len + buf.free ≤ buf.b.length

/-! ## Low level encoding -/

/-- The function `mp_encode_null`. -/
def mp_encode_null (buf : mp_buf) : mp_buf := mp_buf_append buf [0xc0] 1

/-- The function `mp_encode_binary`; `s` is the memory at the pointer argument. -/
def mp_encode_binary (buf : mp_buf) (s : List Nat) (len : Nat) : mp_buf :=
  let r : List Nat × Nat × mp_buf :=
    if len < 255 then
      ([0xc4, uchar len], 2, buf)
    else if len < 65535 then
      ([0xc5, uchar ((len &&& 0xff00) >>> 8), uchar (len &&& 0xff)], 3, buf)
    else if len < 4294967295 then
      ([0xc6, uchar ((len &&& 0xff000000) >>> 24), uchar ((len &&& 0xff0000) >>> 16),
        uchar ((len &&& 0xff00) >>> 8), uchar (len &&& 0xff)], 5, buf)
    else ([], 0, mp_encode_null buf)
  if r.2.1 > 0 then mp_buf_append (mp_buf_append r.2.2 r.1 r.2.1) s len else r.2.2

/-- The header `hdr[0 .. hdrlen)` assembled by `mp_encode_bytes`. -/
def mp_encode_bytes_hdr (len : Nat) : List Nat :=
  if len < 32 then
    [uchar (0xa0 ||| (len &&& 0xff))]
  else if len ≤ 0xffff then
    [0xda, uchar ((len &&& 0xff00) >>> 8), uchar (len &&& 0xff)]
  else
    [0xdb, uchar ((len &&& 0xff000000) >>> 24), uchar ((len &&& 0xff0000) >>> 16),
      uchar ((len &&& 0xff00) >>> 8), uchar (len &&& 0xff)]

/-- The function `mp_encode_bytes`. -/
def mp_encode_bytes (buf : mp_buf) (s : List Nat) (len : Nat) : mp_buf :=
  let hdr := mp_encode_bytes_hdr len
  mp_buf_append (mp_buf_append buf hdr hdr.length) s len

/-- The function `mp_encode_double` on the `double` with the bits `d`; `f` is
the local `float f = d`. -/
def mp_encode_double (buf : mp_buf) (d : Nat) : mp_buf :=
  let f := float_of_double d
  if double_eq d (double_of_float f) then
    mp_buf_append buf (0xca :: memrevifle (le_bytes 4 f) 4) 5
  else
    mp_buf_append buf (0xcb :: memrevifle (le_bytes 8 d) 8) 9

/-- The array `b[0 .. enclen)` assembled by `mp_encode_int`; the masks act on
the 64-bit pattern of `n`. -/
def mp_encode_int_b (n : Int) : List Nat :=
  let u := bits 64 n
  if n ≥ 0 then
    if n ≤ 127 then
      [uchar (u &&& 0x7f)]
    else if n ≤ 0xff then
      [0xcc, uchar (u &&& 0xff)]
    else if n ≤ 0xffff then
      [0xcd, uchar ((u &&& 0xff00) >>> 8), uchar (u &&& 0xff)]
    else if n ≤ 0xffffffff then
      [0xce, uchar ((u &&& 0xff000000) >>> 24), uchar ((u &&& 0xff0000) >>> 16),
        uchar ((u &&& 0xff00) >>> 8), uchar (u &&& 0xff)]
    else
      [0xcf, uchar ((u &&& 0xff00000000000000) >>> 56), uchar ((u &&& 0xff000000000000) >>> 48),
        uchar ((u &&& 0xff0000000000) >>> 40), uchar ((u &&& 0xff00000000) >>> 32),
        uchar ((u &&& 0xff000000) >>> 24), uchar ((u &&& 0xff0000) >>> 16),
        uchar ((u &&& 0xff00) >>> 8), uchar (u &&& 0xff)]
  else
    if n ≥ -32 then
      [uchar u]
    else if n ≥ -128 then
      [0xd0, uchar (u &&& 0xff)]
    else if n ≥ -32768 then
      [0xd1, uchar ((u &&& 0xff00) >>> 8), uchar (u &&& 0xff)]
    else if n ≥ -2147483648 then
      [0xd2, uchar ((u &&& 0xff000000) >>> 24), uchar ((u &&& 0xff0000) >>> 16),
        uchar ((u &&& 0xff00) >>> 8), uchar (u &&& 0xff)]
    else
      [0xd3, uchar ((u &&& 0xff00000000000000) >>> 56), uchar ((u &&& 0xff000000000000) >>> 48),
        uchar ((u &&& 0xff0000000000) >>> 40), uchar ((u &&& 0xff00000000) >>> 32),
        uchar ((u &&& 0xff000000) >>> 24), uchar ((u &&& 0xff0000) >>> 16),
        uchar ((u &&& 0xff00) >>> 8), uchar (u &&& 0xff)]

/-- The function `mp_encode_int`. -/
def mp_encode_int (buf : mp_buf) (n : Int) : mp_buf :=
  let b := mp_encode_int_b n
  mp_buf_append buf b b.length

/-- The array `b[0 .. enclen)` assembled by `mp_encode_array`. -/
def mp_encode_array_b (n : Int) : List Nat :=
  let u := bits 64 n
  if n ≤ 15 then
    [uchar (0x90 ||| (u &&& 0xf))]
  else if n ≤ 65535 then
    [0xdc, uchar ((u &&& 0xff00) >>> 8), uchar (u &&& 0xff)]
  else
    [0xdd, uchar ((u &&& 0xff000000) >>> 24), uchar ((u &&& 0xff0000) >>> 16),
      uchar ((u &&& 0xff00) >>> 8), uchar (u &&& 0xff)]

/-- The function `mp_encode_array`. -/
def mp_encode_array (buf : mp_buf) (n : Int) : mp_buf :=
  let b := mp_encode_array_b n
  mp_buf_append buf b b.length

/-- The array `b[0 .. enclen)` assembled by `mp_encode_map`. -/
def mp_encode_map_b (n : Int) : List Nat :=
  let u := bits 64 n
  if n ≤ 15 then
    [uchar (0x80 ||| (u &&& 0xf))]
  else if n ≤ 65535 then
    [0xde, uchar ((u &&& 0xff00) >>> 8), uchar (u &&& 0xff)]
  else
    [0xdf, uchar ((u &&& 0xff000000) >>> 24), uchar ((u &&& 0xff0000) >>> 16),
      uchar ((u &&& 0xff00) >>> 8), uchar (u &&& 0xff)]

/-- The function `mp_encode_map`. -/
def mp_encode_map (buf : mp_buf) (n : Int) : mp_buf :=
  let b := mp_encode_map_b n
  mp_buf_append buf b b.length

/-! ## Lua values -/

/-- The type tags returned by `lua_type`. -/
inductive LuaType where
  | LUA_TNIL | LUA_TBOOLEAN | LUA_TLIGHTUSERDATA | LUA_TNUMBER | LUA_TSTRING
  | LUA_TTABLE | LUA_TFUNCTION | LUA_TUSERDATA | LUA_TTHREAD
deriving DecidableEq, Repr

/-- Modelled from the spec: the values of the Lua stack (`lua.h` is not part of
the sources), described by what the Lua C API reports about them.

* `number n` is a `lua_Number` whose value is the integer `n`.
* `double d` is one of the remaining numbers, a `lua_Number` that is not an
  integer (a fraction, an infinity or a NaN), given by its 64 bits.
* `string s` is a Lua string with bytes `s`.
* `table entries` lists the key/value pairs of a table.  For a table read by
  the encoder this is the order in which `lua_next` enumerates them; for a
  table built by the decoder it is the order of its `lua_settable` calls.
* `lightuserdata pod` is a pointer, `pod` being the memory it points to.
* `userdata size pod` is a full userdata whose `__len` reports `size` and whose
  index `1` holds a pointer to `pod`.
* `func` is any value of another type. -/
inductive LuaValue where
  | nil
  | boolean (b : Bool)
  | number (n : Int)
  | double (d : Nat)
  | string (s : List Nat)
  | table (entries : List (LuaValue × LuaValue))
  | lightuserdata (pod : List Nat)
  | userdata (size : Nat) (pod : List Nat)
  | func
deriving Repr

/-- The API call `lua_type`. -/
def lua_type : LuaValue → LuaType
  | .nil => .LUA_TNIL
  | .boolean _ => .LUA_TBOOLEAN
  | .number _ => .LUA_TNUMBER
  | .double _ => .LUA_TNUMBER
  | .string _ => .LUA_TSTRING
  | .table _ => .LUA_TTABLE
  | .lightuserdata _ => .LUA_TLIGHTUSERDATA
  | .userdata _ _ => .LUA_TUSERDATA
  | .func => .LUA_TFUNCTION

/-- The value is `nil`. -/
def LuaValue.isNil : LuaValue → Bool
  | .nil => true
  | _ => false

/-- The key is the number `j`. -/
def LuaValue.isIndex (j : Int) : LuaValue → Bool
  | .number n => n == j
  | _ => false

/-- Look an integer key up in a list of entries that carry data of any kind. -/
def lookupIndex {α : Type} (es : List (LuaValue × α)) (j : Int) : Option α :=
  (es.find? (fun e => e.1.isIndex j)).map (fun e => e.2)

/-- The API calls `lua_pushinteger(L, j); lua_gettable(L, -2)` on a table
without metatable: the value stored under the integer key `j`, or `nil`. -/
def lua_gettable (es : List (LuaValue × LuaValue)) (j : Int) : LuaValue :=
  (lookupIndex es j).getD .nil

/-- Search of the least border from `n` upwards, at most `fuel` steps. -/
def lua_objlen.search (es : List (LuaValue × LuaValue)) : Nat → Nat → Nat
  | 0, n => n
  | fuel + 1, n => if (lua_gettable es ((n : Int) + 1)).isNil then n else lua_objlen.search es fuel (n + 1)

/-- Modelled from the spec: the API call `lua_objlen` / `lua_rawlen` on a table.
The reference manual allows any border (an index `n` with `t[n+1] == nil` and,
unless `n` is 0, `t[n] ~= nil`); the model returns the least one, which is the
only one when the keys are exactly `1..n`. -/
def lua_objlen (es : List (LuaValue × LuaValue)) : Nat :=
  lua_objlen.search es es.length 0

/-- The API call `lua_tointeger` on a number or on a value that does not
convert to a number, followed by the conversion to `size_t`. -/
def lua_tointeger : LuaValue → Nat
  | .number n => size_t (cast_int64 n)
  | .double d => size_t (double_to_int64 d)
  | _ => 0

/-- The API call `lua_pushnumber` on a `double`: the number pushed is
`number n` when the `double` holds the integer `n`, and `double d` otherwise. -/
def lua_pushnumber (d : Nat) : LuaValue :=
  if double_is_integer d then .number (double_trunc d) else .double d

/-- The API call `lua_typename`. -/
def lua_typename : LuaValue → String
  | .nil => "nil"
  | .boolean _ => "boolean"
  | .number _ => "number"
  | .double _ => "number"
  | .string _ => "string"
  | .table _ => "table"
  | .lightuserdata _ => "userdata"
  | .userdata _ _ => "userdata"
  | .func => "function"

/-- Modelled from the spec: the API calls `lua_pushinteger(L, j);
lua_gettable(L, -2)` with any value in the slot below the key.  A table
without metatable yields the value stored under `j`.  A value of another type
is taken to have no `__index` metamethod, as a light userdata has none, and the
call raises the Lua error of indexing such a value; the encoder reaches this
case with a light userdata only. -/
def lua_gettable_at (x : LuaValue) (j : Int) : Except String LuaValue :=
  match x with
  | .table es => .ok (lua_gettable es j)
  | _ => .error ("attempt to index a " ++ lua_typename x ++ " value")

/-- The API call `lua_touserdata`: the memory behind the pointer. -/
def lua_touserdata : LuaValue → List Nat
  | .lightuserdata pod => pod
  | .userdata _ pod => pod
  | _ => []

/-! ## Encoding of Lua values -/

/-- The constant `LUACMSGPACK_MAX_NESTING`. -/
def LUACMSGPACK_MAX_NESTING : Nat := 16

/-- The scan of `table_is_an_array`: `count` and `idx` are the two locals, the
list holds the entries `lua_next` has still to deliver. -/
def table_is_an_array.scan : List (LuaValue × LuaValue) → Int → Int → Bool
  | [], count, idx => idx == count
  | (k, _) :: rest, count, _ =>
    match k with
    | .number n =>
      let idx := cast_int64 n
      if idx ≠ n ∨ idx < 1 then false else table_is_an_array.scan rest (count + 1) idx
    | _ => false

/-- The function `table_is_an_array`.  A key that is a number but not an
integer fails the test `idx != n`; a key that is not a number leaves by the
test of its type. -/
def table_is_an_array (es : List (LuaValue × LuaValue)) : Bool :=
  table_is_an_array.scan es 0 0

/-- An action on the buffer: an encoding call with everything but the buffer
fixed.  It returns the buffer, or it raises a Lua error, which leaves the
encoder by a long jump. -/
abbrev Emit := mp_buf → Except String mp_buf

/-- The function `mp_encode_lua_table_as_lightuserdata`.  The first
`lua_gettable` leaves `t[1]` on the stack above the table; the function does
not pop it, so the second `lua_gettable(L, -2)` indexes `t[1]` and not the
table. -/
def mp_encode_lua_table_as_lightuserdata (es : List (LuaValue × LuaValue)) (buf : mp_buf) :
    Except String mp_buf :=
  let t1 := lua_gettable es 1
  let pv := lua_touserdata t1
  match lua_gettable_at t1 2 with
  | .error msg => .error msg
  | .ok x =>
    let len := lua_tointeger x
    .ok (mp_encode_binary buf pv len)

/-- The function `mp_encode_lua_table_as_array`.  The list `encs` pairs every
key of the table with the call of `mp_encode_lua_type` at `level+1` on its
value; an index without entry reads as `nil`, which `mp_encode_lua_type`
sends to `mp_encode_lua_null`. -/
def mp_encode_lua_table_as_array (es : List (LuaValue × LuaValue))
    (encs : List (LuaValue × Emit × Emit)) (buf : mp_buf) : Except String mp_buf :=
  let len := lua_objlen es
  (List.range' 1 len).foldlM
    (fun (b : mp_buf) (j : Nat) => match lookupIndex encs (j : Int) with
      | some e => e.2 b
      | none => .ok (mp_encode_null b))
    (mp_encode_array buf (len : Int))

/-- The function `mp_encode_lua_table_as_map`: the first loop counts the
entries, the second encodes each key and then its value. -/
def mp_encode_lua_table_as_map (es : List (LuaValue × LuaValue))
    (encs : List (LuaValue × Emit × Emit)) (buf : mp_buf) : Except String mp_buf :=
  let len := es.length
  encs.foldlM
    (fun (b : mp_buf) e => match e.2.1 b with
      | .error msg => .error msg
      | .ok b1 => e.2.2 b1)
    (mp_encode_map buf (len : Int))

/-- The function `mp_encode_lua_table`. -/
def mp_encode_lua_table (es : List (LuaValue × LuaValue))
    (encs : List (LuaValue × Emit × Emit)) (buf : mp_buf) : Except String mp_buf :=
  if table_is_an_array es then
    let aiType0 := lua_type (lua_gettable es 1)
    let aiType1 := lua_type (lua_gettable es 2)
    if aiType0 = .LUA_TLIGHTUSERDATA ∧ aiType1 = .LUA_TNUMBER then
      mp_encode_lua_table_as_lightuserdata es buf
    else
      mp_encode_lua_table_as_array es encs buf
  else
    mp_encode_lua_table_as_map es encs buf

/-- The function `mp_encode_lua_userdata`. -/
def mp_encode_lua_userdata (size : Nat) (pod : List Nat) (buf : mp_buf) : mp_buf :=
  if size > 0 then mp_encode_binary buf pod size else mp_encode_null buf

mutual
/-- The function `mp_encode_lua_type` (with `mp_encode_lua_string`,
`mp_encode_lua_bool`, `mp_encode_lua_number` and `mp_encode_lua_null` in
place).  Of a number that is an integer the test `floor(n) != n` of
`mp_encode_lua_number` fails; on another number it is made on the bits. -/
def mp_encode_lua_type (v : LuaValue) (buf : mp_buf) (level : Nat) : Except String mp_buf :=
  match v with
  | .string s => .ok (mp_encode_bytes buf s s.length)
  | .boolean b => .ok (mp_buf_append buf [if b then 0xc3 else 0xc2] 1)
  | .number n => .ok (mp_encode_int buf (cast_int64 n))
  | .double d =>
    if double_floor_eq d then .ok (mp_encode_int buf (double_to_int64 d))
    else .ok (mp_encode_double buf d)
  | .table es =>
    if level = LUACMSGPACK_MAX_NESTING then .ok (mp_encode_null buf)
    else mp_encode_lua_table es (encodeEntries es (level + 1)) buf
  | .userdata size pod => .ok (mp_encode_lua_userdata size pod buf)
  | .nil => .ok (mp_encode_null buf)
  | .lightuserdata _ => .ok (mp_encode_null buf)
  | .func => .ok (mp_encode_null buf)
/-- Every entry of a table with the two calls of `mp_encode_lua_type` the
table loops make for it: on its key and on its value. -/
def encodeEntries (es : List (LuaValue × LuaValue)) (level : Nat) : List (LuaValue × Emit × Emit) :=
  match es with
  | [] => []
  | (k, v) :: rest =>
    (k, (fun b => mp_encode_lua_type k b level), (fun b => mp_encode_lua_type v b level))
      :: encodeEntries rest level
end

/-- The function `_mp_pack` with the default allocator: the string pushed, or
the Lua error the encoder raised. -/
def _mp_pack (v : LuaValue) : Except String (List Nat) :=
  match mp_encode_lua_type v mp_buf_new 0 with
  | .ok buf => .ok buf.contents
  | .error msg => .error msg

/-! ## String cursor -/

/-- The constant `MP_CUR_ERROR_NONE`. -/
def MP_CUR_ERROR_NONE : Nat := 0
/-- The constant `MP_CUR_ERROR_EOF`. -/
def MP_CUR_ERROR_EOF : Nat := 1
/-- The constant `MP_CUR_ERROR_BADFMT`. -/
def MP_CUR_ERROR_BADFMT : Nat := 2

/-- The struct `mp_cur`: `p` is the memory from the read position onwards,
`left` the number of bytes the cursor may still read, `err` the error code. -/
structure mp_cur where
  p : List Nat
  left : Nat
  err : Nat
deriving DecidableEq, Repr

/-- The function `mp_cur_new`. -/
def mp_cur_new (s : List Nat) (len : Nat) : mp_cur :=
  { p := s, left := len, err := MP_CUR_ERROR_NONE }

/-- The macro `mp_cur_consume`; `len` is a `size_t` and `left -= len` wraps. -/
def mp_cur_consume (c : mp_cur) (len : Nat) : mp_cur :=
  { p := c.p.drop len, left := bits 64 ((c.left : Int) - (len : Int)), err := c.err }

/-- The byte `c->p[i]`. -/
def mp_cur.at (c : mp_cur) (i : Nat) : Nat := c.p.getD i 0

/-- The `l` bytes at `c->p + off`, as copied by `lua_pushlstring` and `alloc_userdata`. -/
def mp_cur.slice (c : mp_cur) (off l : Nat) : List Nat := (c.p.drop off).take l

/-- How a call of the decoder ends.
* `pushed c v`: it ran to its end and left `v` on the Lua stack;
* `unwound c`: it returned early, an error being latched in `c`;
* `raised c msg`: `lua_settable` raised a Lua error, which leaves the decoder
  by a long jump;
* `exhausted`: the recursion allowance of the model ran out. -/
inductive Step where
  | pushed (c : mp_cur) (v : LuaValue)
  | unwound (c : mp_cur)
  | raised (c : mp_cur) (msg : String)
  | exhausted
deriving Repr

/-- The macro `mp_cur_need`, followed by the rest `k` of the function. -/
def mp_cur_need (c : mp_cur) (len : Nat) (k : Step) : Step :=
  if c.left < len then .unwound { c with err := MP_CUR_ERROR_EOF } else k

/-- Modelled from the spec: the API call `lua_settable` on a table under
construction.  It raises a Lua error when the key is `nil` or a NaN and
records the assignment otherwise. -/
def lua_settable (t : List (LuaValue × LuaValue)) (k v : LuaValue) :
    Except String (List (LuaValue × LuaValue)) :=
  match k with
  | .nil => .error "table index is nil"
  | .double d => if double_isnan d then .error "table index is NaN" else .ok (t ++ [(k, v)])
  | _ => .ok (t ++ [(k, v)])

/-! ## Decoding -/

/-- The loop of `mp_decode_to_lua_array`; `dec` is the call of
`mp_decode_to_lua_type`, `index` the `int` local and `t` the table built so far. -/
def mp_decode_to_lua_array.loop (dec : mp_cur → Step) :
    Nat → mp_cur → Int → List (LuaValue × LuaValue) → Step
  | 0, c, _, t => .pushed c (.table t)
  | len + 1, c, index, t =>
    match dec c with
    | .pushed c1 v =>
      if c1.err ≠ 0 then .unwound c1
      else mp_decode_to_lua_array.loop dec len c1 (signed 32 (bits 32 (index + 1)))
        (t ++ [(.number index, v)])
    | r => r

/-- The function `mp_decode_to_lua_array`. -/
def mp_decode_to_lua_array (dec : mp_cur → Step) (c : mp_cur) (len : Nat) : Step :=
  mp_decode_to_lua_array.loop dec len c 1 []

/-- The loop of `mp_decode_to_lua_hash`. -/
def mp_decode_to_lua_hash.loop (dec : mp_cur → Step) :
    Nat → mp_cur → List (LuaValue × LuaValue) → Step
  | 0, c, t => .pushed c (.table t)
  | len + 1, c, t =>
    match dec c with
    | .pushed c1 k =>
      if c1.err ≠ 0 then .unwound c1
      else
        match dec c1 with
        | .pushed c2 v =>
          if c2.err ≠ 0 then .unwound c2
          else
            match lua_settable t k v with
            | .ok t2 => mp_decode_to_lua_hash.loop dec len c2 t2
            | .error msg => .raised c2 msg
        | r => r
    | r => r

/-- The function `mp_decode_to_lua_hash`. -/
def mp_decode_to_lua_hash (dec : mp_cur → Step) (c : mp_cur) (len : Nat) : Step :=
  mp_decode_to_lua_hash.loop dec len c []

/-- The 16-bit length `(c->p[1] << 8) | c->p[2]`, an `int`, stored in a `size_t`. -/
def len16 (c : mp_cur) : Nat :=
  size_t (sor 32 (sshl 32 (c.at 1) 8) (c.at 2))

/-- The 32-bit length `(c->p[1] << 24) | (c->p[2] << 16) | (c->p[3] << 8) | c->p[4]`,
an `int`, stored in a `size_t`. -/
def len32 (c : mp_cur) : Nat :=
  size_t (sor 32 (sor 32 (sor 32 (sshl 32 (c.at 1) 24) (sshl 32 (c.at 2) 16)) (sshl 32 (c.at 3) 8))
    (c.at 4))

/-- Sum of two `size_t` values. -/
def add_size_t (a b : Nat) : Nat := (a + b) % 2 ^ 64

/-- The function `mp_decode_to_lua_type`, with an allowance `fuel` for the depth
of its recursion through `mp_decode_to_lua_array` and `mp_decode_to_lua_hash`.
The argument of `lua_pushnumber` is converted to `lua_Number`, a `double`:
an integer of at most 32 bits converts to itself, one of 64 bits is rounded by
`to_lua_Number`, a `float` widens by `double_of_float`. -/
def mp_decode_to_lua_type.go : Nat → mp_cur → Step
  | 0, _ => .exhausted
  | fuel + 1, c =>
    mp_cur_need c 1 <|
    let p0 := c.at 0
    if p0 = 0xcc then
      mp_cur_need c 2 <| .pushed (mp_cur_consume c 2) (.number (c.at 1))
    else if p0 = 0xd0 then
      mp_cur_need c 2 <| .pushed (mp_cur_consume c 2) (.number (signed 8 (c.at 1)))
    else if p0 = 0xcd then
      mp_cur_need c 3 <|
        .pushed (mp_cur_consume c 3) (.number (sor 32 (sshl 32 (c.at 1) 8) (c.at 2)))
    else if p0 = 0xd1 then
      mp_cur_need c 3 <|
        .pushed (mp_cur_consume c 3)
          (.number (sor 32 (signed 16 (bits 16 (sshl 32 (c.at 1) 8))) (c.at 2)))
    else if p0 = 0xce then
      mp_cur_need c 5 <|
        .pushed (mp_cur_consume c 5)
          (.number ((ushl 32 (c.at 1) 24 ||| ushl 32 (c.at 2) 16 ||| ushl 32 (c.at 3) 8
            ||| c.at 4 : Nat)))
    else if p0 = 0xd2 then
      mp_cur_need c 5 <|
        .pushed (mp_cur_consume c 5)
          (.number (sor 32 (sor 32 (sor 32 (sshl 32 (c.at 1) 24) (sshl 32 (c.at 2) 16))
            (sshl 32 (c.at 3) 8)) (c.at 4)))
    else if p0 = 0xcf then
      mp_cur_need c 9 <|
        .pushed (mp_cur_consume c 9)
          (.number (to_lua_Number ((ushl 64 (c.at 1) 56 ||| ushl 64 (c.at 2) 48
            ||| ushl 64 (c.at 3) 40 ||| ushl 64 (c.at 4) 32 ||| ushl 64 (c.at 5) 24
            ||| ushl 64 (c.at 6) 16 ||| ushl 64 (c.at 7) 8 ||| c.at 8 : Nat))))
    else if p0 = 0xd3 then
      mp_cur_need c 9 <|
        .pushed (mp_cur_consume c 9)
          (.number (to_lua_Number (sor 64 (sor 64 (sor 64 (sor 64 (sor 64 (sor 64 (sor 64
            (sshl 64 (c.at 1) 56) (sshl 64 (c.at 2) 48)) (sshl 64 (c.at 3) 40))
            (sshl 64 (c.at 4) 32)) (sshl 64 (c.at 5) 24)) (sshl 64 (c.at 6) 16))
            (sshl 64 (c.at 7) 8)) (c.at 8))))
    else if p0 = 0xc0 then
      .pushed (mp_cur_consume c 1) .nil
    else if p0 = 0xc3 then
      .pushed (mp_cur_consume c 1) (.boolean true)
    else if p0 = 0xc2 then
      .pushed (mp_cur_consume c 1) (.boolean false)
    else if p0 = 0xca then
      mp_cur_need c 5 <|
        let f := load_le (memrevifle [c.at 1, c.at 2, c.at 3, c.at 4] 4)
        .pushed (mp_cur_consume c 5) (lua_pushnumber (double_of_float f))
    else if p0 = 0xcb then
      mp_cur_need c 9 <|
        let d := load_le (memrevifle
          [c.at 1, c.at 2, c.at 3, c.at 4, c.at 5, c.at 6, c.at 7, c.at 8] 8)
        .pushed (mp_cur_consume c 9) (lua_pushnumber d)
    else if p0 = 0xda then
      mp_cur_need c 3 <|
        let l := len16 c
        mp_cur_need c (add_size_t 3 l) <|
          .pushed (mp_cur_consume c (add_size_t 3 l)) (.string (c.slice 3 l))
    else if p0 = 0xdb then
      mp_cur_need c 5 <|
        let l := len32 c
        mp_cur_need c (add_size_t 5 l) <|
          .pushed (mp_cur_consume c (add_size_t 5 l)) (.string (c.slice 5 l))
    else if p0 = 0xdc then
      mp_cur_need c 3 <|
        let l := len16 c
        mp_decode_to_lua_array (mp_decode_to_lua_type.go fuel) (mp_cur_consume c 3) l
    else if p0 = 0xdd then
      mp_cur_need c 5 <|
        let l := len32 c
        mp_decode_to_lua_array (mp_decode_to_lua_type.go fuel) (mp_cur_consume c 5) l
    else if p0 = 0xde then
      mp_cur_need c 3 <|
        let l := len16 c
        mp_decode_to_lua_hash (mp_decode_to_lua_type.go fuel) (mp_cur_consume c 3) l
    else if p0 = 0xdf then
      mp_cur_need c 5 <|
        let l := len32 c
        mp_decode_to_lua_hash (mp_decode_to_lua_type.go fuel) (mp_cur_consume c 5) l
    else if p0 = 0xc4 then
      mp_cur_need c 2 <|
        let l := c.at 1
        mp_cur_need c (add_size_t 2 l) <|
          .pushed (mp_cur_consume c (add_size_t 2 l)) (.userdata l (c.slice 2 l))
    else if p0 = 0xc5 then
      mp_cur_need c 3 <|
        let l := len16 c
        mp_cur_need c (add_size_t 3 l) <|
          .pushed (mp_cur_consume c (add_size_t 3 l)) (.userdata l (c.slice 3 l))
    else if p0 = 0xc6 then
      mp_cur_need c 5 <|
        let l := len32 c
        mp_cur_need c (add_size_t 5 l) <|
          .pushed (mp_cur_consume c (add_size_t 5 l)) (.userdata l (c.slice 5 l))
    else if p0 &&& 0x80 = 0 then
      .pushed (mp_cur_consume c 1) (.number p0)
    else if p0 &&& 0xe0 = 0xe0 then
      .pushed (mp_cur_consume c 1) (.number (signed 8 p0))
    else if p0 &&& 0xe0 = 0xa0 then
      let l := p0 &&& 0x1f
      mp_cur_need c (add_size_t 1 l) <|
        .pushed (mp_cur_consume c (add_size_t 1 l)) (.string (c.slice 1 l))
    else if p0 &&& 0xf0 = 0x90 then
      let l := p0 &&& 0xf
      mp_decode_to_lua_array (mp_decode_to_lua_type.go fuel) (mp_cur_consume c 1) l
    else if p0 &&& 0xf0 = 0x80 then
      let l := p0 &&& 0xf
      mp_decode_to_lua_hash (mp_decode_to_lua_type.go fuel) (mp_cur_consume c 1) l
    else
      .unwound { c with err := MP_CUR_ERROR_BADFMT }

/-- The function `mp_decode_to_lua_type`.  Every level of recursion consumes a
header byte first, so an allowance of `left + 1` levels is never used up. -/
def mp_decode_to_lua_type (c : mp_cur) : Step :=
  mp_decode_to_lua_type.go (c.left + 1) c

/-- How a call of `_mp_unpack` ends: with the decoded value on the stack, or
with a Lua error carrying a message. -/
inductive Unpacked where
  | value (v : LuaValue)
  | error (msg : String)
  | exhausted
deriving Repr

/-- The function `_mp_unpack`. -/
def _mp_unpack (data : List Nat) (len : Nat) : Unpacked :=
  let c := mp_cur_new data len
  match mp_decode_to_lua_type c with
  | .exhausted => .exhausted
  | .raised _ msg => .error msg
  | .unwound c =>
    if c.err = MP_CUR_ERROR_EOF then .error "Missing bytes in input."
    else if c.err = MP_CUR_ERROR_BADFMT then .error "Bad data format in input."
    else if c.left ≠ 0 then .error "Extra bytes in input."
    else .value .nil
  | .pushed c v =>
    if c.err = MP_CUR_ERROR_EOF then .error "Missing bytes in input."
    else if c.err = MP_CUR_ERROR_BADFMT then .error "Bad data format in input."
    else if c.left ≠ 0 then .error "Extra bytes in input."
    else .value v

/-- The function `mp_unpack` on a string argument. -/
def mp_unpack (s : List Nat) : Unpacked := _mp_unpack s s.length

/-! ## The ladders in the words of the specification -/

/-- The representation of `n` in `w` bytes, two's complement, most significant
byte first. -/
def bigEndian (w : Nat) (n : Int) : List Nat :=
  (List.range w).map (fun i => bits (8 * w) n / 256 ^ (w - 1 - i) % 256)

/-- The range of `int64_t`. -/
def isInt64 (n : Int) : Prop := -(2 : Int) ^ 63 ≤ n ∧ n < (2 : Int) ^ 63

/-- The integer ladder: what the specification says `mp_encode_int` appends. -/
def int_ladder (n : Int) : List Nat :=
  if 0 ≤ n ∧ n ≤ 127 then [n.toNat]
  else if 128 ≤ n ∧ n ≤ 255 then 0xcc :: bigEndian 1 n
  else if 256 ≤ n ∧ n ≤ 65535 then 0xcd :: bigEndian 2 n
  else if 65536 ≤ n ∧ n ≤ 4294967295 then 0xce :: bigEndian 4 n
  else if 4294967295 < n then 0xcf :: bigEndian 8 n
  else if -32 ≤ n ∧ n ≤ -1 then [(n % 256).toNat]
  else if -128 ≤ n ∧ n ≤ -33 then 0xd0 :: bigEndian 1 n
  else if -32768 ≤ n ∧ n ≤ -129 then 0xd1 :: bigEndian 2 n
  else if -2147483648 ≤ n ∧ n ≤ -32769 then 0xd2 :: bigEndian 4 n
  else 0xd3 :: bigEndian 8 n

/-- The float ladder in the words of the specification: the tag `0xca` and the
big-endian `float` of `d` when converting `d` to `float` and back reproduces
`d`, as judged by the comparison `==`; the tag `0xcb` and the big-endian
`double` otherwise. -/
def double_ladder (d : Nat) : List Nat :=
  if double_eq d (double_of_float (float_of_double d)) then
    0xca :: bigEndian 4 (float_of_double d)
  else 0xcb :: bigEndian 8 d

/-- The bits `d` are those of the positive `double` nearest to the fraction
`p / q`: with the significand `M` and the exponent field `e < 1075` of `d`, the
value `M / 2^(1075-e)` lies within half a unit of the last place, which is
`1 / 2^(1076-e)`, of `p / q`. -/
def double_nearest (d p q : Nat) : Prop :=
  let e := d / 2 ^ 52 % 2048
  let M := 2 ^ 52 + d % 2 ^ 52
  d / 2 ^ 63 % 2 = 0 ∧ 1 ≤ e ∧ e < 1075 ∧
    2 * ((M * q - p * 2 ^ (1075 - e)) + (p * 2 ^ (1075 - e) - M * q)) ≤ q

/-- The raw-string header in the words of the specification. -/
def raw_header (len : Nat) : List Nat :=
  if len < 32 then [0xa0 ||| len]
  else if 32 ≤ len ∧ len ≤ 0xffff then 0xda :: bigEndian 2 len
  else 0xdb :: bigEndian 4 len

/-- The array header in the words of the specification. -/
def array_header (n : Nat) : List Nat :=
  if n ≤ 15 then [0x90 ||| n]
  else if 16 ≤ n ∧ n ≤ 65535 then 0xdc :: bigEndian 2 n
  else 0xdd :: bigEndian 4 n

/-- The map header in the words of the specification. -/
def map_header (n : Nat) : List Nat :=
  if n ≤ 15 then [0x80 ||| n]
  else if 16 ≤ n ∧ n ≤ 65535 then 0xde :: bigEndian 2 n
  else 0xdf :: bigEndian 4 n

/-- A complete encoding of the integer family: a positive or negative fixint,
or one of the tags `0xcc..0xcf`, `0xd0..0xd3` followed by its payload of fixed
width. -/
def isIntFamily (b : List Nat) : Prop :=
  (∀ x ∈ b, x < 256) ∧
    match b with
    | [t] => t < 0x80 ∨ 0xe0 ≤ t
    | [t, _] => t = 0xcc ∨ t = 0xd0
    | [t, _, _] => t = 0xcd ∨ t = 0xd1
    | [t, _, _, _, _] => t = 0xce ∨ t = 0xd2
    | [t, _, _, _, _, _, _, _, _] => t = 0xcf ∨ t = 0xd3
    | _ => False

/-- The value of the local `idx` of `table_is_an_array` after a scan that did
not leave by `goto not_array`: the last key enumerated, or the initial value. -/
def lastIndex : List (LuaValue × LuaValue) → Int → Int
  | [], idx => idx
  | (k, _) :: rest, idx =>
    lastIndex rest (match k with
      | .number n => n
      | _ => idx)

/-- A block of `n` zero bytes. -/
def zeros (n : Nat) : List Nat := List.replicate n 0

/-- The bytes a call has added to the buffer `before`, the buffer after it
being `after`. -/
def written (before after : mp_buf) : List Nat := after.contents.drop before.len

/-! ## Values within the limits of the format, and what the round trip makes of them -/

/-- The bytes `mp_encode_lua_type` writes for `v` at `level` into a new buffer;
none when the call raises an error. -/
def packed (v : LuaValue) (level : Nat) : List Nat :=
  match mp_encode_lua_type v mp_buf_new level with
  | .ok buf => buf.contents
  | .error _ => []

/-- The call `f` returns, keeps the buffer inside its block and adds exactly
the bytes `w`. -/
def Appends (f : Emit) (w : List Nat) : Prop :=
  ∀ buf : mp_buf, buf.inBlock →
    ∃ b : mp_buf, f buf = .ok b ∧ b.inBlock ∧ b.contents = buf.contents ++ w

/-- One pass of the second loop of `mp_encode_lua_table_as_map`: the key of the
entry is encoded, then its value, unless the key raised an error. -/
def encodePair (level : Nat) (b : mp_buf) (e : LuaValue × LuaValue) : Except String mp_buf :=
  match mp_encode_lua_type e.1 b level with
  | .error msg => .error msg
  | .ok b1 => mp_encode_lua_type e.2 b1 level

/-- The table takes the branch of `mp_encode_lua_table` that is meant for a
blob, the call of `mp_encode_lua_table_as_lightuserdata`. -/
def isBlobTable (es : List (LuaValue × LuaValue)) : Bool :=
  table_is_an_array es && (decide (lua_type (lua_gettable es 1) = .LUA_TLIGHTUSERDATA)
    && decide (lua_type (lua_gettable es 2) = .LUA_TNUMBER))

/-- A key `lua_settable` accepts: neither `nil` nor a NaN. -/
def keyOk : LuaValue → Bool
  | .nil => false
  | .double d => !double_isnan d
  | _ => true

mutual
/-- What packing `v` at `level` and unpacking the bytes yields: scalars as they
are; `nil` for a table at level 16 and for a value of a type without encoding;
for a table on the array branch the entries `1 ↦ t[1]`, ..., `n ↦ t[n]` with
`n = lua_objlen`; for a table on the map branch its pairs in the order of
`lua_next`. -/
def canon (v : LuaValue) (level : Nat) : LuaValue :=
  match v with
  | .nil => .nil
  | .boolean b => .boolean b
  | .number n => .number n
  | .double d => .double d
  | .string s => .string s
  | .table es =>
    if level = LUACMSGPACK_MAX_NESTING then .nil
    else if table_is_an_array es then
      .table ((List.range' 1 (lua_objlen es)).map
        (fun (j : Nat) => (LuaValue.number (j : Int),
          ((lookupIndex (canonEntries es (level + 1)) (j : Int)).map (fun e => e.2)).getD .nil)))
    else .table ((canonEntries es (level + 1)).map (fun e => e.2))
  | .lightuserdata _ => .nil
  | .userdata size pod => .userdata size pod
  | .func => .nil
/-- Every entry of a table with what the round trip makes of its key and of
its value; the key itself is kept for the lookup by index. -/
def canonEntries (es : List (LuaValue × LuaValue)) (level : Nat) :
    List (LuaValue × LuaValue × LuaValue) :=
  match es with
  | [] => []
  | (k, v) :: rest => (k, canon k level, canon v level) :: canonEntries rest level
end

mutual
/-- The value encoded at `level` is within the limits of the format: an integer lies in the range of `int64_t` and is a value of `double`,
another number is given by 64 bits that are not those of an integer or of an
infinity, strings are shorter than `2^31` bytes, tables have fewer than `2^31` entries and do not
take the blob branch, there is no full userdata, and every key of a table
comes back from the round trip as a key `lua_settable` accepts.  Below level
16 nothing is asked of a table. -/
def Fits (v : LuaValue) (level : Nat) : Prop :=
  match v with
  | .nil => True
  | .boolean _ => True
  | .number n => isInt64 n ∧ to_lua_Number n = n
  | .double d => d < 2 ^ 64 ∧ double_floor_eq d = false
  | .string s => s.length < 2 ^ 31
  | .table es =>
    level = LUACMSGPACK_MAX_NESTING ∨
      (es.length < 2 ^ 31 ∧ isBlobTable es = false ∧ FitsEntries es (level + 1))
  | .lightuserdata _ => True
  | .userdata _ _ => False
  | .func => True
/-- The entries of a table are within the limits. -/
def FitsEntries (es : List (LuaValue × LuaValue)) (level : Nat) : Prop :=
  match es with
  | [] => True
  | (k, v) :: rest =>
    Fits k level ∧ Fits v level ∧ keyOk (canon k level) = true ∧ FitsEntries rest level
end

/-- The bytes of a table that takes the array branch. -/
def arrayBytes (es : List (LuaValue × LuaValue)) (level : Nat) : List Nat :=
  mp_encode_array_b (lua_objlen es : Int) ++
    (List.range' 1 (lua_objlen es)).flatMap
      (fun (j : Nat) => packed (lua_gettable es (j : Int)) (level + 1))

/-- The bytes of a table that takes the map branch. -/
def mapBytes (es : List (LuaValue × LuaValue)) (level : Nat) : List Nat :=
  mp_encode_map_b (es.length : Int) ++
    es.flatMap (fun e => packed e.1 (level + 1) ++ packed e.2 (level + 1))

/-- The entries `mp_decode_to_lua_array` sets for the decoded values `vals`,
the local `index` starting at `index`. -/
def arrayEntries : Int → List LuaValue → List (LuaValue × LuaValue)
  | _, [] => []
  | index, v :: rest => (.number index, v) :: arrayEntries (signed 32 (bits 32 (index + 1))) rest

/-- One call of the decoder on the bytes packed for `v` at `level`, whatever
follows them, latches no error, consumes exactly these bytes and pushes
`canon v level`, provided the allowance exceeds their number. -/
def DecodesTo (v : LuaValue) (level : Nat) : Prop :=
  ∀ (fuel : Nat) (rest : List Nat) (left : Nat), (packed v level).length < fuel →
    (packed v level).length ≤ left → left < 2 ^ 64 →
    mp_decode_to_lua_type.go fuel { p := packed v level ++ rest, left := left, err := 0 }
      = .pushed { p := rest, left := left - (packed v level).length, err := 0 } (canon v level)

/-! ## What a decoding call may do to the cursor, and nested test values -/

/-- The outcome of a decoding call started on the cursor `c` stays within `c`:
the allowance of the model did not run out and the cursor did not gain bytes;
a call that ran to its end or left by a Lua error kept the error code; a call
that returned early latched `MP_CUR_ERROR_EOF` or `MP_CUR_ERROR_BADFMT`, or
found the code it started with set. -/
def Step.within (c : mp_cur) : Step → Prop
  | .pushed c1 _ => c1.left ≤ c.left ∧ c1.err = c.err
  | .unwound c1 => c1.left ≤ c.left ∧
      (c1.err = MP_CUR_ERROR_EOF ∨ c1.err = MP_CUR_ERROR_BADFMT ∨ (c1.err = c.err ∧ c.err ≠ 0))
  | .raised c1 _ => c1.left ≤ c.left ∧ c1.err = c.err
  | .exhausted => False

/-- The value `v` wrapped in `n` tables, each holding the next under the key 1:
a structure nested `n` levels deep. -/
def nest : Nat → LuaValue → LuaValue
  | 0, v => v
  | n + 1, v => .table [(.number 1, nest n v)]

/-! ## Buffers reached from `mp_buf_new`, and decoding calls that test the error -/

/-- The size of the block `buf->b` points to: the capacity of the buffer. -/
def mp_buf.capacity (buf : mp_buf) : Nat := buf.b.length

/-- The buffer after the calls `mp_buf_append(buf, s, n)`, `n` being the length
of `s`, for the byte sequences of `ss` in order, starting from `mp_buf_new`. -/
def appendAll (ss : List (List Nat)) : mp_buf :=
  ss.foldl (fun b s => mp_buf_append b s s.length) mp_buf_new

/-- What holds of every buffer reached from `mp_buf_new`: the room the buffer
believes it has lies inside the block, and at least half of the block is
written. -/
def mp_buf.sound (buf : mp_buf) : Prop :=
  buf.len + buf.free ≤ buf.b.length ∧ buf.b.length ≤ 2 * buf.len

/-- An early return that comes from a single step: on the cursor `c1` with the
error cleared, one call of the decoder that makes no nested call (allowance 1)
latches the error of `c1` and returns the cursor with the same position and
the same remaining count. -/
def Step.latched : Step → Prop
  | .unwound c1 =>
      mp_decode_to_lua_type.go 1 { c1 with err := MP_CUR_ERROR_NONE } = .unwound c1
  | _ => True

/-- A decoding call that tests the error at entry, in the words of the
specification: on a cursor with a latched error it is a no-op that returns the
cursor as it is; otherwise it is `dec`. -/
def guarded (dec : mp_cur → Step) (c : mp_cur) : Step :=
  if c.err ≠ 0 then .unwound c else dec c

/-! ## Arithmetic of masks and shifts -/

theorem and_mask_shift (u k : Nat) : (u &&& (255 <<< k)) >>> k = (u / 2 ^ k) % 256 := by
  apply Nat.eq_of_testBit_eq
  intro i
  have h256 : (256 : Nat) = 2 ^ 8 := by norm_num
  rw [h256, Nat.testBit_mod_two_pow, ← Nat.shiftRight_eq_div_pow]
  simp only [Nat.testBit_shiftRight, Nat.testBit_and, Nat.testBit_shiftLeft]
  have h255 : (255 : Nat) = 2 ^ 8 - 1 := by norm_num
  rw [h255, Nat.testBit_two_pow_sub_one]
  by_cases h : i < 8
  · simp [h]
  · simp [h]

theorem or_eq_add (k a b : Nat) (ha : a % 2 ^ k = 0) (hb : b < 2 ^ k) : a ||| b = a + b := by
  have h := Nat.mul_add_lt_is_or hb (a / 2 ^ k)
  have h2 : 2 ^ k * (a / 2 ^ k) = a := by
    have := Nat.div_add_mod a (2 ^ k)
    omega
  rw [h2] at h
  exact h.symm

theorem mask_0 (u : Nat) : u &&& 0xff = u % 256 := by
  simpa using and_mask_shift u 0

theorem mask_8 (u : Nat) : (u &&& 0xff00) >>> 8 = u / 2 ^ 8 % 256 := by
  simpa using and_mask_shift u 8

theorem mask_16 (u : Nat) : (u &&& 0xff0000) >>> 16 = u / 2 ^ 16 % 256 := by
  simpa using and_mask_shift u 16

theorem mask_24 (u : Nat) : (u &&& 0xff000000) >>> 24 = u / 2 ^ 24 % 256 := by
  simpa using and_mask_shift u 24

theorem mask_32 (u : Nat) : (u &&& 0xff00000000) >>> 32 = u / 2 ^ 32 % 256 := by
  simpa using and_mask_shift u 32

theorem mask_40 (u : Nat) : (u &&& 0xff0000000000) >>> 40 = u / 2 ^ 40 % 256 := by
  simpa using and_mask_shift u 40

theorem mask_48 (u : Nat) : (u &&& 0xff000000000000) >>> 48 = u / 2 ^ 48 % 256 := by
  simpa using and_mask_shift u 48

theorem mask_56 (u : Nat) : (u &&& 0xff00000000000000) >>> 56 = u / 2 ^ 56 % 256 := by
  simpa using and_mask_shift u 56

theorem mask_7f (u : Nat) : u &&& 0x7f = u % 128 := by
  have h := Nat.and_pow_two_sub_one_eq_mod u 7
  simpa using h

theorem mask_f (u : Nat) : u &&& 0xf = u % 16 := by
  have h := Nat.and_pow_two_sub_one_eq_mod u 4
  simpa using h

/-! ## The string buffer -/

theorem realloc_length (b : List Nat) (size : Nat) : (realloc b size).length = size := by
  simp only [realloc, List.length_append, List.length_take, List.length_replicate]
  omega

theorem realloc_take (b : List Nat) (size n : Nat) (h1 : n ≤ size) (h2 : n ≤ b.length) :
    (realloc b size).take n = b.take n := by
  unfold realloc
  rw [List.take_append_of_le_length (by simp only [List.length_take]; omega), List.take_take]
  congr 1
  omega

theorem memcpy_take (dst src : List Nat) (off n : Nat) (h1 : off ≤ dst.length)
    (h2 : n ≤ src.length) : (memcpy dst off src n).take (off + n) = dst.take off ++ src.take n := by
  unfold memcpy
  rw [List.take_append_of_le_length (by simp only [List.length_append, List.length_take]; omega)]
  apply List.take_of_length_le
  simp only [List.length_append, List.length_take]
  omega

theorem memcpy_length (dst src : List Nat) (off n : Nat) (h1 : off + n ≤ dst.length)
    (h2 : n ≤ src.length) : (memcpy dst off src n).length = dst.length := by
  simp only [memcpy, List.length_append, List.length_take, List.length_drop]
  omega

/-- An append keeps the buffer inside its block and adds exactly the `n` bytes. -/
theorem mp_buf_append_spec (buf : mp_buf) (s : List Nat) (n : Nat) (h : buf.inBlock)
    (hn : n ≤ s.length) :
    (mp_buf_append buf s n).inBlock ∧
      (mp_buf_append buf s n).contents = buf.contents ++ s.take n := by
  unfold mp_buf.inBlock at h
  by_cases hf : buf.free < n
  · have hb : mp_buf_append buf s n =
        { b := memcpy (realloc buf.b ((buf.len + n) * 2)) buf.len s n, len := buf.len + n,
          free := buf.len + n - n } := by
      simp [mp_buf_append, hf]
    rw [hb]
    refine ⟨?_, ?_⟩
    · simp only [mp_buf.inBlock]
      rw [memcpy_length _ _ _ _ (by rw [realloc_length]; omega) hn, realloc_length]
      omega
    · simp only [mp_buf.contents]
      rw [memcpy_take _ _ _ _ (by rw [realloc_length]; omega) hn,
        realloc_take _ _ _ (by omega) (by omega)]
  · have hb : mp_buf_append buf s n =
        { b := memcpy buf.b buf.len s n, len := buf.len + n, free := buf.free - n } := by
      simp [mp_buf_append, hf]
    rw [hb]
    refine ⟨?_, ?_⟩
    · simp only [mp_buf.inBlock]
      rw [memcpy_length _ _ _ _ (by omega) hn]
      omega
    · simp only [mp_buf.contents]
      rw [memcpy_take _ _ _ _ (by omega) hn]

theorem mp_buf_new_inBlock : mp_buf_new.inBlock := by
  simp [mp_buf.inBlock, mp_buf_new]

theorem mp_buf_new_contents : mp_buf_new.contents = [] := by
  simp [mp_buf.contents, mp_buf_new]

/-! ## Integers -/

theorem bigEndian_1 (n : Int) : bigEndian 1 n = [bits 8 n % 256] := by
  simp [bigEndian, List.range_succ]

theorem bigEndian_2 (n : Int) : bigEndian 2 n = [bits 16 n / 2 ^ 8 % 256, bits 16 n % 256] := by
  simp [bigEndian, List.range_succ]

theorem bigEndian_4 (n : Int) : bigEndian 4 n =
    [bits 32 n / 2 ^ 24 % 256, bits 32 n / 2 ^ 16 % 256, bits 32 n / 2 ^ 8 % 256,
      bits 32 n % 256] := by
  simp [bigEndian, List.range_succ]

theorem bigEndian_8 (n : Int) : bigEndian 8 n =
    [bits 64 n / 2 ^ 56 % 256, bits 64 n / 2 ^ 48 % 256, bits 64 n / 2 ^ 40 % 256,
      bits 64 n / 2 ^ 32 % 256, bits 64 n / 2 ^ 24 % 256, bits 64 n / 2 ^ 16 % 256,
      bits 64 n / 2 ^ 8 % 256, bits 64 n % 256] := by
  simp [bigEndian, List.range_succ]

theorem int_tiers (n : Int) (h : isInt64 n) :
    (0 ≤ n ∧ n ≤ 127) ∨
    (128 ≤ n ∧ n ≤ 255) ∨
    (256 ≤ n ∧ n ≤ 65535) ∨
    (65536 ≤ n ∧ n ≤ 4294967295) ∨
    (4294967296 ≤ n ∧ n ≤ 9223372036854775807) ∨
    (-32 ≤ n ∧ n ≤ -1) ∨
    (-128 ≤ n ∧ n ≤ -33) ∨
    (-32768 ≤ n ∧ n ≤ -129) ∨
    (-2147483648 ≤ n ∧ n ≤ -32769) ∨
    (-9223372036854775808 ≤ n ∧ n ≤ -2147483649) := by
  unfold isInt64 at h
  omega

/-- The array assembled by `mp_encode_int` is the ladder of the specification. -/
theorem mp_encode_int_b_eq (n : Int) (h : isInt64 n) : mp_encode_int_b n = int_ladder n := by
  have ht := int_tiers n h
  obtain ⟨h1, h2⟩ := h
  unfold mp_encode_int_b int_ladder
  simp only [uchar, mask_0, mask_8, mask_16, mask_24, mask_32, mask_40, mask_48, mask_56, mask_7f,
    bigEndian_1, bigEndian_2, bigEndian_4, bigEndian_8, bits, ge_iff_le]
  rcases ht with t | t | t | t | t | t | t | t | t | t
  · simp only [show 0 ≤ n from by omega,
      show n ≤ 127 from by omega,
      show ¬ 128 ≤ n from by omega,
      show n ≤ 255 from by omega,
      show ¬ 256 ≤ n from by omega,
      show n ≤ 65535 from by omega,
      show ¬ 65536 ≤ n from by omega,
      show n ≤ 4294967295 from by omega,
      show ¬ 4294967295 < n from by omega,
      show -32 ≤ n from by omega,
      show ¬ n ≤ -1 from by omega,
      show -128 ≤ n from by omega,
      show ¬ n ≤ -33 from by omega,
      show -32768 ≤ n from by omega,
      show ¬ n ≤ -129 from by omega,
      show -2147483648 ≤ n from by omega,
      show ¬ n ≤ -32769 from by omega,
      and_self, and_true, true_and, and_false, false_and, if_true, if_false, not_true_eq_false,
      not_false_eq_true, List.cons.injEq]
    omega
  · simp only [show 0 ≤ n from by omega,
      show ¬ n ≤ 127 from by omega,
      show 128 ≤ n from by omega,
      show n ≤ 255 from by omega,
      show ¬ 256 ≤ n from by omega,
      show n ≤ 65535 from by omega,
      show ¬ 65536 ≤ n from by omega,
      show n ≤ 4294967295 from by omega,
      show ¬ 4294967295 < n from by omega,
      show -32 ≤ n from by omega,
      show ¬ n ≤ -1 from by omega,
      show -128 ≤ n from by omega,
      show ¬ n ≤ -33 from by omega,
      show -32768 ≤ n from by omega,
      show ¬ n ≤ -129 from by omega,
      show -2147483648 ≤ n from by omega,
      show ¬ n ≤ -32769 from by omega,
      and_self, and_true, true_and, and_false, false_and, if_true, if_false, not_true_eq_false,
      not_false_eq_true, List.cons.injEq]
    omega
  · simp only [show 0 ≤ n from by omega,
      show ¬ n ≤ 127 from by omega,
      show 128 ≤ n from by omega,
      show ¬ n ≤ 255 from by omega,
      show 256 ≤ n from by omega,
      show n ≤ 65535 from by omega,
      show ¬ 65536 ≤ n from by omega,
      show n ≤ 4294967295 from by omega,
      show ¬ 4294967295 < n from by omega,
      show -32 ≤ n from by omega,
      show ¬ n ≤ -1 from by omega,
      show -128 ≤ n from by omega,
      show ¬ n ≤ -33 from by omega,
      show -32768 ≤ n from by omega,
      show ¬ n ≤ -129 from by omega,
      show -2147483648 ≤ n from by omega,
      show ¬ n ≤ -32769 from by omega,
      and_self, and_true, true_and, and_false, false_and, if_true, if_false, not_true_eq_false,
      not_false_eq_true, List.cons.injEq]
    omega
  · simp only [show 0 ≤ n from by omega,
      show ¬ n ≤ 127 from by omega,
      show 128 ≤ n from by omega,
      show ¬ n ≤ 255 from by omega,
      show 256 ≤ n from by omega,
      show ¬ n ≤ 65535 from by omega,
      show 65536 ≤ n from by omega,
      show n ≤ 4294967295 from by omega,
      show ¬ 4294967295 < n from by omega,
      show -32 ≤ n from by omega,
      show ¬ n ≤ -1 from by omega,
      show -128 ≤ n from by omega,
      show ¬ n ≤ -33 from by omega,
      show -32768 ≤ n from by omega,
      show ¬ n ≤ -129 from by omega,
      show -2147483648 ≤ n from by omega,
      show ¬ n ≤ -32769 from by omega,
      and_self, and_true, true_and, and_false, false_and, if_true, if_false, not_true_eq_false,
      not_false_eq_true, List.cons.injEq]
    omega
  · simp only [show 0 ≤ n from by omega,
      show ¬ n ≤ 127 from by omega,
      show 128 ≤ n from by omega,
      show ¬ n ≤ 255 from by omega,
      show 256 ≤ n from by omega,
      show ¬ n ≤ 65535 from by omega,
      show 65536 ≤ n from by omega,
      show ¬ n ≤ 4294967295 from by omega,
      show 4294967295 < n from by omega,
      show -32 ≤ n from by omega,
      show ¬ n ≤ -1 from by omega,
      show -128 ≤ n from by omega,
      show ¬ n ≤ -33 from by omega,
      show -32768 ≤ n from by omega,
      show ¬ n ≤ -129 from by omega,
      show -2147483648 ≤ n from by omega,
      show ¬ n ≤ -32769 from by omega,
      and_self, and_true, true_and, and_false, false_and, if_true, if_false, not_true_eq_false,
      not_false_eq_true, List.cons.injEq]
    omega
  · simp only [show ¬ 0 ≤ n from by omega,
      show n ≤ 127 from by omega,
      show ¬ 128 ≤ n from by omega,
      show n ≤ 255 from by omega,
      show ¬ 256 ≤ n from by omega,
      show n ≤ 65535 from by omega,
      show ¬ 65536 ≤ n from by omega,
      show n ≤ 4294967295 from by omega,
      show ¬ 4294967295 < n from by omega,
      show -32 ≤ n from by omega,
      show n ≤ -1 from by omega,
      show -128 ≤ n from by omega,
      show ¬ n ≤ -33 from by omega,
      show -32768 ≤ n from by omega,
      show ¬ n ≤ -129 from by omega,
      show -2147483648 ≤ n from by omega,
      show ¬ n ≤ -32769 from by omega,
      and_self, and_true, true_and, and_false, false_and, if_true, if_false, not_true_eq_false,
      not_false_eq_true, List.cons.injEq]
    omega
  · simp only [show ¬ 0 ≤ n from by omega,
      show n ≤ 127 from by omega,
      show ¬ 128 ≤ n from by omega,
      show n ≤ 255 from by omega,
      show ¬ 256 ≤ n from by omega,
      show n ≤ 65535 from by omega,
      show ¬ 65536 ≤ n from by omega,
      show n ≤ 4294967295 from by omega,
      show ¬ 4294967295 < n from by omega,
      show ¬ -32 ≤ n from by omega,
      show n ≤ -1 from by omega,
      show -128 ≤ n from by omega,
      show n ≤ -33 from by omega,
      show -32768 ≤ n from by omega,
      show ¬ n ≤ -129 from by omega,
      show -2147483648 ≤ n from by omega,
      show ¬ n ≤ -32769 from by omega,
      and_self, and_true, true_and, and_false, false_and, if_true, if_false, not_true_eq_false,
      not_false_eq_true, List.cons.injEq]
    omega
  · simp only [show ¬ 0 ≤ n from by omega,
      show n ≤ 127 from by omega,
      show ¬ 128 ≤ n from by omega,
      show n ≤ 255 from by omega,
      show ¬ 256 ≤ n from by omega,
      show n ≤ 65535 from by omega,
      show ¬ 65536 ≤ n from by omega,
      show n ≤ 4294967295 from by omega,
      show ¬ 4294967295 < n from by omega,
      show ¬ -32 ≤ n from by omega,
      show n ≤ -1 from by omega,
      show ¬ -128 ≤ n from by omega,
      show n ≤ -33 from by omega,
      show -32768 ≤ n from by omega,
      show n ≤ -129 from by omega,
      show -2147483648 ≤ n from by omega,
      show ¬ n ≤ -32769 from by omega,
      and_self, and_true, true_and, and_false, false_and, if_true, if_false, not_true_eq_false,
      not_false_eq_true, List.cons.injEq]
    omega
  · simp only [show ¬ 0 ≤ n from by omega,
      show n ≤ 127 from by omega,
      show ¬ 128 ≤ n from by omega,
      show n ≤ 255 from by omega,
      show ¬ 256 ≤ n from by omega,
      show n ≤ 65535 from by omega,
      show ¬ 65536 ≤ n from by omega,
      show n ≤ 4294967295 from by omega,
      show ¬ 4294967295 < n from by omega,
      show ¬ -32 ≤ n from by omega,
      show n ≤ -1 from by omega,
      show ¬ -128 ≤ n from by omega,
      show n ≤ -33 from by omega,
      show ¬ -32768 ≤ n from by omega,
      show n ≤ -129 from by omega,
      show -2147483648 ≤ n from by omega,
      show n ≤ -32769 from by omega,
      and_self, and_true, true_and, and_false, false_and, if_true, if_false, not_true_eq_false,
      not_false_eq_true, List.cons.injEq]
    omega
  · simp only [show ¬ 0 ≤ n from by omega,
      show n ≤ 127 from by omega,
      show ¬ 128 ≤ n from by omega,
      show n ≤ 255 from by omega,
      show ¬ 256 ≤ n from by omega,
      show n ≤ 65535 from by omega,
      show ¬ 65536 ≤ n from by omega,
      show n ≤ 4294967295 from by omega,
      show ¬ 4294967295 < n from by omega,
      show ¬ -32 ≤ n from by omega,
      show n ≤ -1 from by omega,
      show ¬ -128 ≤ n from by omega,
      show n ≤ -33 from by omega,
      show ¬ -32768 ≤ n from by omega,
      show n ≤ -129 from by omega,
      show ¬ -2147483648 ≤ n from by omega,
      show n ≤ -32769 from by omega,
      and_self, and_true, true_and, and_false, false_and, if_true, if_false, not_true_eq_false,
      not_false_eq_true, List.cons.injEq]
    omega

/-! ## Values of the decoder's integer expressions -/

theorem bits_natCast_32 (x : Nat) (h : x < 2 ^ 32) : bits 32 (x : Int) = x := by
  unfold bits; omega

theorem bits_natCast_64 (x : Nat) (h : x < 2 ^ 64) : bits 64 (x : Int) = x := by
  unfold bits; omega

theorem bits_signed_32 (u : Nat) (h : u < 2 ^ 32) : bits 32 (signed 32 u) = u := by
  unfold bits signed; split_ifs <;> omega

theorem bits_signed_64 (u : Nat) (h : u < 2 ^ 64) : bits 64 (signed 64 u) = u := by
  unfold bits signed; split_ifs <;> omega

theorem sshl_32 (x k : Nat) (h : x * 2 ^ k < 2 ^ 32) : sshl 32 (x : Int) k = signed 32 (x * 2 ^ k) := by
  have hx : x < 2 ^ 32 := lt_of_le_of_lt (Nat.le_mul_of_pos_right x (Nat.two_pow_pos k)) h
  unfold sshl
  rw [bits_natCast_32 x hx, Nat.shiftLeft_eq]

theorem sshl_64 (x k : Nat) (h : x * 2 ^ k < 2 ^ 64) : sshl 64 (x : Int) k = signed 64 (x * 2 ^ k) := by
  have hx : x < 2 ^ 64 := lt_of_le_of_lt (Nat.le_mul_of_pos_right x (Nat.two_pow_pos k)) h
  unfold sshl
  rw [bits_natCast_64 x hx, Nat.shiftLeft_eq]

theorem sor_32 (u v : Nat) (hu : u < 2 ^ 32) (hv : v < 2 ^ 32) :
    sor 32 (signed 32 u) (signed 32 v) = signed 32 (u ||| v) := by
  unfold sor
  rw [bits_signed_32 u hu, bits_signed_32 v hv]

theorem sor_32_nat (u v : Nat) (hu : u < 2 ^ 32) (hv : v < 2 ^ 32) :
    sor 32 (signed 32 u) (v : Int) = signed 32 (u ||| v) := by
  unfold sor
  rw [bits_signed_32 u hu, bits_natCast_32 v hv]

theorem sor_64 (u v : Nat) (hu : u < 2 ^ 64) (hv : v < 2 ^ 64) :
    sor 64 (signed 64 u) (signed 64 v) = signed 64 (u ||| v) := by
  unfold sor
  rw [bits_signed_64 u hu, bits_signed_64 v hv]

theorem sor_64_nat (u v : Nat) (hu : u < 2 ^ 64) (hv : v < 2 ^ 64) :
    sor 64 (signed 64 u) (v : Int) = signed 64 (u ||| v) := by
  unfold sor
  rw [bits_signed_64 u hu, bits_natCast_64 v hv]

/-- The expression `(p1 << 8) | p2` on two bytes. -/
theorem val_16 (b1 b2 : Nat) (h1 : b1 < 256) (h2 : b2 < 256) :
    sor 32 (sshl 32 (b1 : Int) 8) (b2 : Int) = ((b1 * 2 ^ 8 + b2 : Nat) : Int) := by
  rw [sshl_32 b1 8 (by omega), sor_32_nat _ _ (by omega) (by omega),
    or_eq_add 8 _ _ (by omega) (by omega)]
  unfold signed
  split_ifs <;> omega

/-- The expression `(int16_t)(p1 << 8) | p2` on two bytes. -/
theorem val_16s (b1 b2 : Nat) (h1 : b1 < 256) (h2 : b2 < 256) :
    sor 32 (signed 16 (bits 16 (sshl 32 (b1 : Int) 8))) (b2 : Int)
      = signed 16 (b1 * 2 ^ 8 + b2) := by
  rw [sshl_32 b1 8 (by omega)]
  have e : signed 16 (bits 16 (signed 32 (b1 * 2 ^ 8)))
      = signed 32 (if b1 < 128 then b1 * 2 ^ 8 else b1 * 2 ^ 8 + (2 ^ 32 - 2 ^ 16)) := by
    unfold signed bits
    split_ifs <;> omega
  rw [e, sor_32_nat _ _ (by split_ifs <;> omega) (by omega),
    or_eq_add 8 _ _ (by split_ifs <;> omega) (by omega)]
  unfold signed
  split_ifs <;> omega

/-- The 32-bit pattern assembled from four bytes by shifts and ors. -/
theorem or_32 (b1 b2 b3 b4 : Nat) (h2 : b2 < 256) (h3 : b3 < 256)
    (h4 : b4 < 256) :
    b1 * 2 ^ 24 ||| b2 * 2 ^ 16 ||| b3 * 2 ^ 8 ||| b4
      = b1 * 2 ^ 24 + b2 * 2 ^ 16 + b3 * 2 ^ 8 + b4 := by
  rw [or_eq_add 24 (b1 * 2 ^ 24) _ (by omega) (by omega),
    or_eq_add 16 (b1 * 2 ^ 24 + b2 * 2 ^ 16) _ (by omega) (by omega),
    or_eq_add 8 _ b4 (by omega) (by omega)]

/-- The `int` expression `(p1 << 24) | (p2 << 16) | (p3 << 8) | p4` on four bytes. -/
theorem val_32s (b1 b2 b3 b4 : Nat) (h1 : b1 < 256) (h2 : b2 < 256) (h3 : b3 < 256)
    (h4 : b4 < 256) :
    sor 32 (sor 32 (sor 32 (sshl 32 (b1 : Int) 24) (sshl 32 (b2 : Int) 16)) (sshl 32 (b3 : Int) 8))
      (b4 : Int) = signed 32 (b1 * 2 ^ 24 + b2 * 2 ^ 16 + b3 * 2 ^ 8 + b4) := by
  rw [sshl_32 b1 24 (by omega), sshl_32 b2 16 (by omega), sshl_32 b3 8 (by omega),
    sor_32 _ _ (by omega) (by omega),
    or_eq_add 24 (b1 * 2 ^ 24) _ (by omega) (by omega),
    sor_32 _ _ (by omega) (by omega),
    or_eq_add 16 (b1 * 2 ^ 24 + b2 * 2 ^ 16) _ (by omega) (by omega),
    sor_32_nat _ _ (by omega) (by omega),
    or_eq_add 8 _ b4 (by omega) (by omega)]

/-- The `uint32_t` expression on four bytes. -/
theorem val_32u (b1 b2 b3 b4 : Nat) (h1 : b1 < 256) (h2 : b2 < 256) (h3 : b3 < 256)
    (h4 : b4 < 256) :
    ushl 32 b1 24 ||| ushl 32 b2 16 ||| ushl 32 b3 8 ||| b4
      = b1 * 2 ^ 24 + b2 * 2 ^ 16 + b3 * 2 ^ 8 + b4 := by
  have e1 : ushl 32 b1 24 = b1 * 2 ^ 24 := by unfold ushl; rw [Nat.shiftLeft_eq]; omega
  have e2 : ushl 32 b2 16 = b2 * 2 ^ 16 := by unfold ushl; rw [Nat.shiftLeft_eq]; omega
  have e3 : ushl 32 b3 8 = b3 * 2 ^ 8 := by unfold ushl; rw [Nat.shiftLeft_eq]; omega
  rw [e1, e2, e3, or_32 b1 b2 b3 b4 h2 h3 h4]

/-- The 64-bit pattern assembled from eight bytes by shifts and ors. -/
theorem or_64 (b1 b2 b3 b4 b5 b6 b7 b8 : Nat) (h2 : b2 < 256) (h3 : b3 < 256)
    (h4 : b4 < 256) (h5 : b5 < 256) (h6 : b6 < 256) (h7 : b7 < 256) (h8 : b8 < 256) :
    b1 * 2 ^ 56 ||| b2 * 2 ^ 48 ||| b3 * 2 ^ 40 ||| b4 * 2 ^ 32 ||| b5 * 2 ^ 24 ||| b6 * 2 ^ 16
        ||| b7 * 2 ^ 8 ||| b8
      = b1 * 2 ^ 56 + b2 * 2 ^ 48 + b3 * 2 ^ 40 + b4 * 2 ^ 32 + b5 * 2 ^ 24 + b6 * 2 ^ 16
        + b7 * 2 ^ 8 + b8 := by
  rw [or_eq_add 56 (b1 * 2 ^ 56) _ (by omega) (by omega),
    or_eq_add 48 (b1 * 2 ^ 56 + b2 * 2 ^ 48) _ (by omega) (by omega),
    or_eq_add 40 (b1 * 2 ^ 56 + b2 * 2 ^ 48 + b3 * 2 ^ 40) _ (by omega) (by omega),
    or_eq_add 32 (b1 * 2 ^ 56 + b2 * 2 ^ 48 + b3 * 2 ^ 40 + b4 * 2 ^ 32) _ (by omega) (by omega),
    or_eq_add 24 (b1 * 2 ^ 56 + b2 * 2 ^ 48 + b3 * 2 ^ 40 + b4 * 2 ^ 32 + b5 * 2 ^ 24) _
      (by omega) (by omega),
    or_eq_add 16 (b1 * 2 ^ 56 + b2 * 2 ^ 48 + b3 * 2 ^ 40 + b4 * 2 ^ 32 + b5 * 2 ^ 24
      + b6 * 2 ^ 16) _ (by omega) (by omega),
    or_eq_add 8 _ b8 (by omega) (by omega)]

/-- The `uint64_t` expression on eight bytes. -/
theorem val_64u (b1 b2 b3 b4 b5 b6 b7 b8 : Nat) (h1 : b1 < 256) (h2 : b2 < 256) (h3 : b3 < 256)
    (h4 : b4 < 256) (h5 : b5 < 256) (h6 : b6 < 256) (h7 : b7 < 256) (h8 : b8 < 256) :
    ushl 64 b1 56 ||| ushl 64 b2 48 ||| ushl 64 b3 40 ||| ushl 64 b4 32 ||| ushl 64 b5 24
        ||| ushl 64 b6 16 ||| ushl 64 b7 8 ||| b8
      = b1 * 2 ^ 56 + b2 * 2 ^ 48 + b3 * 2 ^ 40 + b4 * 2 ^ 32 + b5 * 2 ^ 24 + b6 * 2 ^ 16
        + b7 * 2 ^ 8 + b8 := by
  have e1 : ushl 64 b1 56 = b1 * 2 ^ 56 := by unfold ushl; rw [Nat.shiftLeft_eq]; omega
  have e2 : ushl 64 b2 48 = b2 * 2 ^ 48 := by unfold ushl; rw [Nat.shiftLeft_eq]; omega
  have e3 : ushl 64 b3 40 = b3 * 2 ^ 40 := by unfold ushl; rw [Nat.shiftLeft_eq]; omega
  have e4 : ushl 64 b4 32 = b4 * 2 ^ 32 := by unfold ushl; rw [Nat.shiftLeft_eq]; omega
  have e5 : ushl 64 b5 24 = b5 * 2 ^ 24 := by unfold ushl; rw [Nat.shiftLeft_eq]; omega
  have e6 : ushl 64 b6 16 = b6 * 2 ^ 16 := by unfold ushl; rw [Nat.shiftLeft_eq]; omega
  have e7 : ushl 64 b7 8 = b7 * 2 ^ 8 := by unfold ushl; rw [Nat.shiftLeft_eq]; omega
  rw [e1, e2, e3, e4, e5, e6, e7, or_64 b1 b2 b3 b4 b5 b6 b7 b8 h2 h3 h4 h5 h6 h7 h8]

/-- The `int64_t` expression on eight bytes. -/
theorem val_64s (b1 b2 b3 b4 b5 b6 b7 b8 : Nat) (h1 : b1 < 256) (h2 : b2 < 256) (h3 : b3 < 256)
    (h4 : b4 < 256) (h5 : b5 < 256) (h6 : b6 < 256) (h7 : b7 < 256) (h8 : b8 < 256) :
    sor 64 (sor 64 (sor 64 (sor 64 (sor 64 (sor 64 (sor 64
      (sshl 64 (b1 : Int) 56) (sshl 64 (b2 : Int) 48)) (sshl 64 (b3 : Int) 40))
      (sshl 64 (b4 : Int) 32)) (sshl 64 (b5 : Int) 24)) (sshl 64 (b6 : Int) 16))
      (sshl 64 (b7 : Int) 8)) (b8 : Int)
      = signed 64 (b1 * 2 ^ 56 + b2 * 2 ^ 48 + b3 * 2 ^ 40 + b4 * 2 ^ 32 + b5 * 2 ^ 24
        + b6 * 2 ^ 16 + b7 * 2 ^ 8 + b8) := by
  rw [sshl_64 b1 56 (by omega), sshl_64 b2 48 (by omega), sshl_64 b3 40 (by omega),
    sshl_64 b4 32 (by omega), sshl_64 b5 24 (by omega), sshl_64 b6 16 (by omega),
    sshl_64 b7 8 (by omega),
    sor_64 _ _ (by omega) (by omega),
    or_eq_add 56 (b1 * 2 ^ 56) _ (by omega) (by omega),
    sor_64 _ _ (by omega) (by omega),
    or_eq_add 48 (b1 * 2 ^ 56 + b2 * 2 ^ 48) _ (by omega) (by omega),
    sor_64 _ _ (by omega) (by omega),
    or_eq_add 40 (b1 * 2 ^ 56 + b2 * 2 ^ 48 + b3 * 2 ^ 40) _ (by omega) (by omega),
    sor_64 _ _ (by omega) (by omega),
    or_eq_add 32 (b1 * 2 ^ 56 + b2 * 2 ^ 48 + b3 * 2 ^ 40 + b4 * 2 ^ 32) _ (by omega) (by omega),
    sor_64 _ _ (by omega) (by omega),
    or_eq_add 24 (b1 * 2 ^ 56 + b2 * 2 ^ 48 + b3 * 2 ^ 40 + b4 * 2 ^ 32 + b5 * 2 ^ 24) _
      (by omega) (by omega),
    sor_64 _ _ (by omega) (by omega),
    or_eq_add 16 (b1 * 2 ^ 56 + b2 * 2 ^ 48 + b3 * 2 ^ 40 + b4 * 2 ^ 32 + b5 * 2 ^ 24
      + b6 * 2 ^ 16) _ (by omega) (by omega),
    sor_64_nat _ _ (by omega) (by omega),
    or_eq_add 8 _ b8 (by omega) (by omega)]

/-! ## One step of the decoder on the integer family -/

set_option maxRecDepth 100000 in
theorem and_80 : ∀ x < 256, (x &&& 0x80 = 0) = (x < 128) := by decide

set_option maxRecDepth 100000 in
theorem and_e0 : ∀ x < 256, (x &&& 0xe0 = 0xe0) = (224 ≤ x) := by decide

set_option maxRecDepth 100000 in
theorem and_e0_a0 : ∀ x < 256, (x &&& 0xe0 = 0xa0) = (160 ≤ x ∧ x < 192) := by decide

set_option maxRecDepth 100000 in
theorem and_f0_90 : ∀ x < 256, (x &&& 0xf0 = 0x90) = (144 ≤ x ∧ x < 160) := by decide

set_option maxRecDepth 100000 in
theorem and_f0_80 : ∀ x < 256, (x &&& 0xf0 = 0x80) = (128 ≤ x ∧ x < 144) := by decide

theorem rne_zero (m : Nat) : rne m 0 = m := by
  have h : m % 1 = 0 := Nat.mod_one m
  simp [rne, h]

theorem excess_bits_small (a : Nat) (h : a < 2 ^ 53) : excess_bits a = 0 := by
  unfold excess_bits
  rw [List.length_eq_zero, List.filter_eq_nil_iff]
  intro i hi
  rw [List.mem_range] at hi
  have : 2 ^ 53 ≤ 2 ^ (53 + i) := Nat.pow_le_pow_right (by omega) (by omega)
  simp only [decide_eq_true_eq]
  omega

/-- An integer of at most 53 bits, and the power `2^53` itself, converts to
`lua_Number` without change. -/
theorem to_lua_Number_exact (x : Int) (h1 : -(2 : Int) ^ 53 ≤ x) (h2 : x ≤ (2 : Int) ^ 53) :
    to_lua_Number x = x := by
  by_cases e1 : x = (2 : Int) ^ 53
  · subst e1; decide
  by_cases e2 : x = -(2 : Int) ^ 53
  · subst e2; decide
  have ha : x.natAbs < 2 ^ 53 := by omega
  unfold to_lua_Number
  simp only [excess_bits_small _ ha, rne_zero, pow_zero, mul_one]
  split_ifs <;> omega

theorem go_cc (fuel b1 left err : Nat) (rest : List Nat) (hf : 0 < fuel) (h : 2 ≤ left) :
    mp_decode_to_lua_type.go fuel { p := 0xcc :: b1 :: rest, left := left, err := err }
      = .pushed { p := rest, left := bits 64 ((left : Int) - 2), err := err }
        (.number ((b1 : Int))) := by
  obtain ⟨f, rfl⟩ := Nat.exists_eq_succ_of_ne_zero (Nat.pos_iff_ne_zero.mp hf)
  simp [mp_decode_to_lua_type.go, mp_cur_need, mp_cur.at, mp_cur_consume,
    show ¬ left = 0 from by omega, show ¬ left < 2 from by omega]

theorem go_d0 (fuel b1 left err : Nat) (rest : List Nat) (hf : 0 < fuel) (h : 2 ≤ left) :
    mp_decode_to_lua_type.go fuel { p := 0xd0 :: b1 :: rest, left := left, err := err }
      = .pushed { p := rest, left := bits 64 ((left : Int) - 2), err := err }
        (.number (signed 8 b1)) := by
  obtain ⟨f, rfl⟩ := Nat.exists_eq_succ_of_ne_zero (Nat.pos_iff_ne_zero.mp hf)
  simp [mp_decode_to_lua_type.go, mp_cur_need, mp_cur.at, mp_cur_consume,
    show ¬ left = 0 from by omega, show ¬ left < 2 from by omega]

theorem go_cd (fuel b1 b2 left err : Nat) (rest : List Nat) (hf : 0 < fuel) (h : 3 ≤ left) :
    mp_decode_to_lua_type.go fuel { p := 0xcd :: b1 :: b2 :: rest, left := left, err := err }
      = .pushed { p := rest, left := bits 64 ((left : Int) - 3), err := err }
        (.number (sor 32 (sshl 32 (b1 : Int) 8) (b2 : Int))) := by
  obtain ⟨f, rfl⟩ := Nat.exists_eq_succ_of_ne_zero (Nat.pos_iff_ne_zero.mp hf)
  simp [mp_decode_to_lua_type.go, mp_cur_need, mp_cur.at, mp_cur_consume,
    show ¬ left = 0 from by omega, show ¬ left < 3 from by omega]

theorem go_d1 (fuel b1 b2 left err : Nat) (rest : List Nat) (hf : 0 < fuel) (h : 3 ≤ left) :
    mp_decode_to_lua_type.go fuel { p := 0xd1 :: b1 :: b2 :: rest, left := left, err := err }
      = .pushed { p := rest, left := bits 64 ((left : Int) - 3), err := err }
        (.number (sor 32 (signed 16 (bits 16 (sshl 32 (b1 : Int) 8))) (b2 : Int))) := by
  obtain ⟨f, rfl⟩ := Nat.exists_eq_succ_of_ne_zero (Nat.pos_iff_ne_zero.mp hf)
  simp [mp_decode_to_lua_type.go, mp_cur_need, mp_cur.at, mp_cur_consume,
    show ¬ left = 0 from by omega, show ¬ left < 3 from by omega]

theorem go_ce (fuel b1 b2 b3 b4 left err : Nat) (rest : List Nat) (hf : 0 < fuel) (h : 5 ≤ left) :
    mp_decode_to_lua_type.go fuel { p := 0xce :: b1 :: b2 :: b3 :: b4 :: rest, left := left, err := err }
      = .pushed { p := rest, left := bits 64 ((left : Int) - 5), err := err }
        (.number (((ushl 32 b1 24 ||| ushl 32 b2 16 ||| ushl 32 b3 8 ||| b4 : Nat) : Int))) := by
  obtain ⟨f, rfl⟩ := Nat.exists_eq_succ_of_ne_zero (Nat.pos_iff_ne_zero.mp hf)
  simp [mp_decode_to_lua_type.go, mp_cur_need, mp_cur.at, mp_cur_consume,
    show ¬ left = 0 from by omega, show ¬ left < 5 from by omega]

theorem go_d2 (fuel b1 b2 b3 b4 left err : Nat) (rest : List Nat) (hf : 0 < fuel) (h : 5 ≤ left) :
    mp_decode_to_lua_type.go fuel { p := 0xd2 :: b1 :: b2 :: b3 :: b4 :: rest, left := left, err := err }
      = .pushed { p := rest, left := bits 64 ((left : Int) - 5), err := err }
        (.number (sor 32 (sor 32 (sor 32 (sshl 32 (b1 : Int) 24) (sshl 32 (b2 : Int) 16)) (sshl 32 (b3 : Int) 8)) (b4 : Int))) := by
  obtain ⟨f, rfl⟩ := Nat.exists_eq_succ_of_ne_zero (Nat.pos_iff_ne_zero.mp hf)
  simp [mp_decode_to_lua_type.go, mp_cur_need, mp_cur.at, mp_cur_consume,
    show ¬ left = 0 from by omega, show ¬ left < 5 from by omega]

theorem go_cf (fuel b1 b2 b3 b4 b5 b6 b7 b8 left err : Nat) (rest : List Nat) (hf : 0 < fuel) (h : 9 ≤ left) :
    mp_decode_to_lua_type.go fuel { p := 0xcf :: b1 :: b2 :: b3 :: b4 :: b5 :: b6 :: b7 :: b8 :: rest, left := left, err := err }
      = .pushed { p := rest, left := bits 64 ((left : Int) - 9), err := err }
        (.number (to_lua_Number ((ushl 64 b1 56 ||| ushl 64 b2 48 ||| ushl 64 b3 40 ||| ushl 64 b4 32 ||| ushl 64 b5 24 ||| ushl 64 b6 16 ||| ushl 64 b7 8 ||| b8 : Nat) : Int))) := by
  obtain ⟨f, rfl⟩ := Nat.exists_eq_succ_of_ne_zero (Nat.pos_iff_ne_zero.mp hf)
  simp [mp_decode_to_lua_type.go, mp_cur_need, mp_cur.at, mp_cur_consume,
    show ¬ left = 0 from by omega, show ¬ left < 9 from by omega]

theorem go_d3 (fuel b1 b2 b3 b4 b5 b6 b7 b8 left err : Nat) (rest : List Nat) (hf : 0 < fuel) (h : 9 ≤ left) :
    mp_decode_to_lua_type.go fuel { p := 0xd3 :: b1 :: b2 :: b3 :: b4 :: b5 :: b6 :: b7 :: b8 :: rest, left := left, err := err }
      = .pushed { p := rest, left := bits 64 ((left : Int) - 9), err := err }
        (.number (to_lua_Number (sor 64 (sor 64 (sor 64 (sor 64 (sor 64 (sor 64 (sor 64 (sshl 64 (b1 : Int) 56) (sshl 64 (b2 : Int) 48)) (sshl 64 (b3 : Int) 40)) (sshl 64 (b4 : Int) 32)) (sshl 64 (b5 : Int) 24)) (sshl 64 (b6 : Int) 16)) (sshl 64 (b7 : Int) 8)) (b8 : Int)))) := by
  obtain ⟨f, rfl⟩ := Nat.exists_eq_succ_of_ne_zero (Nat.pos_iff_ne_zero.mp hf)
  simp [mp_decode_to_lua_type.go, mp_cur_need, mp_cur.at, mp_cur_consume,
    show ¬ left = 0 from by omega, show ¬ left < 9 from by omega]

theorem go_fixpos (fuel p0 left err : Nat) (rest : List Nat) (hf : 0 < fuel) (h : 1 ≤ left) (hp : p0 < 128) :
    mp_decode_to_lua_type.go fuel { p := p0 :: rest, left := left, err := err }
      = .pushed { p := rest, left := bits 64 ((left : Int) - 1), err := err } (.number (p0 : Int)) := by
  obtain ⟨f, rfl⟩ := Nat.exists_eq_succ_of_ne_zero (Nat.pos_iff_ne_zero.mp hf)
  have hb : p0 &&& 0x80 = 0 := by rw [and_80 p0 (by omega)]; exact hp
  simp [mp_decode_to_lua_type.go, mp_cur_need, mp_cur.at, mp_cur_consume,
    show ¬ left = 0 from by omega, hb,
    show ¬ p0 = 0xcc from by omega, show ¬ p0 = 0xd0 from by omega, show ¬ p0 = 0xcd from by omega, show ¬ p0 = 0xd1 from by omega, show ¬ p0 = 0xce from by omega, show ¬ p0 = 0xd2 from by omega, show ¬ p0 = 0xcf from by omega, show ¬ p0 = 0xd3 from by omega, show ¬ p0 = 0xc0 from by omega, show ¬ p0 = 0xc3 from by omega, show ¬ p0 = 0xc2 from by omega, show ¬ p0 = 0xca from by omega, show ¬ p0 = 0xcb from by omega, show ¬ p0 = 0xda from by omega, show ¬ p0 = 0xdb from by omega, show ¬ p0 = 0xdc from by omega, show ¬ p0 = 0xdd from by omega, show ¬ p0 = 0xde from by omega, show ¬ p0 = 0xdf from by omega, show ¬ p0 = 0xc4 from by omega, show ¬ p0 = 0xc5 from by omega, show ¬ p0 = 0xc6 from by omega]

theorem go_fixneg (fuel p0 left err : Nat) (rest : List Nat) (hf : 0 < fuel) (h : 1 ≤ left) (hp : 224 ≤ p0)
    (hq : p0 < 256) :
    mp_decode_to_lua_type.go fuel { p := p0 :: rest, left := left, err := err }
      = .pushed { p := rest, left := bits 64 ((left : Int) - 1), err := err }
        (.number (signed 8 p0)) := by
  obtain ⟨f, rfl⟩ := Nat.exists_eq_succ_of_ne_zero (Nat.pos_iff_ne_zero.mp hf)
  have hb : ¬ p0 &&& 0x80 = 0 := by rw [and_80 p0 hq]; omega
  have hc : p0 &&& 0xe0 = 0xe0 := by rw [and_e0 p0 hq]; exact hp
  simp [mp_decode_to_lua_type.go, mp_cur_need, mp_cur.at, mp_cur_consume,
    show ¬ left = 0 from by omega, hb, hc,
    show ¬ p0 = 0xcc from by omega, show ¬ p0 = 0xd0 from by omega, show ¬ p0 = 0xcd from by omega, show ¬ p0 = 0xd1 from by omega, show ¬ p0 = 0xce from by omega, show ¬ p0 = 0xd2 from by omega, show ¬ p0 = 0xcf from by omega, show ¬ p0 = 0xd3 from by omega, show ¬ p0 = 0xc0 from by omega, show ¬ p0 = 0xc3 from by omega, show ¬ p0 = 0xc2 from by omega, show ¬ p0 = 0xca from by omega, show ¬ p0 = 0xcb from by omega, show ¬ p0 = 0xda from by omega, show ¬ p0 = 0xdb from by omega, show ¬ p0 = 0xdc from by omega, show ¬ p0 = 0xdd from by omega, show ¬ p0 = 0xde from by omega, show ¬ p0 = 0xdf from by omega, show ¬ p0 = 0xc4 from by omega, show ¬ p0 = 0xc5 from by omega, show ¬ p0 = 0xc6 from by omega]

/-- The bytes `mp_encode_int` adds to a buffer are the array it assembles. -/
theorem mp_encode_int_contents (buf : mp_buf) (n : Int) (h : buf.inBlock) :
    (mp_encode_int buf n).inBlock ∧
      (mp_encode_int buf n).contents = buf.contents ++ mp_encode_int_b n := by
  have hs := mp_buf_append_spec buf (mp_encode_int_b n) (mp_encode_int_b n).length h (le_refl _)
  rw [List.take_length] at hs
  exact hs

theorem int_ladder_fixpos (n : Int) (h1 : 0 ≤ n) (h2 : n ≤ 127) :
    int_ladder n = [n.toNat] := by
  unfold int_ladder
  simp only [show 0 ≤ n from by omega, show n ≤ 127 from by omega, show ¬ 128 ≤ n from by omega, show n ≤ 255 from by omega, show ¬ 256 ≤ n from by omega, show n ≤ 65535 from by omega, show ¬ 65536 ≤ n from by omega, show n ≤ 4294967295 from by omega, show ¬ 4294967295 < n from by omega, show -32 ≤ n from by omega, show ¬ n ≤ -1 from by omega, show -128 ≤ n from by omega, show ¬ n ≤ -33 from by omega, show -32768 ≤ n from by omega, show ¬ n ≤ -129 from by omega, show -2147483648 ≤ n from by omega, show ¬ n ≤ -32769 from by omega,
    and_self, and_true, true_and, and_false, false_and, if_true, if_false, bigEndian_1,
    bigEndian_2, bigEndian_4, bigEndian_8]

theorem int_ladder_cc (n : Int) (h1 : 128 ≤ n) (h2 : n ≤ 255) :
    int_ladder n = [0xcc, bits 8 n % 256] := by
  unfold int_ladder
  simp only [show 0 ≤ n from by omega, show ¬ n ≤ 127 from by omega, show 128 ≤ n from by omega, show n ≤ 255 from by omega, show ¬ 256 ≤ n from by omega, show n ≤ 65535 from by omega, show ¬ 65536 ≤ n from by omega, show n ≤ 4294967295 from by omega, show ¬ 4294967295 < n from by omega, show -32 ≤ n from by omega, show ¬ n ≤ -1 from by omega, show -128 ≤ n from by omega, show ¬ n ≤ -33 from by omega, show -32768 ≤ n from by omega, show ¬ n ≤ -129 from by omega, show -2147483648 ≤ n from by omega, show ¬ n ≤ -32769 from by omega,
    and_self, and_true, true_and, and_false, false_and, if_true, if_false, bigEndian_1,
    bigEndian_2, bigEndian_4, bigEndian_8]

theorem int_ladder_cd (n : Int) (h1 : 256 ≤ n) (h2 : n ≤ 65535) :
    int_ladder n = [0xcd, bits 16 n / 2 ^ 8 % 256, bits 16 n % 256] := by
  unfold int_ladder
  simp only [show 0 ≤ n from by omega, show ¬ n ≤ 127 from by omega, show 128 ≤ n from by omega, show ¬ n ≤ 255 from by omega, show 256 ≤ n from by omega, show n ≤ 65535 from by omega, show ¬ 65536 ≤ n from by omega, show n ≤ 4294967295 from by omega, show ¬ 4294967295 < n from by omega, show -32 ≤ n from by omega, show ¬ n ≤ -1 from by omega, show -128 ≤ n from by omega, show ¬ n ≤ -33 from by omega, show -32768 ≤ n from by omega, show ¬ n ≤ -129 from by omega, show -2147483648 ≤ n from by omega, show ¬ n ≤ -32769 from by omega,
    and_self, and_true, true_and, and_false, false_and, if_true, if_false, bigEndian_1,
    bigEndian_2, bigEndian_4, bigEndian_8]

theorem int_ladder_ce (n : Int) (h1 : 65536 ≤ n) (h2 : n ≤ 4294967295) :
    int_ladder n = [0xce, bits 32 n / 2 ^ 24 % 256, bits 32 n / 2 ^ 16 % 256, bits 32 n / 2 ^ 8 % 256, bits 32 n % 256] := by
  unfold int_ladder
  simp only [show 0 ≤ n from by omega, show ¬ n ≤ 127 from by omega, show 128 ≤ n from by omega, show ¬ n ≤ 255 from by omega, show 256 ≤ n from by omega, show ¬ n ≤ 65535 from by omega, show 65536 ≤ n from by omega, show n ≤ 4294967295 from by omega, show ¬ 4294967295 < n from by omega, show -32 ≤ n from by omega, show ¬ n ≤ -1 from by omega, show -128 ≤ n from by omega, show ¬ n ≤ -33 from by omega, show -32768 ≤ n from by omega, show ¬ n ≤ -129 from by omega, show -2147483648 ≤ n from by omega, show ¬ n ≤ -32769 from by omega,
    and_self, and_true, true_and, and_false, false_and, if_true, if_false, bigEndian_1,
    bigEndian_2, bigEndian_4, bigEndian_8]

theorem int_ladder_cf (n : Int) (h1 : 4294967296 ≤ n) (h2 : n ≤ 9223372036854775807) :
    int_ladder n = [0xcf, bits 64 n / 2 ^ 56 % 256, bits 64 n / 2 ^ 48 % 256, bits 64 n / 2 ^ 40 % 256, bits 64 n / 2 ^ 32 % 256, bits 64 n / 2 ^ 24 % 256, bits 64 n / 2 ^ 16 % 256, bits 64 n / 2 ^ 8 % 256, bits 64 n % 256] := by
  unfold int_ladder
  simp only [show 0 ≤ n from by omega, show ¬ n ≤ 127 from by omega, show 128 ≤ n from by omega, show ¬ n ≤ 255 from by omega, show 256 ≤ n from by omega, show ¬ n ≤ 65535 from by omega, show 65536 ≤ n from by omega, show ¬ n ≤ 4294967295 from by omega, show 4294967295 < n from by omega, show -32 ≤ n from by omega, show ¬ n ≤ -1 from by omega, show -128 ≤ n from by omega, show ¬ n ≤ -33 from by omega, show -32768 ≤ n from by omega, show ¬ n ≤ -129 from by omega, show -2147483648 ≤ n from by omega, show ¬ n ≤ -32769 from by omega,
    and_self, and_true, true_and, and_false, false_and, if_true, if_false, bigEndian_1,
    bigEndian_2, bigEndian_4, bigEndian_8]

theorem int_ladder_fixneg (n : Int) (h1 : -32 ≤ n) (h2 : n ≤ -1) :
    int_ladder n = [(n % 256).toNat] := by
  unfold int_ladder
  simp only [show ¬ 0 ≤ n from by omega, show n ≤ 127 from by omega, show ¬ 128 ≤ n from by omega, show n ≤ 255 from by omega, show ¬ 256 ≤ n from by omega, show n ≤ 65535 from by omega, show ¬ 65536 ≤ n from by omega, show n ≤ 4294967295 from by omega, show ¬ 4294967295 < n from by omega, show -32 ≤ n from by omega, show n ≤ -1 from by omega, show -128 ≤ n from by omega, show ¬ n ≤ -33 from by omega, show -32768 ≤ n from by omega, show ¬ n ≤ -129 from by omega, show -2147483648 ≤ n from by omega, show ¬ n ≤ -32769 from by omega,
    and_self, and_true, true_and, and_false, false_and, if_true, if_false, bigEndian_1,
    bigEndian_2, bigEndian_4, bigEndian_8]

theorem int_ladder_d0 (n : Int) (h1 : -128 ≤ n) (h2 : n ≤ -33) :
    int_ladder n = [0xd0, bits 8 n % 256] := by
  unfold int_ladder
  simp only [show ¬ 0 ≤ n from by omega, show n ≤ 127 from by omega, show ¬ 128 ≤ n from by omega, show n ≤ 255 from by omega, show ¬ 256 ≤ n from by omega, show n ≤ 65535 from by omega, show ¬ 65536 ≤ n from by omega, show n ≤ 4294967295 from by omega, show ¬ 4294967295 < n from by omega, show ¬ -32 ≤ n from by omega, show n ≤ -1 from by omega, show -128 ≤ n from by omega, show n ≤ -33 from by omega, show -32768 ≤ n from by omega, show ¬ n ≤ -129 from by omega, show -2147483648 ≤ n from by omega, show ¬ n ≤ -32769 from by omega,
    and_self, and_true, true_and, and_false, false_and, if_true, if_false, bigEndian_1,
    bigEndian_2, bigEndian_4, bigEndian_8]

theorem int_ladder_d1 (n : Int) (h1 : -32768 ≤ n) (h2 : n ≤ -129) :
    int_ladder n = [0xd1, bits 16 n / 2 ^ 8 % 256, bits 16 n % 256] := by
  unfold int_ladder
  simp only [show ¬ 0 ≤ n from by omega, show n ≤ 127 from by omega, show ¬ 128 ≤ n from by omega, show n ≤ 255 from by omega, show ¬ 256 ≤ n from by omega, show n ≤ 65535 from by omega, show ¬ 65536 ≤ n from by omega, show n ≤ 4294967295 from by omega, show ¬ 4294967295 < n from by omega, show ¬ -32 ≤ n from by omega, show n ≤ -1 from by omega, show ¬ -128 ≤ n from by omega, show n ≤ -33 from by omega, show -32768 ≤ n from by omega, show n ≤ -129 from by omega, show -2147483648 ≤ n from by omega, show ¬ n ≤ -32769 from by omega,
    and_self, and_true, true_and, and_false, false_and, if_true, if_false, bigEndian_1,
    bigEndian_2, bigEndian_4, bigEndian_8]

theorem int_ladder_d2 (n : Int) (h1 : -2147483648 ≤ n) (h2 : n ≤ -32769) :
    int_ladder n = [0xd2, bits 32 n / 2 ^ 24 % 256, bits 32 n / 2 ^ 16 % 256, bits 32 n / 2 ^ 8 % 256, bits 32 n % 256] := by
  unfold int_ladder
  simp only [show ¬ 0 ≤ n from by omega, show n ≤ 127 from by omega, show ¬ 128 ≤ n from by omega, show n ≤ 255 from by omega, show ¬ 256 ≤ n from by omega, show n ≤ 65535 from by omega, show ¬ 65536 ≤ n from by omega, show n ≤ 4294967295 from by omega, show ¬ 4294967295 < n from by omega, show ¬ -32 ≤ n from by omega, show n ≤ -1 from by omega, show ¬ -128 ≤ n from by omega, show n ≤ -33 from by omega, show ¬ -32768 ≤ n from by omega, show n ≤ -129 from by omega, show -2147483648 ≤ n from by omega, show n ≤ -32769 from by omega,
    and_self, and_true, true_and, and_false, false_and, if_true, if_false, bigEndian_1,
    bigEndian_2, bigEndian_4, bigEndian_8]

theorem int_ladder_d3 (n : Int) (h1 : -9223372036854775808 ≤ n) (h2 : n ≤ -2147483649) :
    int_ladder n = [0xd3, bits 64 n / 2 ^ 56 % 256, bits 64 n / 2 ^ 48 % 256, bits 64 n / 2 ^ 40 % 256, bits 64 n / 2 ^ 32 % 256, bits 64 n / 2 ^ 24 % 256, bits 64 n / 2 ^ 16 % 256, bits 64 n / 2 ^ 8 % 256, bits 64 n % 256] := by
  unfold int_ladder
  simp only [show ¬ 0 ≤ n from by omega, show n ≤ 127 from by omega, show ¬ 128 ≤ n from by omega, show n ≤ 255 from by omega, show ¬ 256 ≤ n from by omega, show n ≤ 65535 from by omega, show ¬ 65536 ≤ n from by omega, show n ≤ 4294967295 from by omega, show ¬ 4294967295 < n from by omega, show ¬ -32 ≤ n from by omega, show n ≤ -1 from by omega, show ¬ -128 ≤ n from by omega, show n ≤ -33 from by omega, show ¬ -32768 ≤ n from by omega, show n ≤ -129 from by omega, show ¬ -2147483648 ≤ n from by omega, show n ≤ -32769 from by omega,
    and_self, and_true, true_and, and_false, false_and, if_true, if_false, bigEndian_1,
    bigEndian_2, bigEndian_4, bigEndian_8]


theorem int_ladder_length_le_9 (n : Int) (h : isInt64 n) : (int_ladder n).length ≤ 9 := by
  rcases int_tiers n h with t | t | t | t | t | t | t | t | t | t
  · rw [int_ladder_fixpos n t.1 t.2]; simp
  · rw [int_ladder_cc n t.1 t.2]; simp
  · rw [int_ladder_cd n t.1 t.2]; simp
  · rw [int_ladder_ce n t.1 t.2]; simp
  · rw [int_ladder_cf n t.1 t.2]; simp
  · rw [int_ladder_fixneg n t.1 t.2]; simp
  · rw [int_ladder_d0 n t.1 t.2]; simp
  · rw [int_ladder_d1 n t.1 t.2]; simp
  · rw [int_ladder_d2 n t.1 t.2]; simp
  · rw [int_ladder_d3 n t.1 t.2]; simp

/-- Decoding the ladder of `n`, whatever follows it, pushes `n` converted to
`lua_Number` and consumes the ladder. -/
theorem go_int_ladder (fuel left err : Nat) (n : Int) (rest : List Nat) (h : isInt64 n)
    (hf : 0 < fuel) (hl : (int_ladder n).length ≤ left) (h64 : left < 2 ^ 64) :
    mp_decode_to_lua_type.go fuel { p := int_ladder n ++ rest, left := left, err := err }
      = .pushed { p := rest, left := left - (int_ladder n).length, err := err }
        (.number (to_lua_Number n)) := by
  have ht := int_tiers n h
  unfold isInt64 at h
  rcases ht with t | t | t | t | t | t | t | t | t | t
  · rw [to_lua_Number_exact n (by omega) (by omega)]
    rw [int_ladder_fixpos n t.1 t.2] at hl ⊢
    simp only [List.length_cons, List.length_nil, List.cons_append, List.nil_append] at hl ⊢
    rw [go_fixpos _ _ _ _ _ hf (by omega) (by omega)]
    simp only [Step.pushed.injEq, mp_cur.mk.injEq, LuaValue.number.injEq, true_and, and_true, bits]
    omega
  · rw [to_lua_Number_exact n (by omega) (by omega)]
    rw [int_ladder_cc n t.1 t.2] at hl ⊢
    simp only [List.length_cons, List.length_nil, List.cons_append, List.nil_append] at hl ⊢
    rw [go_cc _ _ _ _ _ hf (by omega)]
    simp only [Step.pushed.injEq, mp_cur.mk.injEq, LuaValue.number.injEq, true_and, and_true, bits,
      signed]
    omega
  · rw [to_lua_Number_exact n (by omega) (by omega)]
    rw [int_ladder_cd n t.1 t.2] at hl ⊢
    simp only [List.length_cons, List.length_nil, List.cons_append, List.nil_append] at hl ⊢
    rw [go_cd _ _ _ _ _ _ hf (by omega)]
    rw [val_16 _ _ (by omega) (by omega)]
    simp only [Step.pushed.injEq, mp_cur.mk.injEq, LuaValue.number.injEq, true_and, and_true, bits,
      signed]
    omega
  · rw [to_lua_Number_exact n (by omega) (by omega)]
    rw [int_ladder_ce n t.1 t.2] at hl ⊢
    simp only [List.length_cons, List.length_nil, List.cons_append, List.nil_append] at hl ⊢
    rw [go_ce _ _ _ _ _ _ _ _ hf (by omega)]
    rw [val_32u _ _ _ _ (by omega) (by omega) (by omega) (by omega)]
    simp only [Step.pushed.injEq, mp_cur.mk.injEq, LuaValue.number.injEq, true_and, and_true, bits,
      signed]
    omega
  · rw [int_ladder_cf n t.1 t.2] at hl ⊢
    simp only [List.length_cons, List.length_nil, List.cons_append, List.nil_append] at hl ⊢
    rw [go_cf _ _ _ _ _ _ _ _ _ _ _ _ hf (by omega)]
    rw [val_64u _ _ _ _ _ _ _ _ (by omega) (by omega) (by omega) (by omega) (by omega) (by omega) (by omega) (by omega)]
    simp only [Step.pushed.injEq, mp_cur.mk.injEq, LuaValue.number.injEq, true_and, and_true]
    refine ⟨?_, congrArg to_lua_Number ?_⟩
    · simp only [bits]
      omega
    · simp only [bits, signed]
      omega
  · rw [to_lua_Number_exact n (by omega) (by omega)]
    rw [int_ladder_fixneg n t.1 t.2] at hl ⊢
    simp only [List.length_cons, List.length_nil, List.cons_append, List.nil_append] at hl ⊢
    rw [go_fixneg _ _ _ _ _ hf (by omega) (by omega) (by omega)]
    simp only [Step.pushed.injEq, mp_cur.mk.injEq, LuaValue.number.injEq, true_and, and_true, bits,
      signed]
    split_ifs <;> omega
  · rw [to_lua_Number_exact n (by omega) (by omega)]
    rw [int_ladder_d0 n t.1 t.2] at hl ⊢
    simp only [List.length_cons, List.length_nil, List.cons_append, List.nil_append] at hl ⊢
    rw [go_d0 _ _ _ _ _ hf (by omega)]
    simp only [Step.pushed.injEq, mp_cur.mk.injEq, LuaValue.number.injEq, true_and, and_true, bits,
      signed]
    omega
  · rw [to_lua_Number_exact n (by omega) (by omega)]
    rw [int_ladder_d1 n t.1 t.2] at hl ⊢
    simp only [List.length_cons, List.length_nil, List.cons_append, List.nil_append] at hl ⊢
    rw [go_d1 _ _ _ _ _ _ hf (by omega)]
    rw [val_16s _ _ (by omega) (by omega)]
    simp only [Step.pushed.injEq, mp_cur.mk.injEq, LuaValue.number.injEq, true_and, and_true, bits,
      signed]
    omega
  · rw [to_lua_Number_exact n (by omega) (by omega)]
    rw [int_ladder_d2 n t.1 t.2] at hl ⊢
    simp only [List.length_cons, List.length_nil, List.cons_append, List.nil_append] at hl ⊢
    rw [go_d2 _ _ _ _ _ _ _ _ hf (by omega)]
    rw [val_32s _ _ _ _ (by omega) (by omega) (by omega) (by omega)]
    simp only [Step.pushed.injEq, mp_cur.mk.injEq, LuaValue.number.injEq, true_and, and_true, bits,
      signed]
    omega
  · rw [int_ladder_d3 n t.1 t.2] at hl ⊢
    simp only [List.length_cons, List.length_nil, List.cons_append, List.nil_append] at hl ⊢
    rw [go_d3 _ _ _ _ _ _ _ _ _ _ _ _ hf (by omega)]
    rw [val_64s _ _ _ _ _ _ _ _ (by omega) (by omega) (by omega) (by omega) (by omega) (by omega) (by omega) (by omega)]
    simp only [Step.pushed.injEq, mp_cur.mk.injEq, LuaValue.number.injEq, true_and, and_true]
    refine ⟨?_, congrArg to_lua_Number ?_⟩
    · simp only [bits]
      omega
    · simp only [bits, signed]
      omega


/-- Decoding the ladder of `n` pushes `n` converted to `lua_Number` and leaves
nothing. -/
theorem decode_int_ladder (n : Int) (h : isInt64 n) :
    mp_decode_to_lua_type (mp_cur_new (int_ladder n) (int_ladder n).length)
      = .pushed { p := [], left := 0, err := MP_CUR_ERROR_NONE } (.number (to_lua_Number n)) := by
  have hl := (int_ladder_length_le_9 n h)
  have hg := go_int_ladder ((int_ladder n).length + 1) (int_ladder n).length MP_CUR_ERROR_NONE n []
    h (by omega) (le_refl _) (by omega)
  rw [List.append_nil, Nat.sub_self] at hg
  exact hg

theorem contents_length (buf : mp_buf) (h : buf.inBlock) : buf.contents.length = buf.len := by
  unfold mp_buf.inBlock at h
  simp only [mp_buf.contents, List.length_take]
  omega

theorem written_of_contents (buf after : mp_buf) (w : List Nat) (h : buf.inBlock)
    (e : after.contents = buf.contents ++ w) : written buf after = w := by
  unfold written
  rw [e, ← contents_length buf h, List.drop_left]

/-- C4: for every 64-bit signed integer `n`, `mp_encode_int` appends exactly the
ladder of the specification: the single byte `n` for 0..127, `0xcc`, `0xcd`,
`0xce`, `0xcf` with 1, 2, 4, 8 payload bytes for the larger values, the single
byte `n mod 256` for -32..-1, `0xd0`, `0xd1`, `0xd2`, `0xd3` with 1, 2, 4, 8
payload bytes below, each payload being the big-endian two's complement
representation of `n` in that width.  What the buffer held before is kept. -/
theorem mp_encode_int_ladder (buf : mp_buf) (n : Int) (hb : buf.inBlock) (hn : isInt64 n) :
    (mp_encode_int buf n).contents = buf.contents ++ int_ladder n := by
  rw [(mp_encode_int_contents buf n hb).2, mp_encode_int_b_eq n hn]

theorem mp_encode_int_ladder_witness :
    mp_buf_new.inBlock ∧ isInt64 (-32769) ∧
      (mp_encode_int mp_buf_new (-32769)).contents
        = mp_buf_new.contents ++ int_ladder (-32769) :=
  ⟨mp_buf_new_inBlock, by unfold isInt64; omega,
    mp_encode_int_ladder mp_buf_new (-32769) mp_buf_new_inBlock (by unfold isInt64; omega)⟩

/-- C2, counterexample: `INT64_MAX` is written as `cf 7f ff ff ff ff ff ff ff`;
decoding these bytes latches no error and leaves no byte, but pushes `2^63`:
`lua_pushnumber` takes a `double`, and the nearest `double` is `2^63`. -/
theorem int_round_trip_rounds :
    written mp_buf_new (mp_encode_int mp_buf_new 9223372036854775807)
        = [0xcf, 0x7f, 0xff, 0xff, 0xff, 0xff, 0xff, 0xff, 0xff] ∧
      mp_decode_to_lua_type
          (mp_cur_new (written mp_buf_new (mp_encode_int mp_buf_new 9223372036854775807))
            (written mp_buf_new (mp_encode_int mp_buf_new 9223372036854775807)).length)
        = .pushed { p := [], left := 0, err := MP_CUR_ERROR_NONE }
            (.number 9223372036854775808) := by
  constructor <;> rfl

/-- C2, as amended: for every 64-bit signed integer `n`, running
`mp_decode_to_lua_type` on the bytes written by `mp_encode_int` latches no
error, leaves no byte (`left = 0`, nothing after the read position) and pushes
`n` converted to `lua_Number`, a `double`: exactly `n` when `|n| ≤ 2^53`, and
otherwise `n` rounded to 53 significant bits. -/
theorem int_round_trip (buf : mp_buf) (n : Int) (hb : buf.inBlock) (hn : isInt64 n) :
    mp_decode_to_lua_type
        (mp_cur_new (written buf (mp_encode_int buf n)) (written buf (mp_encode_int buf n)).length)
      = .pushed { p := [], left := 0, err := MP_CUR_ERROR_NONE } (.number (to_lua_Number n)) ∧
    (-(2 : Int) ^ 53 ≤ n → n ≤ (2 : Int) ^ 53 → to_lua_Number n = n) := by
  have e : (mp_encode_int buf n).contents = buf.contents ++ int_ladder n := by
    rw [(mp_encode_int_contents buf n hb).2, mp_encode_int_b_eq n hn]
  rw [written_of_contents buf _ _ hb e]
  exact ⟨decode_int_ladder n hn, to_lua_Number_exact n⟩

theorem int_round_trip_witness :
    mp_buf_new.inBlock ∧ isInt64 (-33) ∧
      mp_decode_to_lua_type
          (mp_cur_new (written mp_buf_new (mp_encode_int mp_buf_new (-33)))
            (written mp_buf_new (mp_encode_int mp_buf_new (-33))).length)
        = .pushed { p := [], left := 0, err := MP_CUR_ERROR_NONE } (.number (-33)) := by
  have h := int_round_trip mp_buf_new (-33) mp_buf_new_inBlock (by unfold isInt64; omega)
  rw [h.2 (by omega) (by omega)] at h
  exact ⟨mp_buf_new_inBlock, by unfold isInt64; omega, h.1⟩

/-! ## Headers of strings, arrays and maps -/

theorem bits_16_nat (x : Nat) : bits 16 (x : Int) = x % 2 ^ 16 := by
  unfold bits; omega

theorem bits_32_nat (x : Nat) : bits 32 (x : Int) = x % 2 ^ 32 := by
  unfold bits; omega

theorem bits_64_nat (x : Nat) : bits 64 (x : Int) = x % 2 ^ 64 := by
  unfold bits; omega

/-- The header assembled by `mp_encode_bytes` is the one of the specification. -/
theorem mp_encode_bytes_hdr_eq (len : Nat) (h : len < 2 ^ 32) :
    mp_encode_bytes_hdr len = raw_header len := by
  unfold mp_encode_bytes_hdr raw_header
  by_cases c1 : len < 32
  · simp only [c1, if_true, uchar, mask_0]
    interval_cases len <;> rfl
  · by_cases c2 : len ≤ 0xffff
    · simp only [c1, c2, if_true, if_false, uchar, mask_0, mask_8, bigEndian_2, bits_16_nat,
        show 32 ≤ len from by omega, and_self, List.cons.injEq, true_and, and_true]
      omega
    · simp only [c1, c2, if_false, uchar, mask_0, mask_8, mask_16, mask_24, bigEndian_4,
        bits_32_nat, and_false, List.cons.injEq, true_and, and_true]
      omega

/-- The header assembled by `mp_encode_array` is the one of the specification. -/
theorem mp_encode_array_b_eq (n : Nat) (h : n < 2 ^ 32) :
    mp_encode_array_b (n : Int) = array_header n := by
  unfold mp_encode_array_b array_header
  by_cases c1 : n ≤ 15
  · simp only [c1, show (n : Int) ≤ 15 from by omega, if_true, uchar, mask_f, bits_64_nat]
    interval_cases n <;> rfl
  · by_cases c2 : n ≤ 65535
    · simp only [c1, c2, show ¬ (n : Int) ≤ 15 from by omega, show (n : Int) ≤ 65535 from by omega,
        if_true, if_false, uchar, mask_0, mask_8, bigEndian_2, bits_16_nat, bits_64_nat,
        show 16 ≤ n from by omega, and_self, List.cons.injEq, true_and, and_true]
      omega
    · simp only [c1, c2, show ¬ (n : Int) ≤ 15 from by omega,
        show ¬ (n : Int) ≤ 65535 from by omega, if_false, uchar, mask_0, mask_8, mask_16,
        mask_24, bigEndian_4, bits_32_nat, bits_64_nat, and_false, List.cons.injEq, true_and,
        and_true]
      omega

/-- The header assembled by `mp_encode_map` is the one of the specification. -/
theorem mp_encode_map_b_eq (n : Nat) (h : n < 2 ^ 32) :
    mp_encode_map_b (n : Int) = map_header n := by
  unfold mp_encode_map_b map_header
  by_cases c1 : n ≤ 15
  · simp only [c1, show (n : Int) ≤ 15 from by omega, if_true, uchar, mask_f, bits_64_nat]
    interval_cases n <;> rfl
  · by_cases c2 : n ≤ 65535
    · simp only [c1, c2, show ¬ (n : Int) ≤ 15 from by omega, show (n : Int) ≤ 65535 from by omega,
        if_true, if_false, uchar, mask_0, mask_8, bigEndian_2, bits_16_nat, bits_64_nat,
        show 16 ≤ n from by omega, and_self, List.cons.injEq, true_and, and_true]
      omega
    · simp only [c1, c2, show ¬ (n : Int) ≤ 15 from by omega,
        show ¬ (n : Int) ≤ 65535 from by omega, if_false, uchar, mask_0, mask_8, mask_16,
        mask_24, bigEndian_4, bits_32_nat, bits_64_nat, and_false, List.cons.injEq, true_and,
        and_true]
      omega

/-- The bytes `mp_encode_bytes` adds to a buffer: its header, then the string. -/
theorem mp_encode_bytes_contents (buf : mp_buf) (s : List Nat) (h : buf.inBlock) :
    (mp_encode_bytes buf s s.length).inBlock ∧
      (mp_encode_bytes buf s s.length).contents
        = buf.contents ++ mp_encode_bytes_hdr s.length ++ s := by
  unfold mp_encode_bytes
  have h1 := mp_buf_append_spec buf (mp_encode_bytes_hdr s.length)
    (mp_encode_bytes_hdr s.length).length h (le_refl _)
  have h2 := mp_buf_append_spec _ s s.length h1.1 (le_refl _)
  rw [List.take_length] at h1 h2
  exact ⟨h2.1, by rw [h2.2, h1.2]⟩

/-- The bytes `mp_encode_array` adds to a buffer are the array it assembles. -/
theorem mp_encode_array_contents (buf : mp_buf) (n : Int) (h : buf.inBlock) :
    (mp_encode_array buf n).inBlock ∧
      (mp_encode_array buf n).contents = buf.contents ++ mp_encode_array_b n := by
  have hs := mp_buf_append_spec buf (mp_encode_array_b n) (mp_encode_array_b n).length h (le_refl _)
  rw [List.take_length] at hs
  exact hs

/-- The bytes `mp_encode_map` adds to a buffer are the array it assembles. -/
theorem mp_encode_map_contents (buf : mp_buf) (n : Int) (h : buf.inBlock) :
    (mp_encode_map buf n).inBlock ∧
      (mp_encode_map buf n).contents = buf.contents ++ mp_encode_map_b n := by
  have hs := mp_buf_append_spec buf (mp_encode_map_b n) (mp_encode_map_b n).length h (le_refl _)
  rw [List.take_length] at hs
  exact hs

/-- C8: for every byte sequence `s` of length `L < 2^32`, `mp_encode_bytes`
appends the header `0xa0 | L` when `L < 32`, `0xda` and `L` in 2 big-endian
bytes when `32 ≤ L ≤ 0xffff`, `0xdb` and `L` in 4 big-endian bytes otherwise,
and then the bytes of `s` unchanged; the output is header length + `L` bytes
longer than before. -/
theorem mp_encode_bytes_ladder (buf : mp_buf) (s : List Nat) (hb : buf.inBlock)
    (hs : s.length < 2 ^ 32) :
    (mp_encode_bytes buf s s.length).contents = buf.contents ++ raw_header s.length ++ s ∧
      (mp_encode_bytes buf s s.length).contents.length
        = buf.contents.length + ((raw_header s.length).length + s.length) := by
  have e := (mp_encode_bytes_contents buf s hb).2
  rw [mp_encode_bytes_hdr_eq s.length hs] at e
  refine ⟨e, ?_⟩
  rw [e, List.length_append, List.length_append]
  omega

theorem mp_encode_bytes_ladder_witness :
    mp_buf_new.inBlock ∧ [104, 105].length < 2 ^ 32 ∧
      ((mp_encode_bytes mp_buf_new [104, 105] [104, 105].length).contents
          = mp_buf_new.contents ++ raw_header [104, 105].length ++ [104, 105] ∧
        (mp_encode_bytes mp_buf_new [104, 105] [104, 105].length).contents.length
          = mp_buf_new.contents.length + ((raw_header [104, 105].length).length
            + [104, 105].length)) :=
  ⟨mp_buf_new_inBlock, by decide,
    mp_encode_bytes_ladder mp_buf_new [104, 105] mp_buf_new_inBlock (by decide)⟩

/-- C9: for every count `n` with `0 ≤ n < 2^32`, `mp_encode_array` appends the
single byte `0x90 | n` when `n ≤ 15`, `0xdc` and `n` in 2 big-endian bytes when
`16 ≤ n ≤ 65535`, `0xdd` and `n` in 4 big-endian bytes otherwise;
`mp_encode_map` does the same with `0x80`, `0xde` and `0xdf`. -/
theorem mp_encode_array_map_ladder (buf : mp_buf) (n : Nat) (hb : buf.inBlock)
    (hn : n < 2 ^ 32) :
    (mp_encode_array buf (n : Int)).contents = buf.contents ++ array_header n ∧
      (mp_encode_map buf (n : Int)).contents = buf.contents ++ map_header n := by
  refine ⟨?_, ?_⟩
  · rw [(mp_encode_array_contents buf n hb).2, mp_encode_array_b_eq n hn]
  · rw [(mp_encode_map_contents buf n hb).2, mp_encode_map_b_eq n hn]

theorem mp_encode_array_map_ladder_witness :
    mp_buf_new.inBlock ∧ 65536 < 2 ^ 32 ∧
      ((mp_encode_array mp_buf_new ((65536 : Nat) : Int)).contents
          = mp_buf_new.contents ++ array_header 65536 ∧
        (mp_encode_map mp_buf_new ((65536 : Nat) : Int)).contents
          = mp_buf_new.contents ++ map_header 65536) :=
  ⟨mp_buf_new_inBlock, by decide,
    mp_encode_array_map_ladder mp_buf_new 65536 mp_buf_new_inBlock (by decide)⟩

/-! ## Shortest integer encoding -/

/-- The length of the ladder, tier by tier. -/
theorem int_ladder_length (n : Int) (h : isInt64 n) :
    (int_ladder n).length ≤ 9 ∧
      (-2147483648 ≤ n ∧ n ≤ 4294967295 → (int_ladder n).length ≤ 5) ∧
      (-32768 ≤ n ∧ n ≤ 65535 → (int_ladder n).length ≤ 3) ∧
      (-128 ≤ n ∧ n ≤ 255 → (int_ladder n).length ≤ 2) ∧
      (-32 ≤ n ∧ n ≤ 127 → (int_ladder n).length ≤ 1) := by
  rcases int_tiers n h with t | t | t | t | t | t | t | t | t | t
  · rw [int_ladder_fixpos n t.1 t.2]
    simp only [List.length_cons, List.length_nil]
    omega
  · rw [int_ladder_cc n t.1 t.2]
    simp only [List.length_cons, List.length_nil]
    omega
  · rw [int_ladder_cd n t.1 t.2]
    simp only [List.length_cons, List.length_nil]
    omega
  · rw [int_ladder_ce n t.1 t.2]
    simp only [List.length_cons, List.length_nil]
    omega
  · rw [int_ladder_cf n t.1 t.2]
    simp only [List.length_cons, List.length_nil]
    omega
  · rw [int_ladder_fixneg n t.1 t.2]
    simp only [List.length_cons, List.length_nil]
    omega
  · rw [int_ladder_d0 n t.1 t.2]
    simp only [List.length_cons, List.length_nil]
    omega
  · rw [int_ladder_d1 n t.1 t.2]
    simp only [List.length_cons, List.length_nil]
    omega
  · rw [int_ladder_d2 n t.1 t.2]
    simp only [List.length_cons, List.length_nil]
    omega
  · rw [int_ladder_d3 n t.1 t.2]
    simp only [List.length_cons, List.length_nil]
    omega

/-- The value an encoding of the integer family decodes to bounds the length
of the ladder of that value by the length of the encoding. -/
theorem int_family_bound (n : Int) (b : List Nat) (c : mp_cur) (hn : isInt64 n)
    (hf : isIntFamily b)
    (hd : mp_decode_to_lua_type (mp_cur_new b b.length) = .pushed c (.number n)) :
    (int_ladder n).length ≤ b.length := by
  have hl := int_ladder_length n hn
  obtain ⟨hlt, hshape⟩ := hf
  unfold mp_decode_to_lua_type mp_cur_new at hd
  rcases b with _ | ⟨t, _ | ⟨b1, _ | ⟨b2, _ | ⟨b3, _ | ⟨b4, _ | ⟨b5, _ | ⟨b6, _ | ⟨b7, _ | ⟨b8, _ | ⟨x, r⟩⟩⟩⟩⟩⟩⟩⟩⟩⟩
  · exact absurd hshape (by simp)
  · -- one byte
    simp only [List.length_cons, List.length_nil] at hd ⊢
    have ht : t < 256 := hlt t (by simp)
    rcases hshape with h | h
    · rw [go_fixpos _ _ _ _ _ (by omega) (by omega) (by omega)] at hd
      simp only [Step.pushed.injEq, LuaValue.number.injEq] at hd
      have := hl.2.2.2.2
      omega
    · rw [go_fixneg _ _ _ _ _ (by omega) (by omega) (by omega) (by omega)] at hd
      simp only [Step.pushed.injEq, LuaValue.number.injEq, signed] at hd
      have := hl.2.2.2.2
      split_ifs at hd <;> omega
  · -- two bytes
    simp only [List.length_cons, List.length_nil] at hd ⊢
    have h1 : b1 < 256 := hlt b1 (by simp)
    have := hl.2.2.2.1
    rcases hshape with h | h
    · subst h
      rw [go_cc _ _ _ _ _ (by omega) (by omega)] at hd
      simp only [Step.pushed.injEq, LuaValue.number.injEq] at hd
      omega
    · subst h
      rw [go_d0 _ _ _ _ _ (by omega) (by omega)] at hd
      simp only [Step.pushed.injEq, LuaValue.number.injEq, signed] at hd
      split_ifs at hd <;> omega
  · -- three bytes
    simp only [List.length_cons, List.length_nil] at hd ⊢
    have h1 : b1 < 256 := hlt b1 (by simp)
    have h2 : b2 < 256 := hlt b2 (by simp)
    have := hl.2.2.1
    rcases hshape with h | h
    · subst h
      rw [go_cd _ _ _ _ _ _ (by omega) (by omega), val_16 _ _ h1 h2] at hd
      simp only [Step.pushed.injEq, LuaValue.number.injEq] at hd
      omega
    · subst h
      rw [go_d1 _ _ _ _ _ _ (by omega) (by omega), val_16s _ _ h1 h2] at hd
      simp only [Step.pushed.injEq, LuaValue.number.injEq, signed] at hd
      split_ifs at hd <;> omega
  · exact absurd hshape (by simp)
  · -- five bytes
    simp only [List.length_cons, List.length_nil] at hd ⊢
    have h1 : b1 < 256 := hlt b1 (by simp)
    have h2 : b2 < 256 := hlt b2 (by simp)
    have h3 : b3 < 256 := hlt b3 (by simp)
    have h4 : b4 < 256 := hlt b4 (by simp)
    have := hl.2.1
    rcases hshape with h | h
    · subst h
      rw [go_ce _ _ _ _ _ _ _ _ (by omega) (by omega), val_32u _ _ _ _ h1 h2 h3 h4] at hd
      simp only [Step.pushed.injEq, LuaValue.number.injEq] at hd
      omega
    · subst h
      rw [go_d2 _ _ _ _ _ _ _ _ (by omega) (by omega), val_32s _ _ _ _ h1 h2 h3 h4] at hd
      simp only [Step.pushed.injEq, LuaValue.number.injEq, signed] at hd
      split_ifs at hd <;> omega
  · exact absurd hshape (by simp)
  · exact absurd hshape (by simp)
  · exact absurd hshape (by simp)
  · -- nine bytes
    simp only [List.length_cons, List.length_nil]
    have := hl.1
    omega
  · exact absurd hshape (by simp)

/-- C5: integer encoding is shortest.  For every 64-bit signed integer `n` and
every complete encoding `b` of the integer family that the decoder decodes to
`n`, the bytes written by `mp_encode_int` for `n` are no more than those of `b`. -/
theorem mp_encode_int_shortest (buf : mp_buf) (n : Int) (b : List Nat) (c : mp_cur)
    (hb : buf.inBlock) (hn : isInt64 n) (hf : isIntFamily b)
    (hd : mp_decode_to_lua_type (mp_cur_new b b.length) = .pushed c (.number n)) :
    (written buf (mp_encode_int buf n)).length ≤ b.length := by
  have e : (mp_encode_int buf n).contents = buf.contents ++ int_ladder n := by
    rw [(mp_encode_int_contents buf n hb).2, mp_encode_int_b_eq n hn]
  rw [written_of_contents buf _ _ hb e]
  exact int_family_bound n b c hn hf hd

theorem mp_encode_int_shortest_witness :
    mp_buf_new.inBlock ∧ isInt64 5 ∧ isIntFamily [0xcd, 0, 5] ∧
      mp_decode_to_lua_type (mp_cur_new [0xcd, 0, 5] [0xcd, 0, 5].length)
        = .pushed { p := [], left := 0, err := 0 } (.number 5) ∧
      (written mp_buf_new (mp_encode_int mp_buf_new 5)).length ≤ [0xcd, 0, 5].length :=
  ⟨mp_buf_new_inBlock, by unfold isInt64; omega, by simp [isIntFamily], by rfl,
    mp_encode_int_shortest mp_buf_new 5 [0xcd, 0, 5] { p := [], left := 0, err := 0 }
      mp_buf_new_inBlock (by unfold isInt64; omega) (by simp [isIntFamily]) (by rfl)⟩

/-! ## The table loops call `mp_encode_lua_type` on the entries -/

theorem lookupIndex_encodeEntries (es : List (LuaValue × LuaValue)) (level : Nat) (j : Int) :
    (lookupIndex (encodeEntries es level) j).map (fun e => e.2)
      = (lookupIndex es j).map (fun v => fun b => mp_encode_lua_type v b level) := by
  induction es with
  | nil => simp [encodeEntries, lookupIndex]
  | cons e rest ih =>
    obtain ⟨k, v⟩ := e
    unfold lookupIndex at ih ⊢
    rw [encodeEntries]
    by_cases hk : k.isIndex j = true
    · simp [List.find?_cons, hk]
    · simp only [List.find?_cons, hk]
      exact ih

/-- The loop of `mp_encode_lua_table_as_array` encodes `t[1]`, ..., `t[len]` at
`level+1`, in this order, after the array header. -/
theorem mp_encode_lua_table_as_array_eq (es : List (LuaValue × LuaValue)) (level : Nat)
    (buf : mp_buf) :
    mp_encode_lua_table_as_array es (encodeEntries es (level + 1)) buf
      = (List.range' 1 (lua_objlen es)).foldlM
          (fun (b : mp_buf) (j : Nat) => mp_encode_lua_type (lua_gettable es (j : Int)) b (level + 1))
          (mp_encode_array buf (lua_objlen es : Int)) := by
  unfold mp_encode_lua_table_as_array
  simp only []
  congr 1
  funext b j
  have h := lookupIndex_encodeEntries es (level + 1) (j : Int)
  unfold lua_gettable
  cases h1 : lookupIndex (encodeEntries es (level + 1)) (j : Int) with
  | none =>
    rw [h1] at h
    cases h2 : lookupIndex es (j : Int) with
    | none => simp [mp_encode_lua_type]
    | some v => rw [h2] at h; simp at h
  | some e =>
    rw [h1] at h
    cases h2 : lookupIndex es (j : Int) with
    | none => rw [h2] at h; simp at h
    | some v =>
      rw [h2] at h
      simp only [Option.map_some', Option.some.injEq] at h
      simp only [Option.getD_some]
      rw [h]

theorem foldl_encodeEntries (es : List (LuaValue × LuaValue)) (level : Nat) (b0 : mp_buf) :
    (encodeEntries es level).foldlM
        (fun (b : mp_buf) e => match e.2.1 b with
          | .error msg => .error msg
          | .ok b1 => e.2.2 b1) b0
      = es.foldlM (encodePair level) b0 := by
  induction es generalizing b0 with
  | nil => simp [encodeEntries]
  | cons e rest ih =>
    obtain ⟨k, v⟩ := e
    rw [encodeEntries]
    simp only [List.foldlM_cons]
    congr 1
    funext b
    exact ih b

/-- The loop of `mp_encode_lua_table_as_map` encodes every key and then its
value at `level+1`, in the order of `lua_next`, after the map header. -/
theorem mp_encode_lua_table_as_map_eq (es : List (LuaValue × LuaValue)) (level : Nat)
    (buf : mp_buf) :
    mp_encode_lua_table_as_map es (encodeEntries es (level + 1)) buf
      = es.foldlM (encodePair (level + 1)) (mp_encode_map buf (es.length : Int)) := by
  unfold mp_encode_lua_table_as_map
  exact foldl_encodeEntries es (level + 1) _

/-! ## Strings of 2 GiB and more -/

theorem len32_cons (t b1 b2 b3 b4 left err : Nat) (rest : List Nat) (h1 : b1 < 256)
    (h2 : b2 < 256) (h3 : b3 < 256) (h4 : b4 < 256) :
    len32 { p := t :: b1 :: b2 :: b3 :: b4 :: rest, left := left, err := err }
      = size_t (signed 32 (b1 * 2 ^ 24 + b2 * 2 ^ 16 + b3 * 2 ^ 8 + b4)) := by
  simp only [len32, mp_cur.at, List.getD_cons_succ, List.getD_cons_zero]
  rw [val_32s b1 b2 b3 b4 h1 h2 h3 h4]

/-- One step of the decoder on the tag `0xdb` (raw 32). -/
theorem go_db (fuel b1 b2 b3 b4 left err : Nat) (rest : List Nat) (hf : 0 < fuel)
    (h : 5 ≤ left) (h1 : b1 < 256) (h2 : b2 < 256) (h3 : b3 < 256) (h4 : b4 < 256) :
    mp_decode_to_lua_type.go fuel
        { p := 0xdb :: b1 :: b2 :: b3 :: b4 :: rest, left := left, err := err }
      = mp_cur_need { p := 0xdb :: b1 :: b2 :: b3 :: b4 :: rest, left := left, err := err }
          (add_size_t 5 (size_t (signed 32 (b1 * 2 ^ 24 + b2 * 2 ^ 16 + b3 * 2 ^ 8 + b4))))
          (.pushed
            (mp_cur_consume { p := 0xdb :: b1 :: b2 :: b3 :: b4 :: rest, left := left, err := err }
              (add_size_t 5 (size_t (signed 32 (b1 * 2 ^ 24 + b2 * 2 ^ 16 + b3 * 2 ^ 8 + b4)))))
            (.string (rest.take
              (size_t (signed 32 (b1 * 2 ^ 24 + b2 * 2 ^ 16 + b3 * 2 ^ 8 + b4)))))) := by
  obtain ⟨f, rfl⟩ := Nat.exists_eq_succ_of_ne_zero (Nat.pos_iff_ne_zero.mp hf)
  have e := len32_cons 0xdb b1 b2 b3 b4 left err rest h1 h2 h3 h4
  have n1 : mp_cur_need { p := 0xdb :: b1 :: b2 :: b3 :: b4 :: rest, left := left, err := err } 1
      = fun k => k := by
    funext k; simp [mp_cur_need]; omega
  have n5 : mp_cur_need { p := 0xdb :: b1 :: b2 :: b3 :: b4 :: rest, left := left, err := err } 5
      = fun k => k := by
    funext k; simp [mp_cur_need]; omega
  rw [mp_decode_to_lua_type.go, n1]
  simp only [mp_cur.at, List.getD_cons_zero, n5, e, mp_cur.slice]
  simp

/-- The header of a string whose length needs 32 bits. -/
theorem raw_header_32 (len : Nat) (h1 : 0xffff < len) :
    raw_header len = [0xdb, bits 32 len / 2 ^ 24 % 256, bits 32 len / 2 ^ 16 % 256,
      bits 32 len / 2 ^ 8 % 256, bits 32 len % 256] := by
  unfold raw_header
  simp only [show ¬ len < 32 from by omega, show ¬ len ≤ 0xffff from by omega, and_false,
    if_false, bigEndian_4]

/-- Decoding what `mp_encode_bytes` wrote for a string of at least `2^31` and
less than `2^32 - 5` bytes stops with `MP_CUR_ERROR_EOF`: the decoder reads the length as a negative
`int` and extends its sign. -/
theorem raw32_sign_extended (buf : mp_buf) (s : List Nat) (hb : buf.inBlock)
    (h1 : 2 ^ 31 ≤ s.length) (h2 : s.length < 2 ^ 32 - 5) :
    mp_decode_to_lua_type
        (mp_cur_new (written buf (mp_encode_bytes buf s s.length))
          (written buf (mp_encode_bytes buf s s.length)).length)
      = .unwound { p := written buf (mp_encode_bytes buf s s.length),
                   left := (written buf (mp_encode_bytes buf s s.length)).length,
                   err := MP_CUR_ERROR_EOF } := by
  have e : (mp_encode_bytes buf s s.length).contents
      = buf.contents ++ (raw_header s.length ++ s) := by
    rw [(mp_encode_bytes_contents buf s hb).2, mp_encode_bytes_hdr_eq s.length (by omega),
      List.append_assoc]
  rw [written_of_contents buf _ _ hb e, raw_header_32 s.length (by omega)]
  unfold mp_decode_to_lua_type mp_cur_new
  simp only [List.cons_append, List.nil_append, List.length_cons, bits_32_nat]
  rw [go_db _ _ _ _ _ _ _ _ (by omega) (by omega) (by omega) (by omega) (by omega) (by omega)]
  have hsum : s.length % 2 ^ 32 / 2 ^ 24 % 256 * 2 ^ 24 + s.length % 2 ^ 32 / 2 ^ 16 % 256 * 2 ^ 16
      + s.length % 2 ^ 32 / 2 ^ 8 % 256 * 2 ^ 8 + s.length % 2 ^ 32 % 256 = s.length := by
    omega
  have hl : size_t (signed 32 s.length) = 2 ^ 64 - 2 ^ 32 + s.length := by
    unfold size_t bits signed
    split_ifs <;> omega
  rw [hsum, hl]
  unfold mp_cur_need add_size_t
  simp only []
  rw [if_pos (by omega)]

/-- What `_mp_pack` returns for a string: the bytes written by `mp_encode_bytes`. -/
theorem mp_pack_string (s : List Nat) :
    _mp_pack (.string s)
      = .ok (written mp_buf_new (mp_encode_bytes mp_buf_new s s.length)) := by
  unfold _mp_pack written
  rw [mp_encode_lua_type]
  rfl

/-- A root decode that returns early with `MP_CUR_ERROR_EOF` makes `_mp_unpack`
raise "Missing bytes in input.". -/
theorem mp_unpack_eof (data : List Nat) (len : Nat) (c : mp_cur)
    (h : mp_decode_to_lua_type (mp_cur_new data len) = .unwound c)
    (he : c.err = MP_CUR_ERROR_EOF) :
    _mp_unpack data len = .error "Missing bytes in input." := by
  unfold _mp_unpack
  simp only [h, he, if_true]

/-- C3, the code at a failing input: a string of `2^31` zero bytes is written by
`mp_encode_bytes` with the header `db 80 00 00 00`; `mp_decode_to_lua_type`
on these bytes consumes nothing and latches `MP_CUR_ERROR_EOF`, where the
round trip asks for the string back and no error.  Accordingly `mp_unpack` of
the packed string raises "Missing bytes in input.". -/
theorem raw32_round_trip_fails :
    mp_decode_to_lua_type
        (mp_cur_new
          (written mp_buf_new
            (mp_encode_bytes mp_buf_new (zeros 2147483648) (zeros 2147483648).length))
          (written mp_buf_new
            (mp_encode_bytes mp_buf_new (zeros 2147483648) (zeros 2147483648).length)).length)
      = .unwound
          { p := written mp_buf_new
              (mp_encode_bytes mp_buf_new (zeros 2147483648) (zeros 2147483648).length),
            left := (written mp_buf_new
              (mp_encode_bytes mp_buf_new (zeros 2147483648) (zeros 2147483648).length)).length,
            err := MP_CUR_ERROR_EOF } ∧
      (∃ s, _mp_pack (.string (zeros 2147483648)) = .ok s ∧
        mp_unpack s = .error "Missing bytes in input.") := by
  have h := raw32_sign_extended mp_buf_new (zeros 2147483648) mp_buf_new_inBlock
    (by rw [zeros, List.length_replicate]; norm_num)
    (by rw [zeros, List.length_replicate]; norm_num)
  refine ⟨h, _, mp_pack_string _, ?_⟩
  unfold mp_unpack
  exact mp_unpack_eof _ _ _ h rfl

/-! ## Binary blobs -/

/-- From `2^32 - 1` bytes on `mp_encode_binary` only calls `mp_encode_null`. -/
theorem mp_encode_binary_null (buf : mp_buf) (s : List Nat) (len : Nat)
    (h : 4294967295 ≤ len) : mp_encode_binary buf s len = mp_encode_null buf := by
  unfold mp_encode_binary
  simp only [show ¬ len < 255 from by omega, show ¬ len < 65535 from by omega,
    show ¬ len < 4294967295 from by omega, if_false, gt_iff_lt, lt_irrefl]

/-- What `mp_encode_binary` adds to a buffer, for every length: a bin8 header
below 255, a bin16 header from 255 and below 65535, a bin32 header from 65535
and below `2^32 - 1`, each followed by the payload, and the nil byte alone
from `2^32 - 1` on. -/
theorem mp_encode_binary_contents (buf : mp_buf) (s : List Nat) (len : Nat) (hb : buf.inBlock)
    (hs : len ≤ s.length) :
    (mp_encode_binary buf s len).inBlock ∧
      (mp_encode_binary buf s len).contents = buf.contents ++
        (if len < 255 then [0xc4, len] ++ s.take len
         else if len < 65535 then 0xc5 :: bigEndian 2 len ++ s.take len
         else if len < 4294967295 then 0xc6 :: bigEndian 4 len ++ s.take len
         else [0xc0]) := by
  unfold mp_encode_binary
  by_cases c1 : len < 255
  · simp only [c1, if_true, gt_iff_lt, Nat.ofNat_pos]
    have h1 := mp_buf_append_spec buf [0xc4, uchar len] 2 hb (by simp)
    have h2 := mp_buf_append_spec _ s len h1.1 hs
    refine ⟨h2.1, ?_⟩
    rw [h2.2, h1.2]
    have e : uchar len = len := by unfold uchar; omega
    simp [e]
  · by_cases c2 : len < 65535
    · simp only [c1, c2, if_true, if_false, gt_iff_lt, Nat.ofNat_pos]
      have h1 := mp_buf_append_spec buf
        [0xc5, uchar ((len &&& 0xff00) >>> 8), uchar (len &&& 0xff)] 3 hb (by simp)
      have h2 := mp_buf_append_spec _ s len h1.1 hs
      refine ⟨h2.1, ?_⟩
      rw [h2.2, h1.2]
      simp only [uchar, mask_0, mask_8, bigEndian_2, bits_16_nat, List.take_succ_cons,
        List.take_zero, List.append_assoc, List.cons_append, List.nil_append,
        List.append_cancel_left_eq, List.cons.injEq, true_and, and_true]
      omega
    · by_cases c3 : len < 4294967295
      · simp only [c1, c2, c3, if_true, if_false, gt_iff_lt, Nat.ofNat_pos]
        have h1 := mp_buf_append_spec buf
          [0xc6, uchar ((len &&& 0xff000000) >>> 24), uchar ((len &&& 0xff0000) >>> 16),
            uchar ((len &&& 0xff00) >>> 8), uchar (len &&& 0xff)] 5 hb (by simp)
        have h2 := mp_buf_append_spec _ s len h1.1 hs
        refine ⟨h2.1, ?_⟩
        rw [h2.2, h1.2]
        simp only [uchar, mask_0, mask_8, mask_16, mask_24, bigEndian_4, bits_32_nat,
          List.take_succ_cons, List.take_zero, List.append_assoc, List.cons_append,
          List.nil_append, List.append_cancel_left_eq, List.cons.injEq, true_and, and_true]
        omega
      · simp only [c1, c2, c3, if_false, gt_iff_lt, lt_irrefl]
        have h1 := mp_buf_append_spec buf [0xc0] 1 hb (by simp)
        unfold mp_encode_null
        exact ⟨h1.1, by rw [h1.2]; simp⟩

set_option maxRecDepth 100000 in
/-- C6, the code at a failing input: for a blob of 255 bytes `mp_encode_binary`
emits the bin16 header `c5 00 ff` before the payload, although the 1-byte
length of bin8 represents 255. -/
theorem mp_encode_binary_255 :
    (mp_encode_binary mp_buf_new (zeros 255) 255).contents = [0xc5, 0x00, 0xff] ++ zeros 255 := by
  rfl

/-- C7, the code at a failing input: for a blob of `2^32 - 1` bytes, which is
below `2^32`, `mp_encode_binary` appends the single byte `0xc0`. -/
theorem mp_encode_binary_4294967295 :
    (mp_encode_binary mp_buf_new (zeros 4294967295) 4294967295).contents = [0xc0] := by
  rw [mp_encode_binary_null mp_buf_new (zeros 4294967295) 4294967295 (le_refl _)]
  decide

/-! ## Tables -/

/-- What `table_is_an_array.scan` computes: every key is an integer-valued number
from 1 on (and in the range of `long`), and the last key enumerated, or the
initial `idx` when there is no entry, equals the number of entries counted. -/
theorem table_is_an_array_scan_iff (es : List (LuaValue × LuaValue)) (count idx : Int) :
    table_is_an_array.scan es count idx = true ↔
      (∀ e ∈ es, ∃ n : Int, e.1 = .number n ∧ 1 ≤ n ∧ n < 2 ^ 63) ∧
        lastIndex es idx = count + (es.length : Int) := by
  induction es generalizing count idx with
  | nil => simp [table_is_an_array.scan, lastIndex]
  | cons e rest ih =>
    obtain ⟨k, v⟩ := e
    cases k with
    | number n =>
      by_cases hn : 1 ≤ n ∧ n < 2 ^ 63
      · have hc : cast_int64 n = n := by unfold cast_int64; rw [if_pos ⟨by omega, hn.2⟩]
        have h1 : ¬ (n ≠ n ∨ n < 1) := by omega
        rw [table_is_an_array.scan]
        simp only [hc, h1, if_false]
        rw [ih]
        simp only [List.mem_cons, forall_eq_or_imp, List.length_cons, lastIndex,
          LuaValue.number.injEq, exists_eq_left']
        constructor
        · rintro ⟨ha, hb⟩
          exact ⟨⟨hn, ha⟩, by rw [hb]; push_cast; omega⟩
        · rintro ⟨⟨_, ha⟩, hb⟩
          exact ⟨ha, by rw [hb]; push_cast; omega⟩
      · have hfalse : table_is_an_array.scan ((.number n, v) :: rest) count idx = false := by
          rw [table_is_an_array.scan]
          by_cases hr : -(2 : Int) ^ 63 ≤ n ∧ n < (2 : Int) ^ 63
          · have hc : cast_int64 n = n := by unfold cast_int64; rw [if_pos hr]
            simp only [hc]
            rw [if_pos (by omega)]
          · have hc : cast_int64 n = -(2 : Int) ^ 63 := by unfold cast_int64; rw [if_neg hr]
            simp only [hc]
            rw [if_pos (by omega)]
        rw [hfalse]
        simp only [Bool.false_eq_true, List.mem_cons, forall_eq_or_imp, LuaValue.number.injEq,
          exists_eq_left', false_iff, not_and]
        intro h
        exact absurd h.1 hn
    | _ =>
      simp [table_is_an_array.scan]

/-- C10, the code at a failing input: the table with keys 1 and 2 is classified as
an array when `lua_next` enumerates 1 then 2, but not when it enumerates 2
then 1 (`idx` then holds the last key, 1, and `count` is 2); in that order it
is emitted with the map header `0x82`. -/
theorem table_is_an_array_order :
    table_is_an_array [(.number 1, .boolean false), (.number 2, .boolean true)] = true ∧
      table_is_an_array [(.number 2, .boolean true), (.number 1, .boolean false)] = false ∧
      _mp_pack (.table [(.number 2, .boolean true), (.number 1, .boolean false)])
        = .ok [0x82, 0x02, 0xc3, 0x01, 0xc2] := by
  refine ⟨by decide, by decide, rfl⟩

/-- C1, the code at two failing inputs.  The table with the entries `3 ↦ true`
and `2 ↦ true`, enumerated in this order, holds no blob and is not nested; it
is classified as an array of length 0, packed as the single byte `0x90` and
unpacked as the empty table.  Enumerated as 2 then 3 the same table is packed
as a map and unpacked with both entries.  A string of `2^31` zero bytes is
packed and then refused by `mp_unpack` with "Missing bytes in input.". -/
theorem round_trip_fails :
    _mp_pack (.table [(.number 3, .boolean true), (.number 2, .boolean true)]) = .ok [0x90] ∧
      (∃ s, _mp_pack (.table [(.number 3, .boolean true), (.number 2, .boolean true)]) = .ok s ∧
        mp_unpack s = .value (.table [])) ∧
      (∃ s, _mp_pack (.table [(.number 2, .boolean true), (.number 3, .boolean true)]) = .ok s ∧
        mp_unpack s = .value (.table [(.number 2, .boolean true), (.number 3, .boolean true)])) ∧
      (∃ s, _mp_pack (.string (zeros 2147483648)) = .ok s ∧
        mp_unpack s = .error "Missing bytes in input.") := by
  refine ⟨rfl, ⟨_, rfl, rfl⟩, ⟨_, rfl, rfl⟩, _, mp_pack_string _, ?_⟩
  unfold mp_unpack
  exact mp_unpack_eof _ _ _
    (raw32_sign_extended mp_buf_new (zeros 2147483648) mp_buf_new_inBlock
      (by rw [zeros, List.length_replicate]; norm_num)
      (by rw [zeros, List.length_replicate]; norm_num)) rfl

/-! ## Floating point numbers -/

theorem memrevifle_le_4 (x : Nat) :
    memrevifle (le_bytes 4 x) 4 = bigEndian 4 (x : Int) := by
  rw [bigEndian_4]
  simp only [bits, memrevifle, memrevifle.loop, le_bytes, List.set_cons_zero, List.set_cons_succ,
    List.getD_cons_zero, List.getD_cons_succ, Nat.reduceDiv, Nat.reduceSub, Nat.reduceAdd]
  have e : ((x : Int) % (2 : Int) ^ 32).toNat = x % 2 ^ 32 := by omega
  rw [e]
  simp only [List.cons.injEq, and_true]
  omega

theorem memrevifle_le_8 (x : Nat) :
    memrevifle (le_bytes 8 x) 8 = bigEndian 8 (x : Int) := by
  rw [bigEndian_8]
  simp only [bits, memrevifle, memrevifle.loop, le_bytes, List.set_cons_zero, List.set_cons_succ,
    List.getD_cons_zero, List.getD_cons_succ, Nat.reduceDiv, Nat.reduceSub, Nat.reduceAdd]
  have e : ((x : Int) % (2 : Int) ^ 64).toNat = x % 2 ^ 64 := by omega
  rw [e]
  simp only [List.cons.injEq, and_true]
  omega

/-- The bytes `mp_encode_double` adds to a buffer are the float ladder. -/
theorem mp_encode_double_contents (buf : mp_buf) (d : Nat) (h : buf.inBlock) :
    (mp_encode_double buf d).inBlock ∧
      (mp_encode_double buf d).contents = buf.contents ++ double_ladder d := by
  unfold mp_encode_double double_ladder
  simp only [memrevifle_le_4, memrevifle_le_8]
  by_cases t : double_eq d (double_of_float (float_of_double d)) = true
  · rw [if_pos t, if_pos t]
    have hs := mp_buf_append_spec buf (0xca :: bigEndian 4 (float_of_double d : Int)) 5 h
      (by simp [bigEndian])
    rw [List.take_of_length_le (by simp [bigEndian])] at hs
    exact hs
  · rw [if_neg t, if_neg t]
    have hs := mp_buf_append_spec buf (0xcb :: bigEndian 8 (d : Int)) 9 h
      (by simp [bigEndian])
    rw [List.take_of_length_le (by simp [bigEndian])] at hs
    exact hs

theorem double_eq_bits (d : Nat) (hn : double_isnan d = false) (hd : d < 2 ^ 64) :
    double_eq d (double_of_float (float_of_double d)) = true ↔
      double_of_float (float_of_double d) = d := by
  constructor
  · intro h
    simp only [double_eq, Bool.and_eq_true, Bool.or_eq_true, beq_iff_eq, Bool.not_eq_true'] at h
    rcases h.2 with e | ⟨z, _⟩
    · exact e.symm
    · have hz : d = 0 ∨ d = 2 ^ 63 := by omega
      rcases hz with rfl | rfl <;> decide
  · intro h
    rw [h]
    simp [double_eq, hn]

theorem double_eq_nan (d x : Nat) (hn : double_isnan d = true) : double_eq d x = false := by
  simp [double_eq, hn]

/-- C18: for every `double` `d`, `mp_encode_double` appends the 5 bytes `0xca`
and the big-endian IEEE-754 single of `d` when `d == (double)(float)d`, that
is, when converting `d` to `float` and back reproduces `d`, and otherwise the
9 bytes `0xcb` and the big-endian IEEE-754 double of `d`.  For a `d` that is
not a NaN the comparison holds exactly when the conversion there and back
returns the bits of `d`; a NaN, which compares unequal to every number, takes
the 9-byte form.  The `double` nearest to 2.5 yields the 5 bytes
`ca 40 20 00 00`, the `double` nearest to 0.1 the 9 bytes
`cb 3f b9 99 99 99 99 99 9a`. -/
theorem mp_encode_double_narrowing (buf : mp_buf) (d : Nat) (hb : buf.inBlock)
    (hd : d < 2 ^ 64) :
    written buf (mp_encode_double buf d)
        = (if double_eq d (double_of_float (float_of_double d)) = true then
            0xca :: bigEndian 4 (float_of_double d)
          else 0xcb :: bigEndian 8 d) ∧
      (written buf (mp_encode_double buf d)).length
        = (if double_eq d (double_of_float (float_of_double d)) = true then 5 else 9) ∧
      (double_isnan d = false →
        (double_eq d (double_of_float (float_of_double d)) = true ↔
          double_of_float (float_of_double d) = d)) ∧
      (double_isnan d = true →
        written buf (mp_encode_double buf d) = 0xcb :: bigEndian 8 d) ∧
      double_nearest 0x4004000000000000 5 2 ∧
      written buf (mp_encode_double buf 0x4004000000000000) = [0xca, 0x40, 0x20, 0x00, 0x00] ∧
      double_nearest 0x3fb999999999999a 1 10 ∧
      written buf (mp_encode_double buf 0x3fb999999999999a)
        = [0xcb, 0x3f, 0xb9, 0x99, 0x99, 0x99, 0x99, 0x99, 0x9a] := by
  have w : ∀ x, written buf (mp_encode_double buf x) = double_ladder x := fun x =>
    written_of_contents buf _ _ hb (mp_encode_double_contents buf x hb).2
  refine ⟨w d, ?_, fun hn => double_eq_bits d hn hd, ?_, by unfold double_nearest; decide, ?_,
    by unfold double_nearest; decide, ?_⟩
  · rw [w d, double_ladder]
    split_ifs <;> simp [bigEndian]
  · intro hn
    rw [w d, double_ladder, double_eq_nan d _ hn]
    rfl
  · rw [w]; decide
  · rw [w]; decide

theorem mp_encode_double_narrowing_witness :
    mp_buf_new.inBlock ∧ 0x3ff8000000000000 < 2 ^ 64 ∧
      written mp_buf_new (mp_encode_double mp_buf_new 0x3ff8000000000000)
        = [0xca, 0x3f, 0xc0, 0x00, 0x00] := by
  have h := (mp_encode_double_narrowing mp_buf_new 0x3ff8000000000000 mp_buf_new_inBlock
    (by norm_num)).1
  exact ⟨mp_buf_new_inBlock, by norm_num, h.trans (by decide)⟩

theorem rne_le (m s : Nat) : rne m s ≤ m / 2 ^ s + 1 := by
  unfold rne
  simp only []
  split_ifs <;> omega

/-- The conversion to `float` yields 32 bits. -/
theorem float_of_double_lt (d : Nat) : float_of_double d < 2 ^ 32 := by
  have hs : d / 2 ^ 63 % 2 < 2 := Nat.mod_lt _ (by norm_num)
  have hm : d % 2 ^ 52 < 2 ^ 52 := Nat.mod_lt _ (by norm_num)
  unfold float_of_double
  simp only []
  by_cases e1 : d / 2 ^ 52 % 2048 = 2047
  · rw [if_pos e1]
    by_cases m0 : d % 2 ^ 52 = 0
    · rw [if_pos m0]; omega
    · rw [if_neg m0]
      have h1 : d % 2 ^ 52 / 2 ^ 29 < 2 ^ 31 := by omega
      have h2 : 0x7fc00000 ||| (d % 2 ^ 52 / 2 ^ 29) < 2 ^ 31 :=
        Nat.or_lt_two_pow (by norm_num) h1
      omega
  · rw [if_neg e1]
    by_cases e0 : d / 2 ^ 52 % 2048 = 0
    · rw [if_pos e0]; omega
    · rw [if_neg e0]
      by_cases e2 : d / 2 ^ 52 % 2048 < 897
      · rw [if_pos e2]
        have h1 := rne_le (2 ^ 52 + d % 2 ^ 52) (926 - d / 2 ^ 52 % 2048)
        have h2 : (2 ^ 52 + d % 2 ^ 52) / 2 ^ (926 - d / 2 ^ 52 % 2048)
            ≤ (2 ^ 52 + d % 2 ^ 52) / 2 ^ 30 :=
          Nat.div_le_div_left (Nat.pow_le_pow_right (by norm_num) (by omega)) (by positivity)
        have h3 : (2 ^ 52 + d % 2 ^ 52) / 2 ^ 30 < 2 ^ 23 := by omega
        omega
      · rw [if_neg e2]
        split_ifs <;> omega

/-- A number that fails the test `floor(n) == n` is pushed as it is. -/
theorem lua_pushnumber_fraction (d : Nat) (h : double_floor_eq d = false) :
    lua_pushnumber d = .double d := by
  unfold double_floor_eq at h
  rw [Bool.or_eq_false_iff] at h
  unfold lua_pushnumber
  rw [h.1]
  rfl

/-- A number that passes the narrowing test comes back from the `float` with
the same bits. -/
theorem narrow_back (d : Nat) (hd : d < 2 ^ 64)
    (t : double_eq d (double_of_float (float_of_double d)) = true) :
    double_of_float (float_of_double d) = d := by
  have hn : double_isnan d = false := by
    simp only [double_eq, Bool.and_eq_true, Bool.not_eq_true'] at t
    exact t.1.1
  exact (double_eq_bits d hn hd).mp t

/-! ## What the encoders add to a buffer -/

theorem Appends.pure {f : mp_buf → mp_buf} {w : List Nat}
    (h : ∀ buf : mp_buf, buf.inBlock → (f buf).inBlock ∧ (f buf).contents = buf.contents ++ w) :
    Appends (fun b => .ok (f b)) w := by
  intro buf hb
  exact ⟨f buf, rfl, h buf hb⟩

theorem Appends.comp {f g : Emit} {w1 w2 : List Nat} (hf : Appends f w1)
    (hg : Appends g w2) :
    Appends (fun b => match f b with
      | .error msg => .error msg
      | .ok b1 => g b1) (w1 ++ w2) := by
  intro buf hb
  obtain ⟨b1, e1, i1, c1⟩ := hf buf hb
  obtain ⟨b2, e2, i2, c2⟩ := hg b1 i1
  refine ⟨b2, ?_, i2, by rw [c2, c1, List.append_assoc]⟩
  simp only [e1, e2]

theorem Appends.bytes_eq {f : Emit} {w : List Nat} (hf : Appends f w) :
    ∃ b, f mp_buf_new = .ok b ∧ b.contents = w := by
  obtain ⟨b, e, _, c⟩ := hf mp_buf_new mp_buf_new_inBlock
  rw [mp_buf_new_contents] at c
  exact ⟨b, e, by simpa using c⟩

theorem Appends.unique {f : Emit} {w1 w2 : List Nat} (h1 : Appends f w1)
    (h2 : Appends f w2) : w1 = w2 := by
  obtain ⟨b1, e1, c1⟩ := h1.bytes_eq
  obtain ⟨b2, e2, c2⟩ := h2.bytes_eq
  rw [e1] at e2
  cases e2
  rw [← c1, ← c2]

theorem appends_append (s : List Nat) :
    Appends (fun b => .ok (mp_buf_append b s s.length)) s := by
  refine Appends.pure (fun buf hb => ?_)
  have h := mp_buf_append_spec buf s s.length hb (le_refl _)
  rw [List.take_length] at h
  exact h

theorem appends_foldl {α : Type} (g : α → Emit) (w : α → List Nat) (l : List α)
    (h : ∀ a ∈ l, Appends (g a) (w a)) :
    Appends (fun b => l.foldlM (fun b a => g a b) b) (l.flatMap w) := by
  induction l with
  | nil => intro buf hb; exact ⟨buf, rfl, hb, by simp⟩
  | cons a rest ih =>
    have h1 := h a (by simp)
    have h2 := ih (fun x hx => h x (by simp [hx]))
    have h3 := Appends.comp h1 h2
    intro buf hb
    obtain ⟨b, e, r⟩ := h3 buf hb
    refine ⟨b, ?_, by simpa [List.flatMap_cons] using r⟩
    rw [← e]
    beta_reduce
    rw [List.foldlM_cons]
    cases g a buf <;> rfl

theorem appends_null : Appends (fun b => .ok (mp_encode_null b)) [0xc0] := by
  exact appends_append [0xc0]

theorem appends_int (n : Int) :
    Appends (fun b => .ok (mp_encode_int b n)) (mp_encode_int_b n) :=
  Appends.pure (fun buf hb => mp_encode_int_contents buf n hb)

theorem appends_bytes (s : List Nat) :
    Appends (fun b => .ok (mp_encode_bytes b s s.length)) (mp_encode_bytes_hdr s.length ++ s) := by
  refine Appends.pure (fun buf hb => ?_)
  have h := mp_encode_bytes_contents buf s hb
  exact ⟨h.1, by rw [h.2, List.append_assoc]⟩

theorem appends_array (n : Int) :
    Appends (fun b => .ok (mp_encode_array b n)) (mp_encode_array_b n) :=
  Appends.pure (fun buf hb => mp_encode_array_contents buf n hb)

theorem appends_map (n : Int) :
    Appends (fun b => .ok (mp_encode_map b n)) (mp_encode_map_b n) :=
  Appends.pure (fun buf hb => mp_encode_map_contents buf n hb)

theorem appends_double (d : Nat) :
    Appends (fun b => .ok (mp_encode_double b d)) (double_ladder d) :=
  Appends.pure (fun buf hb => mp_encode_double_contents buf d hb)

theorem lua_gettable_mem (es : List (LuaValue × LuaValue)) (j : Int) :
    lua_gettable es j = .nil ∨ ∃ e ∈ es, e.2 = lua_gettable es j := by
  unfold lua_gettable lookupIndex
  cases h : es.find? (fun e => e.1.isIndex j) with
  | none => left; simp
  | some e =>
    right
    exact ⟨e, List.mem_of_find?_eq_some h, by simp⟩

theorem Appends.packed_bytes {v : LuaValue} {level : Nat} {w : List Nat}
    (hf : Appends (fun b => mp_encode_lua_type v b level) w) : packed v level = w := by
  obtain ⟨b, e, c⟩ := hf.bytes_eq
  have e1 : mp_encode_lua_type v mp_buf_new level = .ok b := e
  unfold packed
  rw [e1]
  exact c

theorem appends_packed (v : LuaValue) (level : Nat) (f : Emit) (w : List Nat)
    (e : ∀ b, mp_encode_lua_type v b level = f b) (hf : Appends f w) :
    Appends (fun b => mp_encode_lua_type v b level) (packed v level) := by
  have e1 : (fun b => mp_encode_lua_type v b level) = f := funext e
  have h1 : Appends (fun b => mp_encode_lua_type v b level) w := by rw [e1]; exact hf
  rw [h1.packed_bytes]; exact h1

theorem appends_after_header (h : mp_buf → mp_buf) (g : Emit) (w1 w2 : List Nat)
    (hh : Appends (fun b => .ok (h b)) w1) (hg : Appends g w2) :
    Appends (fun b => g (h b)) (w1 ++ w2) :=
  Appends.comp hh hg

theorem appends_table_as_array (es : List (LuaValue × LuaValue)) (level : Nat)
    (h : ∀ e ∈ es, Appends (fun b => mp_encode_lua_type e.2 b (level + 1)) (packed e.2 (level + 1))) :
    Appends (mp_encode_lua_table_as_array es (encodeEntries es (level + 1)))
      (arrayBytes es level) := by
  have e : mp_encode_lua_table_as_array es (encodeEntries es (level + 1))
      = fun buf => (List.range' 1 (lua_objlen es)).foldlM
          (fun (b : mp_buf) (j : Nat) => mp_encode_lua_type (lua_gettable es (j : Int)) b (level + 1))
          (mp_encode_array buf (lua_objlen es : Int)) := by
    funext buf
    exact mp_encode_lua_table_as_array_eq es level buf
  rw [e]
  unfold arrayBytes
  refine appends_after_header (fun b => mp_encode_array b (lua_objlen es : Int)) _ _ _
    (appends_array _) (appends_foldl
    (fun (j : Nat) (b : mp_buf) => mp_encode_lua_type (lua_gettable es (j : Int)) b (level + 1))
    (fun (j : Nat) => packed (lua_gettable es (j : Int)) (level + 1)) _ ?_)
  intro j _
  show Appends (fun b => mp_encode_lua_type (lua_gettable es (j : Int)) b (level + 1))
    (packed (lua_gettable es (j : Int)) (level + 1))
  rcases lua_gettable_mem es (j : Int) with hn | ⟨e, he, hv⟩
  · rw [hn]
    exact appends_packed .nil (level + 1) (fun b => .ok (mp_encode_null b)) [0xc0]
      (fun b => by rw [mp_encode_lua_type]) appends_null
  · rw [← hv]
    exact h e he

theorem appends_table_as_map (es : List (LuaValue × LuaValue)) (level : Nat)
    (h : ∀ e ∈ es, Appends (fun b => mp_encode_lua_type e.1 b (level + 1)) (packed e.1 (level + 1))
      ∧ Appends (fun b => mp_encode_lua_type e.2 b (level + 1)) (packed e.2 (level + 1))) :
    Appends (mp_encode_lua_table_as_map es (encodeEntries es (level + 1)))
      (mapBytes es level) := by
  have e : mp_encode_lua_table_as_map es (encodeEntries es (level + 1))
      = fun buf => es.foldlM (encodePair (level + 1)) (mp_encode_map buf (es.length : Int)) := by
    funext buf
    exact mp_encode_lua_table_as_map_eq es level buf
  rw [e]
  unfold mapBytes
  refine appends_after_header (fun b => mp_encode_map b (es.length : Int)) _ _ _
    (appends_map _) (appends_foldl
    (fun (e : LuaValue × LuaValue) (b : mp_buf) => encodePair (level + 1) b e)
    (fun e => packed e.1 (level + 1) ++ packed e.2 (level + 1)) _ ?_)
  intro e he
  exact Appends.comp (h e he).1 (h e he).2

theorem encode_table_array (es : List (LuaValue × LuaValue)) (level : Nat)
    (hl : level ≠ LUACMSGPACK_MAX_NESTING) (ha : table_is_an_array es = true)
    (hb : isBlobTable es = false) (b : mp_buf) :
    mp_encode_lua_type (.table es) b level
      = mp_encode_lua_table_as_array es (encodeEntries es (level + 1)) b := by
  rw [mp_encode_lua_type]
  simp only [hl, if_false, mp_encode_lua_table, ha, if_true]
  simp only [isBlobTable, ha, Bool.true_and, Bool.and_eq_false_imp,
    decide_eq_true_eq, decide_eq_false_iff_not] at hb
  rw [if_neg (fun hh => hb hh.1 hh.2)]

theorem encode_table_map (es : List (LuaValue × LuaValue)) (level : Nat)
    (hl : level ≠ LUACMSGPACK_MAX_NESTING) (ha : ¬ table_is_an_array es = true) (b : mp_buf) :
    mp_encode_lua_type (.table es) b level
      = mp_encode_lua_table_as_map es (encodeEntries es (level + 1)) b := by
  rw [mp_encode_lua_type]
  simp only [hl, if_false, mp_encode_lua_table, ha, Bool.false_eq_true]

mutual
theorem encode_appends (v : LuaValue) (level : Nat) (h : Fits v level) :
    Appends (fun b => mp_encode_lua_type v b level) (packed v level) :=
  match v with
  | .nil =>
    appends_packed _ level (fun b => .ok (mp_encode_null b)) [0xc0]
      (fun b => by rw [mp_encode_lua_type]) appends_null
  | .boolean x =>
    appends_packed _ level
      (fun b => .ok (mp_buf_append b [if x then 0xc3 else 0xc2] [if x then 0xc3 else 0xc2].length))
      _ (fun b => by rw [mp_encode_lua_type]; rfl) (appends_append _)
  | .number n =>
    appends_packed _ level (fun b => .ok (mp_encode_int b (cast_int64 n))) _
      (fun b => by rw [mp_encode_lua_type]) (appends_int _)
  | .double d =>
    appends_packed _ level (fun b => .ok (mp_encode_double b d)) _
      (fun b => by rw [Fits] at h; rw [mp_encode_lua_type, h.2]; rfl) (appends_double d)
  | .string s =>
    appends_packed _ level (fun b => .ok (mp_encode_bytes b s s.length)) _
      (fun b => by rw [mp_encode_lua_type]) (appends_bytes _)
  | .lightuserdata p =>
    appends_packed _ level (fun b => .ok (mp_encode_null b)) [0xc0]
      (fun b => by rw [mp_encode_lua_type]) appends_null
  | .func =>
    appends_packed _ level (fun b => .ok (mp_encode_null b)) [0xc0]
      (fun b => by rw [mp_encode_lua_type]) appends_null
  | .userdata size pod => by
    rw [Fits] at h
    exact absurd h id
  | .table es => by
    rw [Fits] at h
    by_cases hl : level = LUACMSGPACK_MAX_NESTING
    · exact appends_packed _ level (fun b => .ok (mp_encode_null b)) [0xc0]
        (fun b => by rw [mp_encode_lua_type]; simp [hl]) appends_null
    · rcases h with h | ⟨_, hblob, hfit⟩
      · exact absurd h hl
      · have ih := encode_appends_entries es (level + 1) hfit
        by_cases ha : table_is_an_array es = true
        · exact appends_packed _ level _ _ (encode_table_array es level hl ha hblob)
            (appends_table_as_array es level (fun x hx => (ih x hx).2))
        · exact appends_packed _ level _ _ (encode_table_map es level hl ha)
            (appends_table_as_map es level ih)
theorem encode_appends_entries (es : List (LuaValue × LuaValue)) (level : Nat)
    (h : FitsEntries es level) :
    ∀ e ∈ es, Appends (fun b => mp_encode_lua_type e.1 b level) (packed e.1 level)
      ∧ Appends (fun b => mp_encode_lua_type e.2 b level) (packed e.2 level) :=
  match es with
  | [] => by intro e he; exact absurd he (List.not_mem_nil e)
  | (k, v) :: rest => by
    rw [FitsEntries] at h
    intro e he
    rcases List.mem_cons.mp he with rfl | hr
    · exact ⟨encode_appends k level h.1, encode_appends v level h.2.1⟩
    · exact encode_appends_entries rest level h.2.2.2 e hr
end

/-! ## One step of the decoder on strings, containers and scalars -/

theorem need_ok (c : mp_cur) (n : Nat) (k : Step) (h : n ≤ c.left) : mp_cur_need c n k = k := by
  unfold mp_cur_need
  rw [if_neg (by omega)]

theorem bits_64_sub (left k : Nat) (h1 : k ≤ left) (h2 : left < 2 ^ 64) :
    bits 64 ((left : Int) - (k : Int)) = left - k := by
  unfold bits; omega

theorem go_default (fuel p0 left err : Nat) (rest : List Nat) (hf : 0 < fuel) (h : 1 ≤ left)
    (hp : p0 < 0xc0 ∨ 0xe0 ≤ p0) :
    mp_decode_to_lua_type.go fuel { p := p0 :: rest, left := left, err := err }
      = if p0 &&& 0x80 = 0 then
          .pushed (mp_cur_consume { p := p0 :: rest, left := left, err := err } 1) (.number p0)
        else if p0 &&& 0xe0 = 0xe0 then
          .pushed (mp_cur_consume { p := p0 :: rest, left := left, err := err } 1)
            (.number (signed 8 p0))
        else if p0 &&& 0xe0 = 0xa0 then
          mp_cur_need { p := p0 :: rest, left := left, err := err } (add_size_t 1 (p0 &&& 0x1f))
            (.pushed (mp_cur_consume { p := p0 :: rest, left := left, err := err }
              (add_size_t 1 (p0 &&& 0x1f))) (.string (rest.take (p0 &&& 0x1f))))
        else if p0 &&& 0xf0 = 0x90 then
          mp_decode_to_lua_array (mp_decode_to_lua_type.go (fuel - 1))
            (mp_cur_consume { p := p0 :: rest, left := left, err := err } 1) (p0 &&& 0xf)
        else if p0 &&& 0xf0 = 0x80 then
          mp_decode_to_lua_hash (mp_decode_to_lua_type.go (fuel - 1))
            (mp_cur_consume { p := p0 :: rest, left := left, err := err } 1) (p0 &&& 0xf)
        else .unwound { p := p0 :: rest, left := left, err := MP_CUR_ERROR_BADFMT } := by
  obtain ⟨f, rfl⟩ := Nat.exists_eq_succ_of_ne_zero (Nat.pos_iff_ne_zero.mp hf)
  rw [mp_decode_to_lua_type.go, need_ok _ _ _ (by simpa using h)]
  simp only [mp_cur.at, List.getD_cons_zero, mp_cur.slice, List.drop_succ_cons, List.drop_zero,
    Nat.add_sub_cancel]
  iterate 22 rw [if_neg (by omega)]
  rfl

set_option maxRecDepth 100000 in
theorem fix_hdr_raw : ∀ len < 32, uchar (0xa0 ||| (len &&& 0xff)) = 160 + len ∧
    (160 + len) &&& 0x1f = len := by decide

set_option maxRecDepth 100000 in
theorem fix_hdr_array : ∀ n < 16, uchar (0x90 ||| (n &&& 0xf)) = 144 + n ∧
    (144 + n) &&& 0xf = n := by decide

set_option maxRecDepth 100000 in
theorem fix_hdr_map : ∀ n < 16, uchar (0x80 ||| (n &&& 0xf)) = 128 + n ∧
    (128 + n) &&& 0xf = n := by decide

theorem mp_cur_consume_eq (p0s rest : List Nat) (left err k : Nat) (hk : p0s.length = k)
    (h1 : k ≤ left) (h2 : left < 2 ^ 64) :
    mp_cur_consume { p := p0s ++ rest, left := left, err := err } k
      = { p := rest, left := left - k, err := err } := by
  unfold mp_cur_consume
  simp only [mp_cur.mk.injEq, and_true]
  exact ⟨by rw [← hk, List.drop_left], bits_64_sub left k h1 h2⟩

theorem len16_cons (t b1 b2 left err : Nat) (rest : List Nat) (h1 : b1 < 256) (h2 : b2 < 256) :
    len16 { p := t :: b1 :: b2 :: rest, left := left, err := err } = b1 * 2 ^ 8 + b2 := by
  simp only [len16, mp_cur.at, List.getD_cons_succ, List.getD_cons_zero]
  rw [val_16 b1 b2 h1 h2]
  unfold size_t bits
  omega

/-- One step of the decoder on the tag `0xda` (raw 16). -/
theorem go_da (fuel b1 b2 left err : Nat) (rest : List Nat) (hf : 0 < fuel)
    (h : 3 ≤ left) (h1 : b1 < 256) (h2 : b2 < 256) :
    mp_decode_to_lua_type.go fuel { p := 0xda :: b1 :: b2 :: rest, left := left, err := err }
      = mp_cur_need { p := 0xda :: b1 :: b2 :: rest, left := left, err := err }
          (add_size_t 3 (b1 * 2 ^ 8 + b2))
          (.pushed
            (mp_cur_consume { p := 0xda :: b1 :: b2 :: rest, left := left, err := err }
              (add_size_t 3 (b1 * 2 ^ 8 + b2)))
            (.string (rest.take (b1 * 2 ^ 8 + b2)))) := by
  obtain ⟨f, rfl⟩ := Nat.exists_eq_succ_of_ne_zero (Nat.pos_iff_ne_zero.mp hf)
  have e := len16_cons 0xda b1 b2 left err rest h1 h2
  rw [mp_decode_to_lua_type.go, need_ok _ _ _ (by simp only []; omega)]
  simp only [mp_cur.at, List.getD_cons_zero, e, mp_cur.slice]
  simp
  exact need_ok _ _ _ (by simp only []; omega)

/-- One step of the decoder on the tag `0xdc` (array 16). -/
theorem go_dc (fuel b1 b2 left err : Nat) (rest : List Nat) (hf : 0 < fuel)
    (h : 3 ≤ left) (h1 : b1 < 256) (h2 : b2 < 256) :
    mp_decode_to_lua_type.go fuel { p := 0xdc :: b1 :: b2 :: rest, left := left, err := err }
      = mp_decode_to_lua_array (mp_decode_to_lua_type.go (fuel - 1))
          (mp_cur_consume { p := 0xdc :: b1 :: b2 :: rest, left := left, err := err } 3)
          (b1 * 2 ^ 8 + b2) := by
  obtain ⟨f, rfl⟩ := Nat.exists_eq_succ_of_ne_zero (Nat.pos_iff_ne_zero.mp hf)
  have e := len16_cons 0xdc b1 b2 left err rest h1 h2
  rw [mp_decode_to_lua_type.go, need_ok _ _ _ (by simp only []; omega)]
  simp only [mp_cur.at, List.getD_cons_zero, e]
  simp
  exact need_ok _ _ _ (by simp only []; omega)

/-- One step of the decoder on the tag `0xde` (map 16). -/
theorem go_de (fuel b1 b2 left err : Nat) (rest : List Nat) (hf : 0 < fuel)
    (h : 3 ≤ left) (h1 : b1 < 256) (h2 : b2 < 256) :
    mp_decode_to_lua_type.go fuel { p := 0xde :: b1 :: b2 :: rest, left := left, err := err }
      = mp_decode_to_lua_hash (mp_decode_to_lua_type.go (fuel - 1))
          (mp_cur_consume { p := 0xde :: b1 :: b2 :: rest, left := left, err := err } 3)
          (b1 * 2 ^ 8 + b2) := by
  obtain ⟨f, rfl⟩ := Nat.exists_eq_succ_of_ne_zero (Nat.pos_iff_ne_zero.mp hf)
  have e := len16_cons 0xde b1 b2 left err rest h1 h2
  rw [mp_decode_to_lua_type.go, need_ok _ _ _ (by simp only []; omega)]
  simp only [mp_cur.at, List.getD_cons_zero, e]
  simp
  exact need_ok _ _ _ (by simp only []; omega)

/-- One step of the decoder on the tag `0xdd` (array 32). -/
theorem go_dd (fuel b1 b2 b3 b4 left err : Nat) (rest : List Nat) (hf : 0 < fuel)
    (h : 5 ≤ left) (h1 : b1 < 256) (h2 : b2 < 256) (h3 : b3 < 256) (h4 : b4 < 256) :
    mp_decode_to_lua_type.go fuel
        { p := 0xdd :: b1 :: b2 :: b3 :: b4 :: rest, left := left, err := err }
      = mp_decode_to_lua_array (mp_decode_to_lua_type.go (fuel - 1))
          (mp_cur_consume
            { p := 0xdd :: b1 :: b2 :: b3 :: b4 :: rest, left := left, err := err } 5)
          (size_t (signed 32 (b1 * 2 ^ 24 + b2 * 2 ^ 16 + b3 * 2 ^ 8 + b4))) := by
  obtain ⟨f, rfl⟩ := Nat.exists_eq_succ_of_ne_zero (Nat.pos_iff_ne_zero.mp hf)
  have e := len32_cons 0xdd b1 b2 b3 b4 left err rest h1 h2 h3 h4
  rw [mp_decode_to_lua_type.go, need_ok _ _ _ (by simp only []; omega)]
  simp only [mp_cur.at, List.getD_cons_zero, e]
  simp
  exact need_ok _ _ _ (by simp only []; omega)

/-- One step of the decoder on the tag `0xdf` (map 32). -/
theorem go_df (fuel b1 b2 b3 b4 left err : Nat) (rest : List Nat) (hf : 0 < fuel)
    (h : 5 ≤ left) (h1 : b1 < 256) (h2 : b2 < 256) (h3 : b3 < 256) (h4 : b4 < 256) :
    mp_decode_to_lua_type.go fuel
        { p := 0xdf :: b1 :: b2 :: b3 :: b4 :: rest, left := left, err := err }
      = mp_decode_to_lua_hash (mp_decode_to_lua_type.go (fuel - 1))
          (mp_cur_consume
            { p := 0xdf :: b1 :: b2 :: b3 :: b4 :: rest, left := left, err := err } 5)
          (size_t (signed 32 (b1 * 2 ^ 24 + b2 * 2 ^ 16 + b3 * 2 ^ 8 + b4))) := by
  obtain ⟨f, rfl⟩ := Nat.exists_eq_succ_of_ne_zero (Nat.pos_iff_ne_zero.mp hf)
  have e := len32_cons 0xdf b1 b2 b3 b4 left err rest h1 h2 h3 h4
  rw [mp_decode_to_lua_type.go, need_ok _ _ _ (by simp only []; omega)]
  simp only [mp_cur.at, List.getD_cons_zero, e]
  simp
  exact need_ok _ _ _ (by simp only []; omega)

/-- Decoding a string written by `mp_encode_bytes`, shorter than `2^31` bytes. -/
theorem go_raw (fuel left err : Nat) (s rest : List Nat) (hf : 0 < fuel)
    (hs : s.length < 2 ^ 31)
    (hl : (mp_encode_bytes_hdr s.length ++ s).length ≤ left) (h64 : left < 2 ^ 64) :
    mp_decode_to_lua_type.go fuel
        { p := mp_encode_bytes_hdr s.length ++ s ++ rest, left := left, err := err }
      = .pushed { p := rest, left := left - (mp_encode_bytes_hdr s.length ++ s).length,
                  err := err } (.string s) := by
  by_cases c1 : s.length < 32
  · have hh : mp_encode_bytes_hdr s.length = [160 + s.length] := by
      unfold mp_encode_bytes_hdr
      rw [if_pos c1, (fix_hdr_raw s.length c1).1]
    rw [hh] at hl ⊢
    simp only [List.cons_append, List.nil_append, List.length_cons, List.length_append,
      List.length_nil] at hl ⊢
    rw [go_default _ _ _ _ _ hf (by omega) (by omega)]
    have m1 : ¬ (160 + s.length) &&& 0x80 = 0 := by rw [and_80 _ (by omega)]; omega
    have m2 : ¬ (160 + s.length) &&& 0xe0 = 0xe0 := by rw [and_e0 _ (by omega)]; omega
    have m3 : (160 + s.length) &&& 0xe0 = 0xa0 := by rw [and_e0_a0 _ (by omega)]; omega
    rw [if_neg m1, if_neg m2, if_pos m3, (fix_hdr_raw s.length c1).2]
    have ha : add_size_t 1 s.length = 1 + s.length := by unfold add_size_t; omega
    rw [ha, need_ok _ _ _ (by simp only []; omega)]
    have hc := mp_cur_consume_eq ((160 + s.length) :: s) rest left err (1 + s.length)
      (by simp; omega) (by omega) h64
    simp only [List.cons_append] at hc
    rw [hc, List.take_left]
    congr 2
    omega
  · by_cases c2 : s.length ≤ 0xffff
    · have hh : mp_encode_bytes_hdr s.length
          = [0xda, s.length / 2 ^ 8 % 256, s.length % 256] := by
        unfold mp_encode_bytes_hdr
        rw [if_neg c1, if_pos c2]
        simp only [uchar, mask_0, mask_8, Nat.mod_mod]
      rw [hh] at hl ⊢
      simp only [List.cons_append, List.nil_append, List.length_cons, List.length_append,
        List.length_nil] at hl ⊢
      rw [go_da _ _ _ _ _ _ hf (by omega) (by omega) (by omega)]
      have hsum : s.length / 2 ^ 8 % 256 * 2 ^ 8 + s.length % 256 = s.length := by omega
      have ha : add_size_t 3 s.length = 3 + s.length := by unfold add_size_t; omega
      rw [hsum, ha, need_ok _ _ _ (by simp only []; omega)]
      have hc := mp_cur_consume_eq (0xda :: (s.length / 2 ^ 8 % 256) :: (s.length % 256) :: s)
        rest left err (3 + s.length) (by simp; omega) (by omega) h64
      simp only [List.cons_append] at hc
      rw [hc, List.take_left]
      congr 2
      omega
    · have hh : mp_encode_bytes_hdr s.length
          = [0xdb, s.length / 2 ^ 24 % 256, s.length / 2 ^ 16 % 256, s.length / 2 ^ 8 % 256,
              s.length % 256] := by
        unfold mp_encode_bytes_hdr
        rw [if_neg c1, if_neg c2]
        simp only [uchar, mask_0, mask_8, mask_16, mask_24, Nat.mod_mod]
      rw [hh] at hl ⊢
      simp only [List.cons_append, List.nil_append, List.length_cons, List.length_append,
        List.length_nil] at hl ⊢
      rw [go_db _ _ _ _ _ _ _ _ hf (by omega) (by omega) (by omega) (by omega) (by omega)]
      have hsum : s.length / 2 ^ 24 % 256 * 2 ^ 24 + s.length / 2 ^ 16 % 256 * 2 ^ 16
          + s.length / 2 ^ 8 % 256 * 2 ^ 8 + s.length % 256 = s.length := by omega
      have hsz : size_t (signed 32 s.length) = s.length := by
        unfold size_t bits signed
        split_ifs <;> omega
      have ha : add_size_t 5 s.length = 5 + s.length := by unfold add_size_t; omega
      rw [hsum, hsz, ha, need_ok _ _ _ (by simp only []; omega)]
      have hc := mp_cur_consume_eq
        (0xdb :: (s.length / 2 ^ 24 % 256) :: (s.length / 2 ^ 16 % 256)
          :: (s.length / 2 ^ 8 % 256) :: (s.length % 256) :: s)
        rest left err (5 + s.length) (by simp; omega) (by omega) h64
      simp only [List.cons_append] at hc
      rw [hc, List.take_left]
      congr 2
      omega

/-- Decoding an array header written by `mp_encode_array`, for a count below `2^31`. -/
theorem go_array_hdr (fuel left err n : Nat) (body : List Nat) (hf : 0 < fuel)
    (hn : n < 2 ^ 31) (hl : (mp_encode_array_b (n : Int)).length ≤ left) (h64 : left < 2 ^ 64) :
    mp_decode_to_lua_type.go fuel
        { p := mp_encode_array_b (n : Int) ++ body, left := left, err := err }
      = mp_decode_to_lua_array (mp_decode_to_lua_type.go (fuel - 1))
          { p := body, left := left - (mp_encode_array_b (n : Int)).length, err := err } n := by
  by_cases c1 : n ≤ 15
  · have hh : mp_encode_array_b (n : Int) = [144 + n] := by
      unfold mp_encode_array_b
      rw [if_pos (by omega), bits_64_nat, Nat.mod_eq_of_lt (by omega),
        (fix_hdr_array n (by omega)).1]
    rw [hh] at hl ⊢
    simp only [List.cons_append, List.nil_append, List.length_cons, List.length_nil] at hl ⊢
    rw [go_default _ _ _ _ _ hf (by omega) (by omega)]
    have m1 : ¬ (144 + n) &&& 0x80 = 0 := by rw [and_80 _ (by omega)]; omega
    have m2 : ¬ (144 + n) &&& 0xe0 = 0xe0 := by rw [and_e0 _ (by omega)]; omega
    have m3 : ¬ (144 + n) &&& 0xe0 = 0xa0 := by rw [and_e0_a0 _ (by omega)]; omega
    have m4 : (144 + n) &&& 0xf0 = 0x90 := by rw [and_f0_90 _ (by omega)]; omega
    rw [if_neg m1, if_neg m2, if_neg m3, if_pos m4, (fix_hdr_array n (by omega)).2]
    have hc := mp_cur_consume_eq [144 + n] body left err 1 (by simp) (by omega) h64
    simp only [List.cons_append, List.nil_append] at hc
    rw [hc]
  · by_cases c2 : n ≤ 65535
    · have hh : mp_encode_array_b (n : Int) = [0xdc, n / 2 ^ 8 % 256, n % 256] := by
        unfold mp_encode_array_b
        rw [if_neg (by omega), if_pos (by omega), bits_64_nat, Nat.mod_eq_of_lt (by omega)]
        simp only [uchar, mask_0, mask_8, Nat.mod_mod]
      rw [hh] at hl ⊢
      simp only [List.cons_append, List.nil_append, List.length_cons, List.length_nil] at hl ⊢
      rw [go_dc _ _ _ _ _ _ hf (by omega) (by omega) (by omega)]
      have hsum : n / 2 ^ 8 % 256 * 2 ^ 8 + n % 256 = n := by omega
      have hc := mp_cur_consume_eq [0xdc, n / 2 ^ 8 % 256, n % 256] body left err 3 (by simp)
        (by omega) h64
      simp only [List.cons_append, List.nil_append] at hc
      rw [hsum, hc]
    · have hh : mp_encode_array_b (n : Int)
          = [0xdd, n / 2 ^ 24 % 256, n / 2 ^ 16 % 256, n / 2 ^ 8 % 256, n % 256] := by
        unfold mp_encode_array_b
        rw [if_neg (by omega), if_neg (by omega), bits_64_nat, Nat.mod_eq_of_lt (by omega)]
        simp only [uchar, mask_0, mask_8, mask_16, mask_24, Nat.mod_mod]
      rw [hh] at hl ⊢
      simp only [List.cons_append, List.nil_append, List.length_cons, List.length_nil] at hl ⊢
      rw [go_dd _ _ _ _ _ _ _ _ hf (by omega) (by omega) (by omega) (by omega) (by omega)]
      have hsum : n / 2 ^ 24 % 256 * 2 ^ 24 + n / 2 ^ 16 % 256 * 2 ^ 16
          + n / 2 ^ 8 % 256 * 2 ^ 8 + n % 256 = n := by omega
      have hsz : size_t (signed 32 n) = n := by
        unfold size_t bits signed
        split_ifs <;> omega
      have hc := mp_cur_consume_eq
        [0xdd, n / 2 ^ 24 % 256, n / 2 ^ 16 % 256, n / 2 ^ 8 % 256, n % 256] body left err 5
        (by simp) (by omega) h64
      simp only [List.cons_append, List.nil_append] at hc
      rw [hsum, hsz, hc]

/-- Decoding a map header written by `mp_encode_map`, for a count below `2^31`. -/
theorem go_map_hdr (fuel left err n : Nat) (body : List Nat) (hf : 0 < fuel)
    (hn : n < 2 ^ 31) (hl : (mp_encode_map_b (n : Int)).length ≤ left) (h64 : left < 2 ^ 64) :
    mp_decode_to_lua_type.go fuel
        { p := mp_encode_map_b (n : Int) ++ body, left := left, err := err }
      = mp_decode_to_lua_hash (mp_decode_to_lua_type.go (fuel - 1))
          { p := body, left := left - (mp_encode_map_b (n : Int)).length, err := err } n := by
  by_cases c1 : n ≤ 15
  · have hh : mp_encode_map_b (n : Int) = [128 + n] := by
      unfold mp_encode_map_b
      rw [if_pos (by omega), bits_64_nat, Nat.mod_eq_of_lt (by omega),
        (fix_hdr_map n (by omega)).1]
    rw [hh] at hl ⊢
    simp only [List.cons_append, List.nil_append, List.length_cons, List.length_nil] at hl ⊢
    rw [go_default _ _ _ _ _ hf (by omega) (by omega)]
    have m1 : ¬ (128 + n) &&& 0x80 = 0 := by rw [and_80 _ (by omega)]; omega
    have m2 : ¬ (128 + n) &&& 0xe0 = 0xe0 := by rw [and_e0 _ (by omega)]; omega
    have m3 : ¬ (128 + n) &&& 0xe0 = 0xa0 := by rw [and_e0_a0 _ (by omega)]; omega
    have m4 : ¬ (128 + n) &&& 0xf0 = 0x90 := by rw [and_f0_90 _ (by omega)]; omega
    have m5 : (128 + n) &&& 0xf0 = 0x80 := by rw [and_f0_80 _ (by omega)]; omega
    rw [if_neg m1, if_neg m2, if_neg m3, if_neg m4, if_pos m5, (fix_hdr_map n (by omega)).2]
    have hc := mp_cur_consume_eq [128 + n] body left err 1 (by simp) (by omega) h64
    simp only [List.cons_append, List.nil_append] at hc
    rw [hc]
  · by_cases c2 : n ≤ 65535
    · have hh : mp_encode_map_b (n : Int) = [0xde, n / 2 ^ 8 % 256, n % 256] := by
        unfold mp_encode_map_b
        rw [if_neg (by omega), if_pos (by omega), bits_64_nat, Nat.mod_eq_of_lt (by omega)]
        simp only [uchar, mask_0, mask_8, Nat.mod_mod]
      rw [hh] at hl ⊢
      simp only [List.cons_append, List.nil_append, List.length_cons, List.length_nil] at hl ⊢
      rw [go_de _ _ _ _ _ _ hf (by omega) (by omega) (by omega)]
      have hsum : n / 2 ^ 8 % 256 * 2 ^ 8 + n % 256 = n := by omega
      have hc := mp_cur_consume_eq [0xde, n / 2 ^ 8 % 256, n % 256] body left err 3 (by simp)
        (by omega) h64
      simp only [List.cons_append, List.nil_append] at hc
      rw [hsum, hc]
    · have hh : mp_encode_map_b (n : Int)
          = [0xdf, n / 2 ^ 24 % 256, n / 2 ^ 16 % 256, n / 2 ^ 8 % 256, n % 256] := by
        unfold mp_encode_map_b
        rw [if_neg (by omega), if_neg (by omega), bits_64_nat, Nat.mod_eq_of_lt (by omega)]
        simp only [uchar, mask_0, mask_8, mask_16, mask_24, Nat.mod_mod]
      rw [hh] at hl ⊢
      simp only [List.cons_append, List.nil_append, List.length_cons, List.length_nil] at hl ⊢
      rw [go_df _ _ _ _ _ _ _ _ hf (by omega) (by omega) (by omega) (by omega) (by omega)]
      have hsum : n / 2 ^ 24 % 256 * 2 ^ 24 + n / 2 ^ 16 % 256 * 2 ^ 16
          + n / 2 ^ 8 % 256 * 2 ^ 8 + n % 256 = n := by omega
      have hsz : size_t (signed 32 n) = n := by
        unfold size_t bits signed
        split_ifs <;> omega
      have hc := mp_cur_consume_eq
        [0xdf, n / 2 ^ 24 % 256, n / 2 ^ 16 % 256, n / 2 ^ 8 % 256, n % 256] body left err 5
        (by simp) (by omega) h64
      simp only [List.cons_append, List.nil_append] at hc
      rw [hsum, hsz, hc]

/-- One step of the decoder on a tag of one byte without payload. -/
theorem go_c0 (fuel left err : Nat) (rest : List Nat) (hf : 0 < fuel) (h : 1 ≤ left)
    (h64 : left < 2 ^ 64) :
    mp_decode_to_lua_type.go fuel { p := 0xc0 :: rest, left := left, err := err }
      = .pushed { p := rest, left := left - 1, err := err } .nil := by
  obtain ⟨f, rfl⟩ := Nat.exists_eq_succ_of_ne_zero (Nat.pos_iff_ne_zero.mp hf)
  rw [mp_decode_to_lua_type.go, need_ok _ _ _ (by simp only []; omega)]
  have hc := mp_cur_consume_eq [0xc0] rest left err 1 (by simp) (by omega) h64
  simp only [List.cons_append, List.nil_append] at hc
  simp [mp_cur.at, hc]

theorem go_bool (fuel left err : Nat) (b : Bool) (rest : List Nat) (hf : 0 < fuel)
    (h : 1 ≤ left) (h64 : left < 2 ^ 64) :
    mp_decode_to_lua_type.go fuel
        { p := (if b then 0xc3 else 0xc2) :: rest, left := left, err := err }
      = .pushed { p := rest, left := left - 1, err := err } (.boolean b) := by
  obtain ⟨f, rfl⟩ := Nat.exists_eq_succ_of_ne_zero (Nat.pos_iff_ne_zero.mp hf)
  rw [mp_decode_to_lua_type.go, need_ok _ _ _ (by simp only []; omega)]
  cases b with
  | true =>
    have hc := mp_cur_consume_eq [0xc3] rest left err 1 (by simp) (by omega) h64
    simp only [List.cons_append, List.nil_append] at hc
    simp [mp_cur.at, hc]
  | false =>
    have hc := mp_cur_consume_eq [0xc2] rest left err 1 (by simp) (by omega) h64
    simp only [List.cons_append, List.nil_append] at hc
    simp [mp_cur.at, hc]

theorem load_be_4 (f : Nat) (h : f < 2 ^ 32) :
    load_le (memrevifle [f / 2 ^ 24 % 256, f / 2 ^ 16 % 256, f / 2 ^ 8 % 256, f % 256] 4) = f := by
  simp only [memrevifle, memrevifle.loop, load_le, List.set_cons_zero, List.set_cons_succ,
    List.getD_cons_zero, List.getD_cons_succ, Nat.reduceDiv, Nat.reduceSub, Nat.reduceAdd]
  omega

theorem load_be_8 (d : Nat) (h : d < 2 ^ 64) :
    load_le (memrevifle [d / 2 ^ 56 % 256, d / 2 ^ 48 % 256, d / 2 ^ 40 % 256, d / 2 ^ 32 % 256,
      d / 2 ^ 24 % 256, d / 2 ^ 16 % 256, d / 2 ^ 8 % 256, d % 256] 8) = d := by
  simp only [memrevifle, memrevifle.loop, load_le, List.set_cons_zero, List.set_cons_succ,
    List.getD_cons_zero, List.getD_cons_succ, Nat.reduceDiv, Nat.reduceSub, Nat.reduceAdd]
  omega

/-- One step of the decoder on the tag `0xca` followed by the big-endian bytes
of the `float` with the bits `f`. -/
theorem go_float (fuel left err f : Nat) (rest : List Nat) (hf : 0 < fuel)
    (hi : f < 2 ^ 32) (h : 5 ≤ left) (h64 : left < 2 ^ 64) :
    mp_decode_to_lua_type.go fuel
        { p := 0xca :: (bigEndian 4 (f : Int) ++ rest), left := left, err := err }
      = .pushed { p := rest, left := left - 5, err := err }
          (lua_pushnumber (double_of_float f)) := by
  obtain ⟨g, rfl⟩ := Nat.exists_eq_succ_of_ne_zero (Nat.pos_iff_ne_zero.mp hf)
  rw [mp_decode_to_lua_type.go, need_ok _ _ _ (by simp only []; omega)]
  have hc := mp_cur_consume_eq (0xca :: bigEndian 4 (f : Int)) rest left err 5
    (by simp [bigEndian]) (by omega) h64
  simp only [List.cons_append] at hc
  rw [bigEndian_4, bits_natCast_32 f hi] at hc ⊢
  simp only [List.cons_append, List.nil_append] at hc
  simp only [mp_cur.at, List.cons_append, List.nil_append, List.getD_cons_zero,
    List.getD_cons_succ, hc, load_be_4 f hi]
  simp only [show ¬ (202 : Nat) = 204 from by decide, show ¬ (202 : Nat) = 208 from by decide,
    show ¬ (202 : Nat) = 205 from by decide, show ¬ (202 : Nat) = 209 from by decide,
    show ¬ (202 : Nat) = 206 from by decide, show ¬ (202 : Nat) = 210 from by decide,
    show ¬ (202 : Nat) = 207 from by decide, show ¬ (202 : Nat) = 211 from by decide,
    show ¬ (202 : Nat) = 192 from by decide, show ¬ (202 : Nat) = 195 from by decide,
    show ¬ (202 : Nat) = 194 from by decide, if_false, if_true]
  rw [need_ok _ _ _ (by exact h)]

/-- One step of the decoder on the tag `0xcb` followed by the big-endian bytes
of the `double` with the bits `d`. -/
theorem go_double (fuel left err d : Nat) (rest : List Nat) (hf : 0 < fuel)
    (hi : d < 2 ^ 64) (h : 9 ≤ left) (h64 : left < 2 ^ 64) :
    mp_decode_to_lua_type.go fuel
        { p := 0xcb :: (bigEndian 8 (d : Int) ++ rest), left := left, err := err }
      = .pushed { p := rest, left := left - 9, err := err } (lua_pushnumber d) := by
  obtain ⟨g, rfl⟩ := Nat.exists_eq_succ_of_ne_zero (Nat.pos_iff_ne_zero.mp hf)
  rw [mp_decode_to_lua_type.go, need_ok _ _ _ (by simp only []; omega)]
  have hc := mp_cur_consume_eq (0xcb :: bigEndian 8 (d : Int)) rest left err 9
    (by simp [bigEndian]) (by omega) h64
  simp only [List.cons_append] at hc
  rw [bigEndian_8, bits_natCast_64 d hi] at hc ⊢
  simp only [List.cons_append, List.nil_append] at hc
  simp only [mp_cur.at, List.cons_append, List.nil_append, List.getD_cons_zero,
    List.getD_cons_succ, hc, load_be_8 d hi]
  simp only [show ¬ (203 : Nat) = 204 from by decide, show ¬ (203 : Nat) = 208 from by decide,
    show ¬ (203 : Nat) = 205 from by decide, show ¬ (203 : Nat) = 209 from by decide,
    show ¬ (203 : Nat) = 206 from by decide, show ¬ (203 : Nat) = 210 from by decide,
    show ¬ (203 : Nat) = 207 from by decide, show ¬ (203 : Nat) = 211 from by decide,
    show ¬ (203 : Nat) = 192 from by decide, show ¬ (203 : Nat) = 195 from by decide,
    show ¬ (203 : Nat) = 194 from by decide, show ¬ (203 : Nat) = 202 from by decide,
    if_false, if_true]
  rw [need_ok _ _ _ (by exact h)]

/-! ## The loops of the decoder -/

theorem array_loop (dec : mp_cur → Step) (items : List (List Nat × LuaValue)) :
    ∀ (index : Int) (acc : List (LuaValue × LuaValue)) (rest : List Nat) (left : Nat),
      (∀ x ∈ items, ∀ (rest1 : List Nat) (left1 : Nat), x.1.length ≤ left1 → left1 < 2 ^ 64 →
        dec { p := x.1 ++ rest1, left := left1, err := 0 }
          = .pushed { p := rest1, left := left1 - x.1.length, err := 0 } x.2) →
      (items.flatMap (fun x => x.1)).length ≤ left → left < 2 ^ 64 →
      mp_decode_to_lua_array.loop dec items.length
          { p := items.flatMap (fun x => x.1) ++ rest, left := left, err := 0 } index acc
        = .pushed { p := rest, left := left - (items.flatMap (fun x => x.1)).length, err := 0 }
            (.table (acc ++ arrayEntries index (items.map (fun x => x.2)))) := by
  induction items with
  | nil =>
    intro index acc rest left _ _ _
    simp [mp_decode_to_lua_array.loop, arrayEntries]
  | cons x xs ih =>
    intro index acc rest left hdec hl h64
    simp only [List.flatMap_cons, List.length_append, List.length_cons] at hl ⊢
    rw [mp_decode_to_lua_array.loop, List.append_assoc,
      hdec x (by simp) _ left (by omega) h64]
    simp only [ne_eq, not_true_eq_false, if_false]
    rw [ih _ _ rest (left - x.1.length) (fun y hy => hdec y (by simp [hy])) (by omega) (by omega)]
    simp only [List.map_cons, arrayEntries, List.append_assoc, List.singleton_append,
      Step.pushed.injEq, mp_cur.mk.injEq, true_and, and_true]
    omega

theorem lua_settable_ok (t : List (LuaValue × LuaValue)) (k v : LuaValue)
    (h : keyOk k = true) : lua_settable t k v = .ok (t ++ [(k, v)]) := by
  cases k <;> simp_all [lua_settable, keyOk]

theorem hash_loop (dec : mp_cur → Step)
    (items : List ((List Nat × LuaValue) × (List Nat × LuaValue))) :
    ∀ (acc : List (LuaValue × LuaValue)) (rest : List Nat) (left : Nat),
      (∀ x ∈ items, keyOk x.1.2 = true ∧
        ∀ y, (y = x.1 ∨ y = x.2) → ∀ (rest1 : List Nat) (left1 : Nat), y.1.length ≤ left1 →
          left1 < 2 ^ 64 →
          dec { p := y.1 ++ rest1, left := left1, err := 0 }
            = .pushed { p := rest1, left := left1 - y.1.length, err := 0 } y.2) →
      (items.flatMap (fun x => x.1.1 ++ x.2.1)).length ≤ left → left < 2 ^ 64 →
      mp_decode_to_lua_hash.loop dec items.length
          { p := items.flatMap (fun x => x.1.1 ++ x.2.1) ++ rest, left := left, err := 0 } acc
        = .pushed
            { p := rest, left := left - (items.flatMap (fun x => x.1.1 ++ x.2.1)).length, err := 0 }
            (.table (acc ++ items.map (fun x => (x.1.2, x.2.2)))) := by
  induction items with
  | nil =>
    intro acc rest left _ _ _
    simp [mp_decode_to_lua_hash.loop]
  | cons x xs ih =>
    intro acc rest left hdec hl h64
    have hx := hdec x (by simp)
    simp only [List.flatMap_cons, List.length_append, List.length_cons] at hl ⊢
    rw [mp_decode_to_lua_hash.loop, List.append_assoc, List.append_assoc,
      hx.2 x.1 (Or.inl rfl) _ left (by omega) h64]
    simp only [ne_eq, not_true_eq_false, if_false]
    rw [hx.2 x.2 (Or.inr rfl) _ (left - x.1.1.length) (by omega) (by omega)]
    simp only [ne_eq, not_true_eq_false, if_false, lua_settable_ok _ _ _ hx.1]
    rw [ih _ rest _ (fun y hy => hdec y (by simp [hy])) (by omega) (by omega)]
    simp only [List.map_cons, List.append_assoc, List.singleton_append,
      Step.pushed.injEq, mp_cur.mk.injEq, true_and, and_true]
    omega

theorem lua_objlen_search_le (es : List (LuaValue × LuaValue)) (fuel n : Nat) :
    lua_objlen.search es fuel n ≤ n + fuel := by
  induction fuel generalizing n with
  | zero => simp [lua_objlen.search]
  | succ f ih =>
    rw [lua_objlen.search]
    split_ifs
    · omega
    · have := ih (n + 1); omega

theorem lua_objlen_le (es : List (LuaValue × LuaValue)) : lua_objlen es ≤ es.length := by
  have := lua_objlen_search_le es es.length 0
  unfold lua_objlen
  omega

theorem arrayEntries_range (f : Nat → LuaValue) (m : Nat) :
    ∀ i : Nat, i + m ≤ 2 ^ 31 →
      arrayEntries (i : Int) ((List.range' i m).map f)
        = (List.range' i m).map (fun (j : Nat) => (LuaValue.number (j : Int), f j)) := by
  induction m with
  | zero => intro i _; simp [arrayEntries]
  | succ m ih =>
    intro i hi
    simp only [List.range'_succ, List.map_cons, arrayEntries, List.cons.injEq, true_and]
    by_cases hm : m = 0
    · subst hm; simp [arrayEntries]
    · have e : signed 32 (bits 32 ((i : Int) + 1)) = ((i + 1 : Nat) : Int) := by
        unfold signed bits
        split_ifs <;> omega
      rw [e]
      exact ih (i + 1) (by omega)

theorem canonEntries_lookup (es : List (LuaValue × LuaValue)) (level : Nat) (j : Int) :
    ((lookupIndex (canonEntries es level) j).map (fun e => e.2)).getD .nil
      = canon (lua_gettable es j) level := by
  induction es with
  | nil => simp [canonEntries, lookupIndex, lua_gettable, canon]
  | cons e rest ih =>
    obtain ⟨k, v⟩ := e
    unfold lookupIndex lua_gettable at ih ⊢
    unfold lookupIndex
    rw [canonEntries]
    by_cases hk : k.isIndex j = true
    · simp [List.find?_cons, hk]
    · simp only [List.find?_cons, hk]
      exact ih

theorem canonEntries_map (es : List (LuaValue × LuaValue)) (level : Nat) :
    (canonEntries es level).map (fun e => e.2)
      = es.map (fun e => (canon e.1 level, canon e.2 level)) := by
  induction es with
  | nil => simp [canonEntries]
  | cons e rest ih =>
    obtain ⟨k, v⟩ := e
    rw [canonEntries]
    simp only [List.map_cons, ih]

theorem length_le_flatMap {α : Type} (l : List α) (f : α → List Nat) (a : α) (h : a ∈ l) :
    (f a).length ≤ (l.flatMap f).length := by
  induction l with
  | nil => exact absurd h (List.not_mem_nil a)
  | cons x xs ih =>
    simp only [List.flatMap_cons, List.length_append]
    rcases List.mem_cons.mp h with rfl | hr
    · omega
    · have := ih hr; omega

/-! ## Packing and unpacking a value within the limits -/

theorem packed_eq (v : LuaValue) (level : Nat) (f : Emit) (w : List Nat)
    (e : ∀ b, mp_encode_lua_type v b level = f b) (hf : Appends f w) : packed v level = w := by
  have e1 : (fun b => mp_encode_lua_type v b level) = f := funext e
  have h1 : Appends (fun b => mp_encode_lua_type v b level) w := by rw [e1]; exact hf
  exact h1.packed_bytes

theorem packed_null (v : LuaValue) (level : Nat)
    (e : ∀ b, mp_encode_lua_type v b level = .ok (mp_encode_null b)) : packed v level = [0xc0] :=
  packed_eq v level (fun b => .ok (mp_encode_null b)) [0xc0] e appends_null

theorem decodes_null (v : LuaValue) (level : Nat)
    (e : ∀ b, mp_encode_lua_type v b level = .ok (mp_encode_null b))
    (hc : canon v level = .nil) :
    DecodesTo v level := by
  intro fuel rest left hf hl h64
  rw [packed_null v level e] at hf hl ⊢
  simp only [List.length_cons, List.length_nil, List.cons_append, List.nil_append] at hf hl ⊢
  rw [go_c0 _ _ _ _ (by omega) (by omega) h64, hc]

mutual
theorem decode_packed (v : LuaValue) (level : Nat) (h : Fits v level) : DecodesTo v level :=
  match v with
  | .nil => decodes_null _ level (fun b => by rw [mp_encode_lua_type]) (by rw [canon])
  | .lightuserdata p => decodes_null _ level (fun b => by rw [mp_encode_lua_type]) (by rw [canon])
  | .func => decodes_null _ level (fun b => by rw [mp_encode_lua_type]) (by rw [canon])
  | .userdata size pod => by
    rw [Fits] at h
    exact absurd h id
  | .boolean x => by
    intro fuel rest left hf hl h64
    have e := packed_eq (.boolean x) level
      (fun b => .ok (mp_buf_append b [if x then 0xc3 else 0xc2] [if x then 0xc3 else 0xc2].length))
      _
      (fun b => by rw [mp_encode_lua_type]; rfl) (appends_append _)
    rw [e] at hf hl ⊢
    simp only [List.length_cons, List.length_nil, List.cons_append, List.nil_append] at hf hl ⊢
    rw [go_bool _ _ _ _ _ (by omega) (by omega) h64, canon]
  | .number n => by
    intro fuel rest left hf hl h64
    rw [Fits] at h
    have hc : cast_int64 n = n := by
      unfold cast_int64; rw [if_pos (by have h1 := h.1; unfold isInt64 at h1; exact h1)]
    have e := packed_eq (.number n) level (fun b => .ok (mp_encode_int b (cast_int64 n))) _
      (fun b => by rw [mp_encode_lua_type]) (appends_int _)
    rw [hc, mp_encode_int_b_eq n h.1] at e
    rw [e] at hf hl ⊢
    rw [go_int_ladder _ _ _ _ _ h.1 (by omega) hl h64, h.2, canon]
  | .double d => by
    intro fuel rest left hf hl h64
    rw [Fits] at h
    have e := packed_eq (.double d) level (fun b => .ok (mp_encode_double b d)) _
      (fun b => by rw [mp_encode_lua_type, h.2]; rfl) (appends_double d)
    rw [e] at hf hl ⊢
    unfold double_ladder at hf hl ⊢
    by_cases t : double_eq d (double_of_float (float_of_double d)) = true
    · rw [if_pos t] at hf hl ⊢
      simp only [List.length_cons, bigEndian, List.length_map, List.length_range] at hf hl
      rw [List.cons_append, go_float _ _ _ _ _ (by omega) (float_of_double_lt d) (by omega) h64,
        narrow_back d h.1 t, lua_pushnumber_fraction d h.2, canon]
      simp only [List.length_cons, bigEndian, List.length_map, List.length_range]
    · rw [if_neg t] at hf hl ⊢
      simp only [List.length_cons, bigEndian, List.length_map, List.length_range] at hf hl
      rw [List.cons_append, go_double _ _ _ _ _ (by omega) h.1 (by omega) h64,
        lua_pushnumber_fraction d h.2, canon]
      simp only [List.length_cons, bigEndian, List.length_map, List.length_range]
  | .string s => by
    intro fuel rest left hf hl h64
    rw [Fits] at h
    have e := packed_eq (.string s) level (fun b => .ok (mp_encode_bytes b s s.length)) _
      (fun b => by rw [mp_encode_lua_type]) (appends_bytes _)
    rw [e] at hf hl ⊢
    rw [go_raw _ _ _ _ _ (by omega) h hl h64, canon]
  | .table es => by
    rw [Fits] at h
    by_cases hlv : level = LUACMSGPACK_MAX_NESTING
    · exact decodes_null _ level (fun b => by rw [mp_encode_lua_type]; simp [hlv])
        (by rw [canon]; simp [hlv])
    · rcases h with h | ⟨hlen, hblob, hfit⟩
      · exact absurd h hlv
      · have ih := decode_packed_entries es (level + 1) hfit
        have ia := encode_appends_entries es (level + 1) hfit
        intro fuel rest left hf hl h64
        by_cases ha : table_is_an_array es = true
        · have e := packed_eq (.table es) level _ _ (encode_table_array es level hlv ha hblob)
            (appends_table_as_array es level (fun x hx => (ia x hx).2))
          rw [e] at hf hl ⊢
          unfold arrayBytes at hf hl ⊢
          have hn := lua_objlen_le es
          have hh : 1 ≤ (mp_encode_array_b (lua_objlen es : Int)).length := by
            unfold mp_encode_array_b; split_ifs <;> simp
          simp only [List.length_append] at hf hl
          rw [List.append_assoc, go_array_hdr _ _ _ _ _ (by omega) (by omega) (by omega) h64]
          unfold mp_decode_to_lua_array
          have hitems : (List.range' 1 (lua_objlen es)).flatMap
              (fun (j : Nat) => packed (lua_gettable es (j : Int)) (level + 1))
              = ((List.range' 1 (lua_objlen es)).map (fun (j : Nat) =>
                  (packed (lua_gettable es (j : Int)) (level + 1),
                    canon (lua_gettable es (j : Int)) (level + 1)))).flatMap (fun x => x.1) := by
            rw [List.flatMap_map]
          rw [hitems] at hf hl ⊢
          have hdec : ∀ x ∈ (List.range' 1 (lua_objlen es)).map (fun (j : Nat) =>
                  (packed (lua_gettable es (j : Int)) (level + 1),
                    canon (lua_gettable es (j : Int)) (level + 1))),
              ∀ (rest1 : List Nat) (left1 : Nat), x.1.length ≤ left1 → left1 < 2 ^ 64 →
                mp_decode_to_lua_type.go (fuel - 1) { p := x.1 ++ rest1, left := left1, err := 0 }
                  = .pushed { p := rest1, left := left1 - x.1.length, err := 0 } x.2 := by
            intro x hx rest1 left1 hl1 h641
            have hxl := length_le_flatMap _ (fun x : List Nat × LuaValue => x.1) _ hx
            obtain ⟨j, _, rfl⟩ := List.mem_map.mp hx
            have hd : DecodesTo (lua_gettable es (j : Int)) (level + 1) := by
              rcases lua_gettable_mem es (j : Int) with hn | ⟨e, he, hv⟩
              · rw [hn]
                exact decodes_null _ _ (fun b => by rw [mp_encode_lua_type]) (by rw [canon])
              · rw [← hv]; exact (ih e he).2.1
            exact hd (fuel - 1) rest1 left1 (by simp only [] at hxl ⊢; omega) hl1 h641
          have key := array_loop (mp_decode_to_lua_type.go (fuel - 1)) _ 1 [] rest
            (left - (mp_encode_array_b (lua_objlen es : Int)).length) hdec (by omega) (by omega)
          rw [List.length_map, List.length_range'] at key
          rw [key, canon]
          simp only [hlv, if_false, ha, if_true, List.nil_append, List.map_map,
            Step.pushed.injEq, mp_cur.mk.injEq, true_and, and_true, LuaValue.table.injEq]
          refine ⟨by simp only [List.length_append]; omega, ?_⟩
          have hr := arrayEntries_range
            (fun (j : Nat) => canon (lua_gettable es (j : Int)) (level + 1)) (lua_objlen es) 1 (by omega)
          simp only [Nat.cast_one] at hr
          have hfun : ((fun x => x.2) ∘ fun (j : Nat) =>
              (packed (lua_gettable es (j : Int)) (level + 1),
                canon (lua_gettable es (j : Int)) (level + 1)))
              = fun (j : Nat) => canon (lua_gettable es (j : Int)) (level + 1) := by
            funext j; rfl
          rw [hfun, hr]
          apply List.map_congr_left
          intro j _
          rw [canonEntries_lookup]
        · have e := packed_eq (.table es) level _ _ (encode_table_map es level hlv ha)
            (appends_table_as_map es level ia)
          rw [e] at hf hl ⊢
          unfold mapBytes at hf hl ⊢
          have hh : 1 ≤ (mp_encode_map_b (es.length : Int)).length := by
            unfold mp_encode_map_b; split_ifs <;> simp
          simp only [List.length_append] at hf hl
          rw [List.append_assoc, go_map_hdr _ _ _ _ _ (by omega) hlen (by omega) h64]
          unfold mp_decode_to_lua_hash
          have hitems : es.flatMap (fun e => packed e.1 (level + 1) ++ packed e.2 (level + 1))
              = (es.map (fun e => ((packed e.1 (level + 1), canon e.1 (level + 1)),
                  (packed e.2 (level + 1), canon e.2 (level + 1))))).flatMap
                    (fun x => x.1.1 ++ x.2.1) := by
            rw [List.flatMap_map]
          rw [hitems] at hf hl ⊢
          have hdec : ∀ x ∈ es.map (fun e => ((packed e.1 (level + 1), canon e.1 (level + 1)),
                  (packed e.2 (level + 1), canon e.2 (level + 1)))),
              keyOk x.1.2 = true ∧
                ∀ y, (y = x.1 ∨ y = x.2) → ∀ (rest1 : List Nat) (left1 : Nat),
                  y.1.length ≤ left1 → left1 < 2 ^ 64 →
                  mp_decode_to_lua_type.go (fuel - 1)
                      { p := y.1 ++ rest1, left := left1, err := 0 }
                    = .pushed { p := rest1, left := left1 - y.1.length, err := 0 } y.2 := by
            intro x hx
            have hxl := length_le_flatMap _
              (fun x : (List Nat × LuaValue) × (List Nat × LuaValue) => x.1.1 ++ x.2.1) _ hx
            obtain ⟨e, he, rfl⟩ := List.mem_map.mp hx
            simp only [List.length_append] at hxl
            refine ⟨(ih e he).2.2, ?_⟩
            intro y hy rest1 left1 hl1 h641
            rcases hy with rfl | rfl
            · exact (ih e he).1 (fuel - 1) rest1 left1 (by omega) hl1 h641
            · exact (ih e he).2.1 (fuel - 1) rest1 left1 (by omega) hl1 h641
          have key := hash_loop (mp_decode_to_lua_type.go (fuel - 1)) _ [] rest
            (left - (mp_encode_map_b (es.length : Int)).length) hdec (by omega) (by omega)
          rw [List.length_map] at key
          rw [key, canon]
          simp only [hlv, if_false, ha, Bool.false_eq_true, List.nil_append, List.map_map,
            Step.pushed.injEq, mp_cur.mk.injEq, true_and, and_true, LuaValue.table.injEq]
          refine ⟨by simp only [List.length_append]; omega, ?_⟩
          rw [canonEntries_map]
          apply List.map_congr_left
          intro e _
          rfl
theorem decode_packed_entries (es : List (LuaValue × LuaValue)) (level : Nat)
    (h : FitsEntries es level) :
    ∀ e ∈ es, DecodesTo e.1 level ∧ DecodesTo e.2 level ∧ keyOk (canon e.1 level) = true :=
  match es with
  | [] => by intro e he; exact absurd he (List.not_mem_nil e)
  | (k, v) :: rest => by
    rw [FitsEntries] at h
    intro e he
    rcases List.mem_cons.mp he with rfl | hr
    · exact ⟨decode_packed k level h.1, decode_packed v level h.2.1, h.2.2.1⟩
    · exact decode_packed_entries rest level h.2.2.2 e hr
end

/-- What `_mp_unpack` returns when the root decode pushes a value, latches no
error and leaves no byte. -/
theorem mp_unpack_value (data : List Nat) (len : Nat) (c : mp_cur) (v : LuaValue)
    (h : mp_decode_to_lua_type (mp_cur_new data len) = .pushed c v) (he : c.err = 0)
    (hl : c.left = 0) : _mp_unpack data len = .value v := by
  unfold _mp_unpack
  simp only [h, he, hl, MP_CUR_ERROR_EOF, MP_CUR_ERROR_BADFMT]
  simp

/-- What `_mp_pack` returns for a value within the limits: the bytes `packed`. -/
theorem mp_pack_packed (v : LuaValue) (h : Fits v 0) : _mp_pack v = .ok (packed v 0) := by
  obtain ⟨b, e, _⟩ := (encode_appends v 0 h).bytes_eq
  have e1 : mp_encode_lua_type v mp_buf_new 0 = .ok b := e
  unfold _mp_pack packed
  rw [e1]

/-- Packing a value that is within the limits returns a string, and unpacking
it returns without error the value `canon` describes: the same scalars, every
table that takes the map branch with the same pairs in the same order, every
table that takes the array branch with the entries `1 ↦ t[1]`, ...,
`n ↦ t[n]`, `n` being its length, and `nil` for a table at level 16. -/
theorem unpack_pack (v : LuaValue) (h : Fits v 0) (h64 : (packed v 0).length < 2 ^ 64) :
    _mp_pack v = .ok (packed v 0) ∧ mp_unpack (packed v 0) = .value (canon v 0) := by
  have hd := decode_packed v 0 h ((packed v 0).length + 1) [] (packed v 0).length
    (by omega) (by omega) h64
  rw [List.append_nil, Nat.sub_self] at hd
  refine ⟨mp_pack_packed v h, ?_⟩
  unfold mp_unpack
  exact mp_unpack_value _ _ _ _ hd rfl rfl

/-- A value within the limits that `canon` leaves as it is comes back unchanged:
this is the case of scalars and of tables, nested less than 16 deep, whose
array-classified members are enumerated in the order of their indices. -/
theorem unpack_pack_same (v : LuaValue) (h : Fits v 0) (h64 : (packed v 0).length < 2 ^ 64)
    (hc : canon v 0 = v) :
    _mp_pack v = .ok (packed v 0) ∧ mp_unpack (packed v 0) = .value v := by
  have e := unpack_pack v h h64
  rw [hc] at e
  exact e

/-! ## What every decoding call respects -/

theorem within_trans (c c1 : mp_cur) (s : Step) (hl : c1.left ≤ c.left) (he : c1.err = c.err)
    (h : s.within c1) : s.within c := by
  cases s with
  | pushed c2 v => exact ⟨le_trans h.1 hl, h.2.trans he⟩
  | unwound c2 =>
    refine ⟨le_trans h.1 hl, ?_⟩
    rcases h.2 with h2 | h2 | h2
    · exact Or.inl h2
    · exact Or.inr (Or.inl h2)
    · exact Or.inr (Or.inr ⟨h2.1.trans he, he ▸ h2.2⟩)
  | raised c2 msg => exact ⟨le_trans h.1 hl, h.2.trans he⟩
  | exhausted => exact h

theorem consume_left_le (c : mp_cur) (n : Nat) (h : n ≤ c.left) :
    (mp_cur_consume c n).left ≤ c.left - n := by
  unfold mp_cur_consume bits
  simp only
  omega

theorem consume_err (c : mp_cur) (n : Nat) : (mp_cur_consume c n).err = c.err := rfl

theorem within_consume (c : mp_cur) (n : Nat) (v : LuaValue) (h : ¬ c.left < n) :
    (Step.pushed (mp_cur_consume c n) v).within c :=
  ⟨le_trans (consume_left_le c n (by omega)) (Nat.sub_le _ _), rfl⟩

theorem within_eof (c : mp_cur) : (Step.unwound { c with err := MP_CUR_ERROR_EOF }).within c :=
  ⟨le_refl _, Or.inl rfl⟩

theorem within_badfmt (c : mp_cur) :
    (Step.unwound { c with err := MP_CUR_ERROR_BADFMT }).within c :=
  ⟨le_refl _, Or.inr (Or.inl rfl)⟩

theorem array_loop_within (dec : mp_cur → Step) (n : Nat) :
    ∀ (c : mp_cur) (index : Int) (t : List (LuaValue × LuaValue)),
      (∀ c1 : mp_cur, c1.left ≤ c.left → (dec c1).within c1) →
      (mp_decode_to_lua_array.loop dec n c index t).within c := by
  induction n with
  | zero => intro c index t _; exact ⟨le_refl _, rfl⟩
  | succ n ih =>
    intro c index t hdec
    have h0 := hdec c (le_refl _)
    rw [mp_decode_to_lua_array.loop]
    cases hd : dec c with
    | pushed c1 v =>
      rw [hd] at h0
      simp only
      by_cases he : c1.err ≠ 0
      · rw [if_pos he]
        exact ⟨h0.1, Or.inr (Or.inr ⟨h0.2, h0.2 ▸ he⟩)⟩
      · rw [if_neg he]
        exact within_trans c c1 _ h0.1 h0.2
          (ih c1 _ _ (fun c2 h2 => hdec c2 (le_trans h2 h0.1)))
    | unwound c1 => rw [hd] at h0; exact h0
    | raised c1 msg => rw [hd] at h0; exact h0
    | exhausted => rw [hd] at h0; exact h0

theorem hash_loop_within (dec : mp_cur → Step) (n : Nat) :
    ∀ (c : mp_cur) (t : List (LuaValue × LuaValue)),
      (∀ c1 : mp_cur, c1.left ≤ c.left → (dec c1).within c1) →
      (mp_decode_to_lua_hash.loop dec n c t).within c := by
  induction n with
  | zero => intro c t _; exact ⟨le_refl _, rfl⟩
  | succ n ih =>
    intro c t hdec
    have h0 := hdec c (le_refl _)
    rw [mp_decode_to_lua_hash.loop]
    cases hd : dec c with
    | pushed c1 k =>
      rw [hd] at h0
      simp only
      by_cases he : c1.err ≠ 0
      · rw [if_pos he]
        exact ⟨h0.1, Or.inr (Or.inr ⟨h0.2, h0.2 ▸ he⟩)⟩
      · rw [if_neg he]
        have h1 := hdec c1 h0.1
        cases hd1 : dec c1 with
        | pushed c2 v =>
          rw [hd1] at h1
          simp only
          have h2l : c2.left ≤ c.left := le_trans h1.1 h0.1
          have h2e : c2.err = c.err := h1.2.trans h0.2
          by_cases he2 : c2.err ≠ 0
          · rw [if_pos he2]
            exact ⟨h2l, Or.inr (Or.inr ⟨h2e, h2e ▸ he2⟩)⟩
          · rw [if_neg he2]
            cases hs : lua_settable t k v with
            | ok t2 =>
              simp only
              exact within_trans c c2 _ h2l h2e
                (ih c2 _ (fun c3 h3 => hdec c3 (le_trans h3 h2l)))
            | error msg => exact ⟨h2l, h2e⟩
        | unwound c2 => rw [hd1] at h1; exact within_trans c c1 _ h0.1 h0.2 h1
        | raised c2 msg => rw [hd1] at h1; exact within_trans c c1 _ h0.1 h0.2 h1
        | exhausted => rw [hd1] at h1; exact h1
    | unwound c1 => rw [hd] at h0; exact h0
    | raised c1 msg => rw [hd] at h0; exact h0
    | exhausted => rw [hd] at h0; exact h0

theorem within_array (dec : mp_cur → Step) (c : mp_cur) (k l : Nat) (h : ¬ c.left < k)
    (hdec : ∀ c1 : mp_cur, c1.left ≤ c.left - k → (dec c1).within c1) :
    (mp_decode_to_lua_array dec (mp_cur_consume c k) l).within c :=
  within_trans c _ _ (le_trans (consume_left_le c k (by omega)) (Nat.sub_le _ _)) rfl
    (array_loop_within dec l _ _ _
      (fun c1 h1 => hdec c1 (le_trans h1 (consume_left_le c k (by omega)))))

theorem within_hash (dec : mp_cur → Step) (c : mp_cur) (k l : Nat) (h : ¬ c.left < k)
    (hdec : ∀ c1 : mp_cur, c1.left ≤ c.left - k → (dec c1).within c1) :
    (mp_decode_to_lua_hash dec (mp_cur_consume c k) l).within c :=
  within_trans c _ _ (le_trans (consume_left_le c k (by omega)) (Nat.sub_le _ _)) rfl
    (hash_loop_within dec l _ _
      (fun c1 h1 => hdec c1 (le_trans h1 (consume_left_le c k (by omega)))))

theorem within_need (c : mp_cur) (n : Nat) (k : Step) (h : ¬ c.left < n → k.within c) :
    (mp_cur_need c n k).within c := by
  unfold mp_cur_need
  by_cases hn : c.left < n
  · rw [if_pos hn]; exact within_eof c
  · rw [if_neg hn]; exact h hn

theorem go_within (fuel : Nat) : ∀ c : mp_cur, c.left < fuel →
    (mp_decode_to_lua_type.go fuel c).within c := by
  induction fuel with
  | zero => intro c h; omega
  | succ fuel ih =>
    intro c hc
    rw [mp_decode_to_lua_type.go]
    refine within_need c 1 _ (fun h1 => ?_)
    dsimp only
    by_cases tcc : c.at 0 = 0xcc
    · rw [if_pos tcc]
      exact within_need c _ _ (fun h => within_consume c _ _ h)
    rw [if_neg tcc]
    by_cases td0 : c.at 0 = 0xd0
    · rw [if_pos td0]
      exact within_need c _ _ (fun h => within_consume c _ _ h)
    rw [if_neg td0]
    by_cases tcd : c.at 0 = 0xcd
    · rw [if_pos tcd]
      exact within_need c _ _ (fun h => within_consume c _ _ h)
    rw [if_neg tcd]
    by_cases td1 : c.at 0 = 0xd1
    · rw [if_pos td1]
      exact within_need c _ _ (fun h => within_consume c _ _ h)
    rw [if_neg td1]
    by_cases tce : c.at 0 = 0xce
    · rw [if_pos tce]
      exact within_need c _ _ (fun h => within_consume c _ _ h)
    rw [if_neg tce]
    by_cases td2 : c.at 0 = 0xd2
    · rw [if_pos td2]
      exact within_need c _ _ (fun h => within_consume c _ _ h)
    rw [if_neg td2]
    by_cases tcf : c.at 0 = 0xcf
    · rw [if_pos tcf]
      exact within_need c _ _ (fun h => within_consume c _ _ h)
    rw [if_neg tcf]
    by_cases td3 : c.at 0 = 0xd3
    · rw [if_pos td3]
      exact within_need c _ _ (fun h => within_consume c _ _ h)
    rw [if_neg td3]
    by_cases tc0 : c.at 0 = 0xc0
    · rw [if_pos tc0]
      exact within_consume c _ _ (by omega)
    rw [if_neg tc0]
    by_cases tc3 : c.at 0 = 0xc3
    · rw [if_pos tc3]
      exact within_consume c _ _ (by omega)
    rw [if_neg tc3]
    by_cases tc2 : c.at 0 = 0xc2
    · rw [if_pos tc2]
      exact within_consume c _ _ (by omega)
    rw [if_neg tc2]
    by_cases tca : c.at 0 = 0xca
    · rw [if_pos tca]
      exact within_need c _ _ (fun h => within_consume c _ _ h)
    rw [if_neg tca]
    by_cases tcb : c.at 0 = 0xcb
    · rw [if_pos tcb]
      exact within_need c _ _ (fun h => within_consume c _ _ h)
    rw [if_neg tcb]
    by_cases tda : c.at 0 = 0xda
    · rw [if_pos tda]
      exact within_need c _ _ (fun _ => within_need c _ _ (fun h => within_consume c _ _ h))
    rw [if_neg tda]
    by_cases tdb : c.at 0 = 0xdb
    · rw [if_pos tdb]
      exact within_need c _ _ (fun _ => within_need c _ _ (fun h => within_consume c _ _ h))
    rw [if_neg tdb]
    by_cases tdc : c.at 0 = 0xdc
    · rw [if_pos tdc]
      exact within_need c _ _ (fun h => within_array _ c _ _ h (fun c1 h1 => ih c1 (by omega)))
    rw [if_neg tdc]
    by_cases tdd : c.at 0 = 0xdd
    · rw [if_pos tdd]
      exact within_need c _ _ (fun h => within_array _ c _ _ h (fun c1 h1 => ih c1 (by omega)))
    rw [if_neg tdd]
    by_cases tde : c.at 0 = 0xde
    · rw [if_pos tde]
      exact within_need c _ _ (fun h => within_hash _ c _ _ h (fun c1 h1 => ih c1 (by omega)))
    rw [if_neg tde]
    by_cases tdf : c.at 0 = 0xdf
    · rw [if_pos tdf]
      exact within_need c _ _ (fun h => within_hash _ c _ _ h (fun c1 h1 => ih c1 (by omega)))
    rw [if_neg tdf]
    by_cases tc4 : c.at 0 = 0xc4
    · rw [if_pos tc4]
      exact within_need c _ _ (fun _ => within_need c _ _ (fun h => within_consume c _ _ h))
    rw [if_neg tc4]
    by_cases tc5 : c.at 0 = 0xc5
    · rw [if_pos tc5]
      exact within_need c _ _ (fun _ => within_need c _ _ (fun h => within_consume c _ _ h))
    rw [if_neg tc5]
    by_cases tc6 : c.at 0 = 0xc6
    · rw [if_pos tc6]
      exact within_need c _ _ (fun _ => within_need c _ _ (fun h => within_consume c _ _ h))
    rw [if_neg tc6]
    by_cases m1 : c.at 0 &&& 0x80 = 0
    · rw [if_pos m1]
      exact within_consume c _ _ (by omega)
    rw [if_neg m1]
    by_cases m2 : c.at 0 &&& 0xe0 = 0xe0
    · rw [if_pos m2]
      exact within_consume c _ _ (by omega)
    rw [if_neg m2]
    by_cases m3 : c.at 0 &&& 0xe0 = 0xa0
    · rw [if_pos m3]
      exact within_need c _ _ (fun h => within_consume c _ _ h)
    rw [if_neg m3]
    by_cases m4 : c.at 0 &&& 0xf0 = 0x90
    · rw [if_pos m4]
      exact within_array _ c _ _ h1 (fun c1 h1 => ih c1 (by omega))
    rw [if_neg m4]
    by_cases m5 : c.at 0 &&& 0xf0 = 0x80
    · rw [if_pos m5]
      exact within_hash _ c _ _ h1 (fun c1 h1 => ih c1 (by omega))
    rw [if_neg m5]
    exact within_badfmt c

theorem mp_decode_within (data : List Nat) (len : Nat) :
    (mp_decode_to_lua_type (mp_cur_new data len)).within (mp_cur_new data len) :=
  go_within _ _ (Nat.lt_succ_self _)

theorem unwound_err (data : List Nat) (len : Nat) (c : mp_cur)
    (h : mp_decode_to_lua_type (mp_cur_new data len) = .unwound c) :
    c.err = MP_CUR_ERROR_EOF ∨ c.err = MP_CUR_ERROR_BADFMT := by
  have hw := mp_decode_within data len
  rw [h] at hw
  rcases hw.2 with h1 | h1 | h1
  · exact Or.inl h1
  · exact Or.inr h1
  · exact absurd rfl h1.2

theorem pushed_err (data : List Nat) (len : Nat) (c : mp_cur) (v : LuaValue)
    (h : mp_decode_to_lua_type (mp_cur_new data len) = .pushed c v) :
    c.err = MP_CUR_ERROR_NONE := by
  have hw := mp_decode_within data len
  rw [h] at hw
  exact hw.2

/-! ## Array classification, soundness -/

/-- C11, the code at failing inputs.  The table with the keys 3 and 2, enumerated
in this order, has two entries and lacks the key 1, yet `table_is_an_array`
returns true for it, the last key enumerated being equal to the number of
entries.  So it does for the table with the keys 2, 3 and 4 enumerated as
2, 4, 3 or as 4, 2, 3, which is then packed as the empty array `0x90`;
enumerated as 2, 3, 4 the same table is classified as a map.  The table with
the keys 1, 2 and 4 is classified as a map in each of its six enumeration
orders. -/
theorem table_is_an_array_unsound :
    table_is_an_array [(.number 3, .boolean true), (.number 2, .boolean true)] = true ∧
      table_is_an_array [(.number 2, .boolean true), (.number 4, .boolean true),
        (.number 3, .boolean true)] = true ∧
      _mp_pack (.table [(.number 2, .boolean true), (.number 4, .boolean true),
        (.number 3, .boolean true)]) = .ok [0x90] ∧
      table_is_an_array [(.number 4, .boolean true), (.number 2, .boolean true),
        (.number 3, .boolean true)] = true ∧
      table_is_an_array [(.number 2, .boolean true), (.number 3, .boolean true),
        (.number 4, .boolean true)] = false ∧
      (∀ a b c : LuaValue,
        table_is_an_array [(.number 1, a), (.number 2, b), (.number 4, c)] = false ∧
        table_is_an_array [(.number 1, a), (.number 4, b), (.number 2, c)] = false ∧
        table_is_an_array [(.number 2, a), (.number 1, b), (.number 4, c)] = false ∧
        table_is_an_array [(.number 2, a), (.number 4, b), (.number 1, c)] = false ∧
        table_is_an_array [(.number 4, a), (.number 1, b), (.number 2, c)] = false ∧
        table_is_an_array [(.number 4, a), (.number 2, b), (.number 1, c)] = false) := by
  refine ⟨by decide, by decide, rfl, by decide, by decide,
    fun a b c => ⟨rfl, rfl, rfl, rfl, rfl, rfl⟩⟩

/-! ## Nesting ceiling -/

theorem encode_table_eq (es : List (LuaValue × LuaValue)) (buf : mp_buf) (level : Nat) :
    mp_encode_lua_type (.table es) buf level =
      if level = LUACMSGPACK_MAX_NESTING then .ok (mp_encode_null buf)
      else if isBlobTable es = true then mp_encode_lua_table_as_lightuserdata es buf
      else if table_is_an_array es = true then
        (List.range' 1 (lua_objlen es)).foldlM
          (fun (b : mp_buf) (j : Nat) => mp_encode_lua_type (lua_gettable es (j : Int)) b (level + 1))
          (mp_encode_array buf (lua_objlen es : Int))
      else
        es.foldlM
          (fun (b : mp_buf) e => match mp_encode_lua_type e.1 b (level + 1) with
            | .error msg => .error msg
            | .ok b1 => mp_encode_lua_type e.2 b1 (level + 1))
          (mp_encode_map buf (es.length : Int)) := by
  by_cases hl : level = LUACMSGPACK_MAX_NESTING
  · rw [if_pos hl, mp_encode_lua_type, if_pos hl]
  rw [if_neg hl]
  by_cases ha : table_is_an_array es = true
  · by_cases hb : isBlobTable es = true
    · rw [if_pos hb, mp_encode_lua_type, if_neg hl, mp_encode_lua_table, if_pos ha]
      simp only [isBlobTable, ha, Bool.true_and, Bool.and_eq_true, decide_eq_true_eq] at hb
      rw [if_pos hb]
    · rw [if_neg hb, if_pos ha, encode_table_array es level hl ha (by simpa using hb),
        mp_encode_lua_table_as_array_eq]
  · have hb : ¬ isBlobTable es = true := by
      simp only [isBlobTable, Bool.and_eq_true, not_and]
      intro h; exact absurd h ha
    rw [if_neg hb, if_neg ha, encode_table_map es level hl ha, mp_encode_lua_table_as_map_eq]
    rfl

theorem nest_succ (n : Nat) (v : LuaValue) : nest (n + 1) v = .table [(.number 1, nest n v)] := rfl

theorem appends_nest (k : Nat) : ∀ (level m : Nat) (v : LuaValue),
    level + k = LUACMSGPACK_MAX_NESTING →
    Appends (fun b => mp_encode_lua_type (nest (k + 1 + m) v) b level)
      (List.replicate k 0x91 ++ [0xc0]) := by
  induction k with
  | zero =>
    intro level m v hl
    have e : 0 + 1 + m = m + 1 := by omega
    rw [e, nest_succ]
    have e2 : (fun b => mp_encode_lua_type (.table [(.number 1, nest m v)]) b level)
        = fun b => .ok (mp_encode_null b) := by
      funext b
      rw [mp_encode_lua_type, if_pos (by omega)]
    rw [e2]
    exact appends_null
  | succ k ih =>
    intro level m v hl
    have e : k + 1 + 1 + m = (k + 1 + m) + 1 := by omega
    rw [e, nest_succ]
    have e3 : k + 1 + m = (k + m) + 1 := by omega
    have hx := ih (level + 1) m v (by omega)
    have ha : table_is_an_array [(.number 1, nest (k + 1 + m) v)] = true := rfl
    have hb : isBlobTable [(.number 1, nest (k + 1 + m) v)] = false := by
      rw [e3, nest_succ]; rfl
    have hlen : lua_objlen [(.number 1, nest (k + 1 + m) v)] = 1 := by
      rw [e3, nest_succ]; rfl
    have e2 : (fun b => mp_encode_lua_type (.table [(.number 1, nest (k + 1 + m) v)]) b level)
        = mp_encode_lua_table_as_array [(.number 1, nest (k + 1 + m) v)]
            (encodeEntries [(.number 1, nest (k + 1 + m) v)] (level + 1)) := by
      funext b
      exact encode_table_array _ level (by omega) ha hb b
    rw [e2]
    have h1 := appends_table_as_array [(.number 1, nest (k + 1 + m) v)] level (by
      intro e he
      rw [List.mem_singleton] at he
      subst he
      rw [hx.packed_bytes]
      exact hx)
    have hbytes : arrayBytes [(.number 1, nest (k + 1 + m) v)] level
        = List.replicate (k + 1) 0x91 ++ [0xc0] := by
      unfold arrayBytes
      rw [hlen]
      have hg : lua_gettable [(LuaValue.number 1, nest (k + 1 + m) v)] ((1 : Nat) : Int)
          = nest (k + 1 + m) v := rfl
      simp only [List.range', List.flatMap_cons, List.flatMap_nil, List.append_nil, hg]
      have hp : packed (nest (k + 1 + m) v) (level + 1) = List.replicate k 0x91 ++ [0xc0] :=
        hx.packed_bytes
      rw [hp]
      rfl
    rw [hbytes] at h1
    exact h1

set_option maxRecDepth 100000 in
/-- C12: `mp_encode_lua_type` on a table at level 16 is `mp_encode_null`, which
writes the single byte `0xc0` and none of the contents; at any other level a
table that is not a blob is emitted as its header (`mp_encode_array` with
`lua_objlen`, or `mp_encode_map` with the number of entries) followed by its
elements, each encoded at `level + 1`.  Encoding starting at level 0, a
structure nested 17 levels or more (20, say) is packed as 16 array headers
`0x91` and the byte `0xc0`, which unpacks to 16 nested tables with `nil` at
depth 16. -/
theorem nesting_ceiling (es : List (LuaValue × LuaValue)) (buf : mp_buf) (level m : Nat)
    (v : LuaValue) :
    (mp_encode_lua_type (.table es) buf level =
      if level = LUACMSGPACK_MAX_NESTING then .ok (mp_encode_null buf)
      else if isBlobTable es = true then mp_encode_lua_table_as_lightuserdata es buf
      else if table_is_an_array es = true then
        (List.range' 1 (lua_objlen es)).foldlM
          (fun (b : mp_buf) (j : Nat) => mp_encode_lua_type (lua_gettable es (j : Int)) b (level + 1))
          (mp_encode_array buf (lua_objlen es : Int))
      else
        es.foldlM
          (fun (b : mp_buf) e => match mp_encode_lua_type e.1 b (level + 1) with
            | .error msg => .error msg
            | .ok b1 => mp_encode_lua_type e.2 b1 (level + 1))
          (mp_encode_map buf (es.length : Int))) ∧
    packed (.table es) LUACMSGPACK_MAX_NESTING = [0xc0] ∧
    _mp_pack (nest (17 + m) v) = .ok (List.replicate 16 0x91 ++ [0xc0]) ∧
    mp_unpack (List.replicate 16 0x91 ++ [0xc0]) = .value (nest 16 .nil) := by
  refine ⟨encode_table_eq es buf level, ?_, ?_, rfl⟩
  · exact packed_null _ _ (fun b => by rw [mp_encode_lua_type, if_pos rfl])
  · obtain ⟨b, e, c⟩ := (appends_nest 16 0 m v rfl).bytes_eq
    have e1 : mp_encode_lua_type (nest (17 + m) v) mp_buf_new 0 = .ok b := e
    unfold _mp_pack
    rw [e1]
    exact congrArg Except.ok c

/-! ## Truncated input -/

theorem mp_pack_string_bytes (s : List Nat) :
    _mp_pack (.string s) = .ok (mp_encode_bytes_hdr s.length ++ s) := by
  rw [mp_pack_string]
  refine congrArg Except.ok (written_of_contents mp_buf_new _ _ mp_buf_new_inBlock ?_)
  rw [(mp_encode_bytes_contents mp_buf_new s mp_buf_new_inBlock).2, List.append_assoc]

/-- C13, the code at a failing input.  The five bytes `db ff ff ff fb` are a
strict prefix of what `_mp_pack` returns for a string of `2^32 - 5` bytes; on
them `mp_decode_to_lua_type` latches no error: the length read is `-5` as an
`int`, the sum `5 + l` wraps to 0, `mp_cur_need` lets it pass and a string is
pushed, so that `mp_unpack` reports "Extra bytes in input." and not "Missing
bytes in input.". -/
theorem truncation_not_eof :
    (∃ s, _mp_pack (.string (zeros 4294967291)) = .ok s ∧
        [0xdb, 0xff, 0xff, 0xff, 0xfb] <+: s ∧ [0xdb, 0xff, 0xff, 0xff, 0xfb] ≠ s) ∧
      mp_decode_to_lua_type (mp_cur_new [0xdb, 0xff, 0xff, 0xff, 0xfb] 5)
        = .pushed { p := [0xdb, 0xff, 0xff, 0xff, 0xfb], left := 5, err := MP_CUR_ERROR_NONE }
            (.string []) ∧
      mp_unpack [0xdb, 0xff, 0xff, 0xff, 0xfb] = .error "Extra bytes in input." := by
  have e : _mp_pack (.string (zeros 4294967291))
      = .ok ([0xdb, 0xff, 0xff, 0xff, 0xfb] ++ zeros 4294967291) := by
    rw [mp_pack_string_bytes]
    have hl : (zeros 4294967291).length = 4294967291 := by rw [zeros, List.length_replicate]
    rw [hl]
    rfl
  refine ⟨⟨_, e, List.prefix_append _ _, ?_⟩, rfl, rfl⟩
  intro h
  have h2 := congrArg List.length h
  rw [List.length_append, zeros, List.length_replicate] at h2
  simp at h2

/-! ## Bad tag -/

set_option maxRecDepth 100000 in
theorem badfmt_byte : ∀ b < 256,
    b ∈ [0xc1, 0xc7, 0xc8, 0xc9, 0xd4, 0xd5, 0xd6, 0xd7, 0xd8, 0xd9] ∨
      b = 0xcc ∨ b = 0xd0 ∨ b = 0xcd ∨ b = 0xd1 ∨ b = 0xce ∨ b = 0xd2 ∨ b = 0xcf ∨ b = 0xd3 ∨ b = 0xc0 ∨ b = 0xc3 ∨ b = 0xc2 ∨ b = 0xca ∨ b = 0xcb ∨ b = 0xda ∨ b = 0xdb ∨ b = 0xdc ∨ b = 0xdd ∨ b = 0xde ∨ b = 0xdf ∨ b = 0xc4 ∨ b = 0xc5 ∨ b = 0xc6 ∨
      b &&& 0x80 = 0 ∨ b &&& 0xe0 = 0xe0 ∨ b &&& 0xe0 = 0xa0 ∨ b &&& 0xf0 = 0x90 ∨
      b &&& 0xf0 = 0x80 := by
  decide

theorem need_ne_badfmt (c : mp_cur) (n : Nat) (k : Step)
    (h : mp_cur_need c n k = .unwound { c with err := MP_CUR_ERROR_BADFMT }) :
    ¬ c.left < n ∧ k = .unwound { c with err := MP_CUR_ERROR_BADFMT } := by
  unfold mp_cur_need at h
  by_cases hn : c.left < n
  · rw [if_pos hn] at h
    simp [MP_CUR_ERROR_EOF, MP_CUR_ERROR_BADFMT] at h
  · rw [if_neg hn] at h
    exact ⟨hn, h⟩

theorem within_consume_ne (c : mp_cur) (k e : Nat) (s : Step) (h1 : 1 ≤ k) (h2 : ¬ c.left < k)
    (h : s.within (mp_cur_consume c k)) : s ≠ .unwound { c with err := e } := by
  intro hs
  rw [hs] at h
  have := h.1
  have := consume_left_le c k (by omega)
  simp only at *
  omega

theorem go_badfmt_tag (c : mp_cur) (hb : c.at 0 < 256)
    (h : mp_decode_to_lua_type c = .unwound { c with err := MP_CUR_ERROR_BADFMT }) :
    c.at 0 ∈ [0xc1, 0xc7, 0xc8, 0xc9, 0xd4, 0xd5, 0xd6, 0xd7, 0xd8, 0xd9] := by
  rw [mp_decode_to_lua_type, mp_decode_to_lua_type.go] at h
  obtain ⟨h1, h⟩ := need_ne_badfmt _ _ _ h
  dsimp only at h
  have ha : ∀ (k l : Nat), 1 ≤ k → ¬ c.left < k →
      mp_decode_to_lua_array (mp_decode_to_lua_type.go c.left) (mp_cur_consume c k) l
        ≠ .unwound { c with err := MP_CUR_ERROR_BADFMT } := fun k l hk1 hk2 =>
    within_consume_ne c k _ _ hk1 hk2 (array_loop_within _ l _ _ _ (fun c1 hc1 =>
      go_within _ c1 (by have := consume_left_le c k (by omega); omega)))
  have hh : ∀ (k l : Nat), 1 ≤ k → ¬ c.left < k →
      mp_decode_to_lua_hash (mp_decode_to_lua_type.go c.left) (mp_cur_consume c k) l
        ≠ .unwound { c with err := MP_CUR_ERROR_BADFMT } := fun k l hk1 hk2 =>
    within_consume_ne c k _ _ hk1 hk2 (hash_loop_within _ l _ _ (fun c1 hc1 =>
      go_within _ c1 (by have := consume_left_le c k (by omega); omega)))
  by_cases tcc : c.at 0 = 0xcc
  · rw [if_pos tcc] at h
    exact Step.noConfusion (need_ne_badfmt _ _ _ h).2
  rw [if_neg tcc] at h
  by_cases td0 : c.at 0 = 0xd0
  · rw [if_pos td0] at h
    exact Step.noConfusion (need_ne_badfmt _ _ _ h).2
  rw [if_neg td0] at h
  by_cases tcd : c.at 0 = 0xcd
  · rw [if_pos tcd] at h
    exact Step.noConfusion (need_ne_badfmt _ _ _ h).2
  rw [if_neg tcd] at h
  by_cases td1 : c.at 0 = 0xd1
  · rw [if_pos td1] at h
    exact Step.noConfusion (need_ne_badfmt _ _ _ h).2
  rw [if_neg td1] at h
  by_cases tce : c.at 0 = 0xce
  · rw [if_pos tce] at h
    exact Step.noConfusion (need_ne_badfmt _ _ _ h).2
  rw [if_neg tce] at h
  by_cases td2 : c.at 0 = 0xd2
  · rw [if_pos td2] at h
    exact Step.noConfusion (need_ne_badfmt _ _ _ h).2
  rw [if_neg td2] at h
  by_cases tcf : c.at 0 = 0xcf
  · rw [if_pos tcf] at h
    exact Step.noConfusion (need_ne_badfmt _ _ _ h).2
  rw [if_neg tcf] at h
  by_cases td3 : c.at 0 = 0xd3
  · rw [if_pos td3] at h
    exact Step.noConfusion (need_ne_badfmt _ _ _ h).2
  rw [if_neg td3] at h
  by_cases tc0 : c.at 0 = 0xc0
  · rw [if_pos tc0] at h
    exact Step.noConfusion h
  rw [if_neg tc0] at h
  by_cases tc3 : c.at 0 = 0xc3
  · rw [if_pos tc3] at h
    exact Step.noConfusion h
  rw [if_neg tc3] at h
  by_cases tc2 : c.at 0 = 0xc2
  · rw [if_pos tc2] at h
    exact Step.noConfusion h
  rw [if_neg tc2] at h
  by_cases tca : c.at 0 = 0xca
  · rw [if_pos tca] at h
    exact Step.noConfusion (need_ne_badfmt _ _ _ h).2
  rw [if_neg tca] at h
  by_cases tcb : c.at 0 = 0xcb
  · rw [if_pos tcb] at h
    exact Step.noConfusion (need_ne_badfmt _ _ _ h).2
  rw [if_neg tcb] at h
  by_cases tda : c.at 0 = 0xda
  · rw [if_pos tda] at h
    exact Step.noConfusion (need_ne_badfmt _ _ _ (need_ne_badfmt _ _ _ h).2).2
  rw [if_neg tda] at h
  by_cases tdb : c.at 0 = 0xdb
  · rw [if_pos tdb] at h
    exact Step.noConfusion (need_ne_badfmt _ _ _ (need_ne_badfmt _ _ _ h).2).2
  rw [if_neg tdb] at h
  by_cases tdc : c.at 0 = 0xdc
  · rw [if_pos tdc] at h
    exact absurd (need_ne_badfmt _ _ _ h).2 (ha _ _ (by omega) (need_ne_badfmt _ _ _ h).1)
  rw [if_neg tdc] at h
  by_cases tdd : c.at 0 = 0xdd
  · rw [if_pos tdd] at h
    exact absurd (need_ne_badfmt _ _ _ h).2 (ha _ _ (by omega) (need_ne_badfmt _ _ _ h).1)
  rw [if_neg tdd] at h
  by_cases tde : c.at 0 = 0xde
  · rw [if_pos tde] at h
    exact absurd (need_ne_badfmt _ _ _ h).2 (hh _ _ (by omega) (need_ne_badfmt _ _ _ h).1)
  rw [if_neg tde] at h
  by_cases tdf : c.at 0 = 0xdf
  · rw [if_pos tdf] at h
    exact absurd (need_ne_badfmt _ _ _ h).2 (hh _ _ (by omega) (need_ne_badfmt _ _ _ h).1)
  rw [if_neg tdf] at h
  by_cases tc4 : c.at 0 = 0xc4
  · rw [if_pos tc4] at h
    exact Step.noConfusion (need_ne_badfmt _ _ _ (need_ne_badfmt _ _ _ h).2).2
  rw [if_neg tc4] at h
  by_cases tc5 : c.at 0 = 0xc5
  · rw [if_pos tc5] at h
    exact Step.noConfusion (need_ne_badfmt _ _ _ (need_ne_badfmt _ _ _ h).2).2
  rw [if_neg tc5] at h
  by_cases tc6 : c.at 0 = 0xc6
  · rw [if_pos tc6] at h
    exact Step.noConfusion (need_ne_badfmt _ _ _ (need_ne_badfmt _ _ _ h).2).2
  rw [if_neg tc6] at h
  by_cases m1 : c.at 0 &&& 0x80 = 0
  · rw [if_pos m1] at h
    exact Step.noConfusion h
  rw [if_neg m1] at h
  by_cases m2 : c.at 0 &&& 0xe0 = 0xe0
  · rw [if_pos m2] at h
    exact Step.noConfusion h
  rw [if_neg m2] at h
  by_cases m3 : c.at 0 &&& 0xe0 = 0xa0
  · rw [if_pos m3] at h
    exact Step.noConfusion (need_ne_badfmt _ _ _ h).2
  rw [if_neg m3] at h
  by_cases m4 : c.at 0 &&& 0xf0 = 0x90
  · rw [if_pos m4] at h
    exact absurd h (ha _ _ (le_refl _) h1)
  rw [if_neg m4] at h
  by_cases m5 : c.at 0 &&& 0xf0 = 0x80
  · rw [if_pos m5] at h
    exact absurd h (hh _ _ (le_refl _) h1)
  have key := badfmt_byte _ hb
  simp only [tcc, td0, tcd, td1, tce, td2, tcf, td3, tc0, tc3, tc2, tca, tcb, tda, tdb, tdc, tdd, tde, tdf, tc4, tc5, tc6, m1, m2, m3, m4, m5, or_false] at key
  exact key

theorem go_tag_badfmt (c : mp_cur) (h1 : 1 ≤ c.left)
    (h : c.at 0 ∈ [0xc1, 0xc7, 0xc8, 0xc9, 0xd4, 0xd5, 0xd6, 0xd7, 0xd8, 0xd9]) :
    mp_decode_to_lua_type c = .unwound { c with err := MP_CUR_ERROR_BADFMT } := by
  rw [mp_decode_to_lua_type, mp_decode_to_lua_type.go, need_ok _ _ _ h1]
  simp only [List.mem_cons, List.mem_singleton, List.not_mem_nil, or_false] at h
  rcases h with h | h | h | h | h | h | h | h | h | h <;> simp +decide [h]

/-- C14: on a cursor with at least one byte left, one call of
`mp_decode_to_lua_type` returns the cursor as it was, with
`MP_CUR_ERROR_BADFMT` latched and no byte consumed, if and only if the leading
byte is one of `c1`, `c7`, `c8`, `c9`, `d4`, ..., `d9`. -/
theorem bad_tag (c : mp_cur) (h1 : 1 ≤ c.left) (hb : c.at 0 < 256) :
    mp_decode_to_lua_type c = .unwound { c with err := MP_CUR_ERROR_BADFMT } ↔
      c.at 0 ∈ [0xc1, 0xc7, 0xc8, 0xc9, 0xd4, 0xd5, 0xd6, 0xd7, 0xd8, 0xd9] :=
  ⟨go_badfmt_tag c hb, go_tag_badfmt c h1⟩

/-- The single byte `c1`: the call latches `MP_CUR_ERROR_BADFMT` and consumes
nothing, and `mp_unpack` reports "Bad data format in input.". -/
theorem bad_tag_witness :
    mp_decode_to_lua_type (mp_cur_new [0xc1] 1)
        = .unwound { p := [0xc1], left := 1, err := MP_CUR_ERROR_BADFMT } ∧
      mp_unpack [0xc1] = .error "Bad data format in input." :=
  ⟨(bad_tag (mp_cur_new [0xc1] 1) (by decide) (by decide)).mpr (by decide), rfl⟩

/-! ## Trailing data and the messages of `_mp_unpack` -/

/-- C15 as stated fails: on the three bytes `81 c0 c0`, a map whose only key is
`nil`, the root decode latches no error and leaves nothing to read, yet
`_mp_unpack` does not succeed: `lua_settable` raises the Lua error "table
index is nil", which leaves `_mp_unpack` before its tests of the cursor. -/
theorem nil_key_raises :
    mp_decode_to_lua_type (mp_cur_new [0x81, 0xc0, 0xc0] 3)
        = .raised { p := [], left := 0, err := MP_CUR_ERROR_NONE } "table index is nil" ∧
      _mp_unpack [0x81, 0xc0, 0xc0] 3 = .error "table index is nil" := by
  constructor <;> rfl

/-- C15, as amended: for every input, `_mp_unpack` returns a value exactly when
the root decode ran to its end, no Lua error having been raised on the way,
with no error latched and nothing left to read, and the value is the decoded
one.  A root decode that ran to its end never has an error latched, and when
bytes are left `_mp_unpack` raises "Extra bytes in input.", as on the two
bytes `c0 c0`.  A root decode that returned early has `MP_CUR_ERROR_EOF` or
`MP_CUR_ERROR_BADFMT` latched, and `_mp_unpack` raises the message of that
error whatever is left to read, as on `c1 c0` (bad tag with two bytes left)
and on `92 c0` (an array cut short).  A Lua error raised by `lua_settable`
during the root decode is the error of `_mp_unpack`. -/
theorem trailing_data (data : List Nat) (len : Nat) :
    (∀ v, _mp_unpack data len = .value v ↔
      ∃ c, mp_decode_to_lua_type (mp_cur_new data len) = .pushed c v ∧
        c.err = MP_CUR_ERROR_NONE ∧ c.left = 0) ∧
    (∀ c v, mp_decode_to_lua_type (mp_cur_new data len) = .pushed c v →
      (c.err = MP_CUR_ERROR_NONE ∧
        (c.left ≠ 0 → _mp_unpack data len = .error "Extra bytes in input."))) ∧
    (∀ c, mp_decode_to_lua_type (mp_cur_new data len) = .unwound c →
      (c.err = MP_CUR_ERROR_EOF ∧ _mp_unpack data len = .error "Missing bytes in input.") ∨
      (c.err = MP_CUR_ERROR_BADFMT ∧ _mp_unpack data len = .error "Bad data format in input.")) ∧
    _mp_unpack [0xc0, 0xc0] 2 = .error "Extra bytes in input." ∧
    _mp_unpack [0xc1, 0xc0] 2 = .error "Bad data format in input." ∧
    _mp_unpack [0x92, 0xc0] 2 = .error "Missing bytes in input." ∧
    (∀ c msg, mp_decode_to_lua_type (mp_cur_new data len) = .raised c msg →
      _mp_unpack data len = .error msg) := by
  refine ⟨fun v => ⟨fun h => ?_, fun h => ?_⟩, fun c v h => ?_, fun c h => ?_, rfl, rfl, rfl,
    fun c msg h => by unfold _mp_unpack; simp only [h]⟩
  · cases hd : mp_decode_to_lua_type (mp_cur_new data len) with
    | pushed c v1 =>
      have he := pushed_err data len c v1 hd
      unfold _mp_unpack at h
      simp only [hd, he, MP_CUR_ERROR_NONE, MP_CUR_ERROR_EOF, MP_CUR_ERROR_BADFMT] at h
      by_cases hl : c.left = 0
      · simp [hl] at h
        exact ⟨c, by rw [h], he, hl⟩
      · simp [hl] at h
    | unwound c =>
      unfold _mp_unpack at h
      rcases unwound_err data len c hd with he | he
      · simp [hd, he] at h
      · simp [hd, he, MP_CUR_ERROR_EOF, MP_CUR_ERROR_BADFMT] at h
    | raised c msg =>
      unfold _mp_unpack at h
      simp [hd] at h
    | exhausted =>
      unfold _mp_unpack at h
      simp [hd] at h
  · obtain ⟨c, hd, he, hl⟩ := h
    exact mp_unpack_value data len c v hd he hl
  · have he := pushed_err data len c v h
    refine ⟨he, fun hl => ?_⟩
    unfold _mp_unpack
    simp [h, he, hl, MP_CUR_ERROR_NONE, MP_CUR_ERROR_EOF, MP_CUR_ERROR_BADFMT]
  · rcases unwound_err data len c h with he | he
    · exact Or.inl ⟨he, mp_unpack_eof data len c h he⟩
    · refine Or.inr ⟨he, ?_⟩
      unfold _mp_unpack
      simp [h, he, MP_CUR_ERROR_EOF, MP_CUR_ERROR_BADFMT]

/-- C16 as stated fails: on the truncated input `ce` the message is "Missing
bytes in input.", on the unassigned tag `c1` it is "Bad data format in input.",
on the two bytes `c0 c0` it is "Extra bytes in input."; none of them is the
lower-case message without the final period. -/
theorem unpack_messages_differ :
    _mp_unpack [0xce] 1 = .error "Missing bytes in input." ∧
      _mp_unpack [0xce] 1 ≠ .error "missing bytes in input" ∧
      _mp_unpack [0xc1] 1 = .error "Bad data format in input." ∧
      _mp_unpack [0xc1] 1 ≠ .error "bad data format in input" ∧
      _mp_unpack [0xc0, 0xc0] 2 = .error "Extra bytes in input." ∧
      _mp_unpack [0xc0, 0xc0] 2 ≠ .error "extra bytes in input" := by
  refine ⟨rfl, ?_, rfl, ?_, rfl, ?_⟩
  · intro h
    have e : _mp_unpack [0xce] 1 = .error "Missing bytes in input." := rfl
    rw [e] at h
    exact absurd (Unpacked.error.inj h) (by decide)
  · intro h
    have e : _mp_unpack [0xc1] 1 = .error "Bad data format in input." := rfl
    rw [e] at h
    exact absurd (Unpacked.error.inj h) (by decide)
  · intro h
    have e : _mp_unpack [0xc0, 0xc0] 2 = .error "Extra bytes in input." := rfl
    rw [e] at h
    exact absurd (Unpacked.error.inj h) (by decide)

/-- C16, amended: whenever the root decode returns, `_mp_unpack` raises exactly
"Missing bytes in input." if `MP_CUR_ERROR_EOF` is latched, exactly "Bad data
format in input." if `MP_CUR_ERROR_BADFMT` is latched, and exactly "Extra bytes
in input." if no error is latched and bytes are left. -/
theorem unpack_messages (data : List Nat) (len : Nat) (c : mp_cur)
    (h : mp_decode_to_lua_type (mp_cur_new data len) = .unwound c ∨
      ∃ v, mp_decode_to_lua_type (mp_cur_new data len) = .pushed c v) :
    (c.err = MP_CUR_ERROR_EOF → _mp_unpack data len = .error "Missing bytes in input.") ∧
    (c.err = MP_CUR_ERROR_BADFMT → _mp_unpack data len = .error "Bad data format in input.") ∧
    (c.err = MP_CUR_ERROR_NONE → c.left ≠ 0 →
      _mp_unpack data len = .error "Extra bytes in input.") := by
  have key : ∀ r : Step, mp_decode_to_lua_type (mp_cur_new data len) = r →
      (r = .unwound c ∨ ∃ v, r = .pushed c v) →
      (c.err = MP_CUR_ERROR_EOF → _mp_unpack data len = .error "Missing bytes in input.") ∧
      (c.err = MP_CUR_ERROR_BADFMT → _mp_unpack data len = .error "Bad data format in input.") ∧
      (c.err = MP_CUR_ERROR_NONE → c.left ≠ 0 →
        _mp_unpack data len = .error "Extra bytes in input.") := by
    intro r hr hc
    unfold _mp_unpack
    rcases hc with rfl | ⟨v, rfl⟩
    · refine ⟨fun he => ?_, fun he => ?_, fun he hl => ?_⟩
      · simp [hr, he]
      · simp [hr, he, MP_CUR_ERROR_EOF, MP_CUR_ERROR_BADFMT]
      · simp [hr, he, hl, MP_CUR_ERROR_NONE, MP_CUR_ERROR_EOF, MP_CUR_ERROR_BADFMT]
    · refine ⟨fun he => ?_, fun he => ?_, fun he hl => ?_⟩
      · simp [hr, he]
      · simp [hr, he, MP_CUR_ERROR_EOF, MP_CUR_ERROR_BADFMT]
      · simp [hr, he, hl, MP_CUR_ERROR_NONE, MP_CUR_ERROR_EOF, MP_CUR_ERROR_BADFMT]
  rcases h with h | ⟨v, h⟩
  · exact key _ h (Or.inl rfl)
  · exact key _ h (Or.inr ⟨v, rfl⟩)

/-- The three messages on the inputs `ce`, `c1` and `c0 c0`. -/
theorem unpack_messages_witness :
    _mp_unpack [0xce] 1 = .error "Missing bytes in input." ∧
      _mp_unpack [0xc1] 1 = .error "Bad data format in input." ∧
      _mp_unpack [0xc0, 0xc0] 2 = .error "Extra bytes in input." :=
  ⟨(unpack_messages [0xce] 1 { p := [0xce], left := 1, err := MP_CUR_ERROR_EOF }
      (Or.inl rfl)).1 rfl,
   (unpack_messages [0xc1] 1 { p := [0xc1], left := 1, err := MP_CUR_ERROR_BADFMT }
      (Or.inl rfl)).2.1 rfl,
   (unpack_messages [0xc0, 0xc0] 2 { p := [0xc0], left := 1, err := MP_CUR_ERROR_NONE }
      (Or.inr ⟨.nil, rfl⟩)).2.2 rfl (by decide)⟩

/-! ## Blob tables -/

/-- A value of type `LUA_TLIGHTUSERDATA` cannot be indexed. -/
theorem lua_gettable_at_lightuserdata (x : LuaValue) (j : Int)
    (h : lua_type x = .LUA_TLIGHTUSERDATA) :
    lua_gettable_at x j = .error "attempt to index a userdata value" := by
  cases x with
  | lightuserdata pod => rfl
  | _ => simp [lua_type] at h

/-- Every table that takes the blob branch of `mp_encode_lua_table` makes
`mp_encode_lua_table_as_lightuserdata` raise a Lua error: no blob is written. -/
theorem blob_branch_raises (es : List (LuaValue × LuaValue))
    (encs : List (LuaValue × Emit × Emit)) (buf : mp_buf) (h : isBlobTable es = true) :
    mp_encode_lua_table es encs buf = .error "attempt to index a userdata value" := by
  simp only [isBlobTable, Bool.and_eq_true, decide_eq_true_eq] at h
  unfold mp_encode_lua_table
  rw [if_pos h.1, if_pos h.2]
  unfold mp_encode_lua_table_as_lightuserdata
  simp only [lua_gettable_at_lightuserdata _ 2 h.2.1]

/-- C17, the code at a failing input: the table with exactly the two entries
`1 ↦ pointer` and `2 ↦ 3`, the three bytes `07 08 09` lying behind the
pointer, takes the blob branch of `mp_encode_lua_table`; there
`mp_encode_lua_table_as_lightuserdata` indexes the pointer it left on the
stack and not the table, which raises the Lua error "attempt to index a
userdata value": `_mp_pack` returns no string, where the claim asks for the
blob `c4 03 07 08 09` that `mp_encode_binary` writes for the pointer and the
length 3.  The same holds with a third entry. -/
theorem blob_table_raises :
    isBlobTable [(.number 1, .lightuserdata [7, 8, 9]), (.number 2, .number 3)] = true ∧
      _mp_pack (.table [(.number 1, .lightuserdata [7, 8, 9]), (.number 2, .number 3)])
        = .error "attempt to index a userdata value" ∧
      (mp_encode_binary mp_buf_new [7, 8, 9] 3).contents = [0xc4, 0x03, 7, 8, 9] ∧
      _mp_pack (.table [(.number 1, .lightuserdata [7, 8, 9]), (.number 2, .number 3),
        (.number 3, .string [0x78])]) = .error "attempt to index a userdata value" := by
  refine ⟨by decide, rfl, by decide, rfl⟩

/-! ## Lengths of 32 bits in the decoder -/

/-- C19, the code at a failing input: on the five bytes `db ff ff ff fb` the
length `l` is `2^64 - 5`, the sum `5 + l` passed to `mp_cur_need` is 0, the
check passes and `lua_pushlstring` is called on `c->p + 5` with that length,
which lies past the end of the input; the call runs to its end with no error
latched (the model pushes the bytes present there: none). -/
theorem raw32_read_out_of_bounds :
    len32 (mp_cur_new [0xdb, 0xff, 0xff, 0xff, 0xfb] 5) = 18446744073709551611 ∧
      add_size_t 5 (len32 (mp_cur_new [0xdb, 0xff, 0xff, 0xff, 0xfb] 5)) = 0 ∧
      mp_decode_to_lua_type (mp_cur_new [0xdb, 0xff, 0xff, 0xff, 0xfb] 5)
        = .pushed { p := [0xdb, 0xff, 0xff, 0xff, 0xfb], left := 5, err := MP_CUR_ERROR_NONE }
            (.string []) := by
  refine ⟨by decide, by decide, by rfl⟩

theorem len32_high (t b1 b2 b3 b4 left err : Nat) (rest : List Nat) (h0 : 0x80 ≤ b1)
    (h1 : b1 < 256) (h2 : b2 < 256) (h3 : b3 < 256) (h4 : b4 < 256) :
    len32 { p := t :: b1 :: b2 :: b3 :: b4 :: rest, left := left, err := err }
      = 2 ^ 64 - 2 ^ 32 + (b1 * 2 ^ 24 + b2 * 2 ^ 16 + b3 * 2 ^ 8 + b4) := by
  rw [len32_cons t b1 b2 b3 b4 left err rest h1 h2 h3 h4]
  unfold size_t bits signed
  split_ifs <;> omega

/-- C20, the code at failing inputs: the encoders write the count `2^31` as
`80 00 00 00` after the tags `db`, `dd` and `df`; the length the decoder
computes from these four bytes is `2^64 - 2^31`, and from `ff ff ff ff` it is
`2^64 - 1`.  On the five bytes `c6 ff ff ff fb` (bin 32 with length
`4294967291`) the decoder does not miss the payload: it takes the length
`2^64 - 5`, lets `5 + l = 0` pass and `mp_unpack` reports "Extra bytes in
input." where an unsigned length gives "Missing bytes in input.". -/
theorem len32_sign_extended :
    mp_encode_bytes_hdr 2147483648 = [0xdb, 0x80, 0x00, 0x00, 0x00] ∧
      mp_encode_array_b 2147483648 = [0xdd, 0x80, 0x00, 0x00, 0x00] ∧
      mp_encode_map_b 2147483648 = [0xdf, 0x80, 0x00, 0x00, 0x00] ∧
      len32 (mp_cur_new [0xdb, 0x80, 0x00, 0x00, 0x00] 5) = 18446744071562067968 ∧
      len32 (mp_cur_new [0xdd, 0xff, 0xff, 0xff, 0xff] 5) = 18446744073709551615 ∧
      mp_decode_to_lua_type (mp_cur_new [0xc6, 0xff, 0xff, 0xff, 0xfb] 5)
        = .pushed { p := [0xc6, 0xff, 0xff, 0xff, 0xfb], left := 5, err := MP_CUR_ERROR_NONE }
            (.userdata 18446744073709551611 []) ∧
      mp_unpack [0xc6, 0xff, 0xff, 0xff, 0xfb] = .error "Extra bytes in input." := by
  refine ⟨rfl, rfl, rfl, by decide, by decide, rfl, rfl⟩

/-! ## The string buffer over a sequence of appends -/

theorem append_grow (buf : mp_buf) (s : List Nat) (n : Nat) (hf : buf.free < n) :
    mp_buf_append buf s n =
      { b := memcpy (realloc buf.b ((buf.len + n) * 2)) buf.len s n, len := buf.len + n,
        free := buf.len + n - n } := by
  simp [mp_buf_append, hf]

theorem append_keep (buf : mp_buf) (s : List Nat) (n : Nat) (hf : ¬ buf.free < n) :
    mp_buf_append buf s n =
      { b := memcpy buf.b buf.len s n, len := buf.len + n, free := buf.free - n } := by
  simp [mp_buf_append, hf]

theorem append_sound (buf : mp_buf) (s : List Nat) (h : buf.sound) :
    (mp_buf_append buf s s.length).sound := by
  unfold mp_buf.sound at h ⊢
  by_cases hf : buf.free < s.length
  · rw [append_grow buf s _ hf]
    simp only
    rw [memcpy_length _ _ _ _ (by rw [realloc_length]; omega) (le_refl _), realloc_length]
    omega
  · rw [append_keep buf s _ hf]
    simp only
    rw [memcpy_length _ _ _ _ (by omega) (le_refl _)]
    omega

theorem appendAll_snoc (ss : List (List Nat)) (s : List Nat) :
    appendAll (ss ++ [s]) = mp_buf_append (appendAll ss) s s.length := by
  simp [appendAll, List.foldl_append]

theorem appendAll_sound (ss : List (List Nat)) : (appendAll ss).sound := by
  induction ss using List.reverseRecOn with
  | nil => simp [appendAll, mp_buf.sound, mp_buf_new]
  | append_singleton ss s ih => rw [appendAll_snoc]; exact append_sound _ s ih

theorem appendAll_contents (ss : List (List Nat)) :
    (appendAll ss).inBlock ∧ (appendAll ss).contents = ss.flatten := by
  induction ss using List.reverseRecOn with
  | nil => exact ⟨mp_buf_new_inBlock, by simp [appendAll, mp_buf_new_contents]⟩
  | append_singleton ss s ih =>
    rw [appendAll_snoc]
    have h := mp_buf_append_spec (appendAll ss) s s.length ih.1 (le_refl _)
    refine ⟨h.1, ?_⟩
    rw [h.2, ih.2, List.take_length]
    simp

theorem append_len (buf : mp_buf) (s : List Nat) (n : Nat) :
    (mp_buf_append buf s n).len = buf.len + n := by
  by_cases hf : buf.free < n
  · rw [append_grow buf s n hf]
  · rw [append_keep buf s n hf]

/-- After an append that reallocates, `len + free` falls short of the capacity
by the number of bytes appended. -/
theorem append_grow_slack (buf : mp_buf) (s : List Nat) (hf : buf.free < s.length) :
    (mp_buf_append buf s s.length).len + (mp_buf_append buf s s.length).free + s.length
      = (mp_buf_append buf s s.length).capacity := by
  rw [append_grow buf s _ hf]
  simp only [mp_buf.capacity]
  rw [memcpy_length _ _ _ _ (by rw [realloc_length]; omega) (le_refl _), realloc_length]
  omega

/-- C24, the code at a failing input: after `mp_buf_new` and one append of the
single byte 7 the buffer has `len = 1`, `free = 0` and a block of 2 bytes, so
`len + free` is 1 and not the capacity 2. -/
theorem buf_invariant_fails :
    (appendAll [[7]]).len = 1 ∧ (appendAll [[7]]).free = 0 ∧ (appendAll [[7]]).capacity = 2 ∧
      (appendAll [[7]]).len + (appendAll [[7]]).free ≠ (appendAll [[7]]).capacity := by
  decide

/-- C25: in every buffer reached from `mp_buf_new` by appends, an append of the
`n` bytes of `s` keeps the block (and copies into it) when `free < n` does not
hold; when `free < n` it reallocates, the new capacity being `2 * (len + n)`
with `len` the length before the append; in both cases the capacity after the
append is at least the capacity before it. -/
theorem buffer_growth (ss : List (List Nat)) (s : List Nat) :
    (¬ (appendAll ss).free < s.length →
      (mp_buf_append (appendAll ss) s s.length).b
          = memcpy (appendAll ss).b (appendAll ss).len s s.length ∧
        (mp_buf_append (appendAll ss) s s.length).capacity = (appendAll ss).capacity) ∧
    ((appendAll ss).free < s.length →
      (mp_buf_append (appendAll ss) s s.length).b
          = memcpy (realloc (appendAll ss).b (((appendAll ss).len + s.length) * 2))
              (appendAll ss).len s s.length ∧
        (mp_buf_append (appendAll ss) s s.length).capacity
          = 2 * ((appendAll ss).len + s.length)) ∧
    (appendAll ss).capacity ≤ (mp_buf_append (appendAll ss) s s.length).capacity := by
  have h := appendAll_sound ss
  unfold mp_buf.sound at h
  have keep : ¬ (appendAll ss).free < s.length →
      (mp_buf_append (appendAll ss) s s.length).b
          = memcpy (appendAll ss).b (appendAll ss).len s s.length ∧
        (mp_buf_append (appendAll ss) s s.length).capacity = (appendAll ss).capacity := by
    intro hf
    rw [append_keep _ s _ hf]
    refine ⟨rfl, ?_⟩
    simp only [mp_buf.capacity]
    rw [memcpy_length _ _ _ _ (by omega) (le_refl _)]
  have grow : (appendAll ss).free < s.length →
      (mp_buf_append (appendAll ss) s s.length).b
          = memcpy (realloc (appendAll ss).b (((appendAll ss).len + s.length) * 2))
              (appendAll ss).len s s.length ∧
        (mp_buf_append (appendAll ss) s s.length).capacity
          = 2 * ((appendAll ss).len + s.length) := by
    intro hf
    rw [append_grow _ s _ hf]
    refine ⟨rfl, ?_⟩
    simp only [mp_buf.capacity]
    rw [memcpy_length _ _ _ _ (by rw [realloc_length]; omega) (le_refl _), realloc_length]
    omega
  refine ⟨keep, grow, ?_⟩
  by_cases hf : (appendAll ss).free < s.length
  · rw [(grow hf).2]
    simp only [mp_buf.capacity]
    omega
  · rw [(keep hf).2]

/-- C26: in every buffer reached from `mp_buf_new` by appends, after the append
of the `n` bytes of `s` the length is the old length plus `n`, the bytes below
the old length are unchanged and the `n` bytes from the old length on are `s`;
the content of the buffer is the concatenation of the appended sequences in
the order of the calls. -/
theorem append_postcondition (ss : List (List Nat)) (s : List Nat) :
    (mp_buf_append (appendAll ss) s s.length).len = (appendAll ss).len + s.length ∧
    (mp_buf_append (appendAll ss) s s.length).b.take (appendAll ss).len
      = (appendAll ss).b.take (appendAll ss).len ∧
    ((mp_buf_append (appendAll ss) s s.length).b.drop (appendAll ss).len).take s.length = s ∧
    (appendAll ss).contents = ss.flatten ∧
    (appendAll (ss ++ [s])).contents = ss.flatten ++ s := by
  have h := appendAll_contents ss
  have h2 := mp_buf_append_spec (appendAll ss) s s.length h.1 (le_refl _)
  rw [List.take_length] at h2
  have hl := append_len (appendAll ss) s s.length
  have hc : (mp_buf_append (appendAll ss) s s.length).b.take ((appendAll ss).len + s.length)
      = (appendAll ss).b.take (appendAll ss).len ++ s := by
    have := h2.2
    simp only [mp_buf.contents, hl] at this
    exact this
  have hlen : ((appendAll ss).b.take (appendAll ss).len).length = (appendAll ss).len := by
    have := contents_length _ h.1
    simpa [mp_buf.contents] using this
  refine ⟨hl, ?_, ?_, h.2, ?_⟩
  · have e := congrArg (List.take (appendAll ss).len) hc
    rw [List.take_take, Nat.min_eq_left (Nat.le_add_right _ _),
      List.take_append_of_le_length (by omega)] at e
    rw [e, List.take_take, Nat.min_self]
  · have e := congrArg (List.drop (appendAll ss).len) hc
    rw [List.drop_take, Nat.add_sub_cancel_left, List.drop_left' hlen] at e
    exact e
  · rw [appendAll_snoc, h2.2, h.2]

theorem need_congr (c : mp_cur) (n : Nat) (k1 k2 : Step) (h : ¬ c.left < n → k1 = k2) :
    mp_cur_need c n k1 = mp_cur_need c n k2 := by
  unfold mp_cur_need
  by_cases hn : c.left < n
  · rw [if_pos hn, if_pos hn]
  · rw [if_neg hn, if_neg hn]; exact h hn

theorem array_loop_congr (dec dec2 : mp_cur → Step) (n : Nat) :
    ∀ (c : mp_cur) (index : Int) (t : List (LuaValue × LuaValue)),
      (∀ c1 : mp_cur, c1.left ≤ c.left → dec c1 = dec2 c1) →
      (∀ c1 : mp_cur, c1.left ≤ c.left → (dec c1).within c1) →
      mp_decode_to_lua_array.loop dec n c index t = mp_decode_to_lua_array.loop dec2 n c index t := by
  induction n with
  | zero => intro c index t _ _; rfl
  | succ n ih =>
    intro c index t he hw
    have h0 := hw c (le_refl _)
    rw [mp_decode_to_lua_array.loop, mp_decode_to_lua_array.loop, ← he c (le_refl _)]
    cases hd : dec c with
    | pushed c1 v =>
      rw [hd] at h0
      simp only
      by_cases hc : c1.err ≠ 0
      · rw [if_pos hc, if_pos hc]
      · rw [if_neg hc, if_neg hc]
        exact ih c1 _ _ (fun c2 h2 => he c2 (le_trans h2 h0.1)) (fun c2 h2 => hw c2 (le_trans h2 h0.1))
    | unwound c1 => rfl
    | raised c1 msg => rfl
    | exhausted => rfl

theorem hash_loop_congr (dec dec2 : mp_cur → Step) (n : Nat) :
    ∀ (c : mp_cur) (t : List (LuaValue × LuaValue)),
      (∀ c1 : mp_cur, c1.left ≤ c.left → dec c1 = dec2 c1) →
      (∀ c1 : mp_cur, c1.left ≤ c.left → (dec c1).within c1) →
      mp_decode_to_lua_hash.loop dec n c t = mp_decode_to_lua_hash.loop dec2 n c t := by
  induction n with
  | zero => intro c t _ _; rfl
  | succ n ih =>
    intro c t he hw
    have h0 := hw c (le_refl _)
    rw [mp_decode_to_lua_hash.loop, mp_decode_to_lua_hash.loop, ← he c (le_refl _)]
    cases hd : dec c with
    | pushed c1 k =>
      rw [hd] at h0
      simp only
      by_cases hc : c1.err ≠ 0
      · rw [if_pos hc, if_pos hc]
      · rw [if_neg hc, if_neg hc, ← he c1 h0.1]
        have h1 := hw c1 h0.1
        cases hd1 : dec c1 with
        | pushed c2 v =>
          rw [hd1] at h1
          simp only
          by_cases hc2 : c2.err ≠ 0
          · rw [if_pos hc2, if_pos hc2]
          · rw [if_neg hc2, if_neg hc2]
            cases hs : lua_settable t k v with
            | ok t2 =>
              simp only
              exact ih c2 _ (fun c3 h3 => he c3 (le_trans h3 (le_trans h1.1 h0.1)))
                (fun c3 h3 => hw c3 (le_trans h3 (le_trans h1.1 h0.1)))
            | error msg => rfl
        | unwound c2 => rfl
        | raised c2 msg => rfl
        | exhausted => rfl
    | unwound c1 => rfl
    | raised c1 msg => rfl
    | exhausted => rfl

theorem go_fuel (fuel : Nat) : ∀ (fuel2 : Nat) (c : mp_cur), c.left < fuel → c.left < fuel2 →
    mp_decode_to_lua_type.go fuel c = mp_decode_to_lua_type.go fuel2 c := by
  induction fuel with
  | zero => intro fuel2 c h; omega
  | succ f ih =>
    intro fuel2 c hc hc2
    obtain ⟨f2, rfl⟩ := Nat.exists_eq_succ_of_ne_zero (Nat.pos_iff_ne_zero.mp (by omega : 0 < fuel2))
    have ha : ∀ (k l : Nat), 1 ≤ k → ¬ c.left < k →
        mp_decode_to_lua_array (mp_decode_to_lua_type.go f) (mp_cur_consume c k) l
          = mp_decode_to_lua_array (mp_decode_to_lua_type.go f2) (mp_cur_consume c k) l := by
      intro k l hk1 hk2
      have hl := consume_left_le c k (by omega)
      exact array_loop_congr _ _ l _ _ _ (fun c1 h1 => ih f2 c1 (by omega) (by omega))
        (fun c1 h1 => go_within f c1 (by omega))
    have hh : ∀ (k l : Nat), 1 ≤ k → ¬ c.left < k →
        mp_decode_to_lua_hash (mp_decode_to_lua_type.go f) (mp_cur_consume c k) l
          = mp_decode_to_lua_hash (mp_decode_to_lua_type.go f2) (mp_cur_consume c k) l := by
      intro k l hk1 hk2
      have hl := consume_left_le c k (by omega)
      exact hash_loop_congr _ _ l _ _ (fun c1 h1 => ih f2 c1 (by omega) (by omega))
        (fun c1 h1 => go_within f c1 (by omega))
    rw [mp_decode_to_lua_type.go, mp_decode_to_lua_type.go]
    refine need_congr c 1 _ _ (fun h1 => ?_)
    dsimp only
    by_cases tcc : c.at 0 = 0xcc
    · simp only [if_pos tcc]
    simp only [if_neg tcc]
    by_cases td0 : c.at 0 = 0xd0
    · simp only [if_pos td0]
    simp only [if_neg td0]
    by_cases tcd : c.at 0 = 0xcd
    · simp only [if_pos tcd]
    simp only [if_neg tcd]
    by_cases td1 : c.at 0 = 0xd1
    · simp only [if_pos td1]
    simp only [if_neg td1]
    by_cases tce : c.at 0 = 0xce
    · simp only [if_pos tce]
    simp only [if_neg tce]
    by_cases td2 : c.at 0 = 0xd2
    · simp only [if_pos td2]
    simp only [if_neg td2]
    by_cases tcf : c.at 0 = 0xcf
    · simp only [if_pos tcf]
    simp only [if_neg tcf]
    by_cases td3 : c.at 0 = 0xd3
    · simp only [if_pos td3]
    simp only [if_neg td3]
    by_cases tc0 : c.at 0 = 0xc0
    · simp only [if_pos tc0]
    simp only [if_neg tc0]
    by_cases tc3 : c.at 0 = 0xc3
    · simp only [if_pos tc3]
    simp only [if_neg tc3]
    by_cases tc2 : c.at 0 = 0xc2
    · simp only [if_pos tc2]
    simp only [if_neg tc2]
    by_cases tca : c.at 0 = 0xca
    · simp only [if_pos tca]
    simp only [if_neg tca]
    by_cases tcb : c.at 0 = 0xcb
    · simp only [if_pos tcb]
    simp only [if_neg tcb]
    by_cases tda : c.at 0 = 0xda
    · simp only [if_pos tda]
    simp only [if_neg tda]
    by_cases tdb : c.at 0 = 0xdb
    · simp only [if_pos tdb]
    simp only [if_neg tdb]
    by_cases tdc : c.at 0 = 0xdc
    · simp only [if_pos tdc]
      exact need_congr c _ _ _ (fun h => ha _ _ (by omega) h)
    simp only [if_neg tdc]
    by_cases tdd : c.at 0 = 0xdd
    · simp only [if_pos tdd]
      exact need_congr c _ _ _ (fun h => ha _ _ (by omega) h)
    simp only [if_neg tdd]
    by_cases tde : c.at 0 = 0xde
    · simp only [if_pos tde]
      exact need_congr c _ _ _ (fun h => hh _ _ (by omega) h)
    simp only [if_neg tde]
    by_cases tdf : c.at 0 = 0xdf
    · simp only [if_pos tdf]
      exact need_congr c _ _ _ (fun h => hh _ _ (by omega) h)
    simp only [if_neg tdf]
    by_cases tc4 : c.at 0 = 0xc4
    · simp only [if_pos tc4]
    simp only [if_neg tc4]
    by_cases tc5 : c.at 0 = 0xc5
    · simp only [if_pos tc5]
    simp only [if_neg tc5]
    by_cases tc6 : c.at 0 = 0xc6
    · simp only [if_pos tc6]
    simp only [if_neg tc6]
    by_cases m1 : c.at 0 &&& 0x80 = 0
    · simp only [if_pos m1]
    simp only [if_neg m1]
    by_cases m2 : c.at 0 &&& 0xe0 = 0xe0
    · simp only [if_pos m2]
    simp only [if_neg m2]
    by_cases m3 : c.at 0 &&& 0xe0 = 0xa0
    · simp only [if_pos m3]
    simp only [if_neg m3]
    by_cases m4 : c.at 0 &&& 0xf0 = 0x90
    · simp only [if_pos m4]
      exact ha _ _ (le_refl _) h1
    simp only [if_neg m4]
    by_cases m5 : c.at 0 &&& 0xf0 = 0x80
    · simp only [if_pos m5]
      exact hh _ _ (le_refl _) h1
    simp only [if_neg m5]

theorem consume_eq (c : mp_cur) (k : Nat) (h1 : k ≤ c.left) (h2 : c.left < 2 ^ 64) :
    mp_cur_consume c k = { p := c.p.drop k, left := c.left - k, err := c.err } := by
  unfold mp_cur_consume
  rw [bits_64_sub c.left k h1 h2]

theorem decode_array_eq (c : mp_cur) (k l : Nat) (h1 : 1 ≤ k) (h2 : ¬ c.left < k) :
    mp_decode_to_lua_array (mp_decode_to_lua_type.go c.left) (mp_cur_consume c k) l
      = mp_decode_to_lua_array mp_decode_to_lua_type (mp_cur_consume c k) l := by
  have hl := consume_left_le c k (by omega)
  exact array_loop_congr _ _ l _ _ _
    (fun c1 h => go_fuel _ _ c1 (by omega) (Nat.lt_succ_self _))
    (fun c1 h => go_within _ c1 (by omega))

theorem decode_hash_eq (c : mp_cur) (k l : Nat) (h1 : 1 ≤ k) (h2 : ¬ c.left < k) :
    mp_decode_to_lua_hash (mp_decode_to_lua_type.go c.left) (mp_cur_consume c k) l
      = mp_decode_to_lua_hash mp_decode_to_lua_type (mp_cur_consume c k) l := by
  have hl := consume_left_le c k (by omega)
  exact hash_loop_congr _ _ l _ _
    (fun c1 h => go_fuel _ _ c1 (by omega) (Nat.lt_succ_self _))
    (fun c1 h => go_within _ c1 (by omega))

set_option maxRecDepth 100000 in
theorem fix_low_bits : ∀ b < 256, b &&& 0x1f < 32 ∧ b &&& 0xf < 16 := by decide

set_option maxRecDepth 100000 in
theorem signed_8_high : ∀ b < 256, 0xe0 ≤ b → signed 8 b = (b : Int) - 256 := by decide

/-- C27: on every cursor the recursion of `mp_decode_to_lua_type` through
`mp_decode_to_lua_array` and `mp_decode_to_lua_hash` ends: every allowance
above the remaining count gives the same outcome as the allowance
`left + 1` of `mp_decode_to_lua_type`, and this outcome is not the exhaustion
of the allowance (every level of nesting consumes a header byte first, and
each loop runs at most its count of rounds).  Whatever the outcome, the
remaining count of the cursor it returns is at most the one it started with:
the bytes consumed are at most the input length. -/
theorem decoder_terminates (c : mp_cur) (fuel : Nat) (hf : c.left < fuel) :
    mp_decode_to_lua_type.go fuel c = mp_decode_to_lua_type c ∧
    mp_decode_to_lua_type c ≠ .exhausted ∧
    (∀ c1 v, mp_decode_to_lua_type c = .pushed c1 v → c1.left ≤ c.left) ∧
    (∀ c1, mp_decode_to_lua_type c = .unwound c1 → c1.left ≤ c.left) ∧
    (∀ c1 msg, mp_decode_to_lua_type c = .raised c1 msg → c1.left ≤ c.left) := by
  have hw : (mp_decode_to_lua_type c).within c := go_within _ c (Nat.lt_succ_self _)
  refine ⟨go_fuel _ _ c hf (Nat.lt_succ_self _), ?_, ?_, ?_, ?_⟩
  · intro h; rw [h] at hw; exact hw
  · intro c1 v h; rw [h] at hw; exact hw.1
  · intro c1 h; rw [h] at hw; exact hw.1
  · intro c1 msg h; rw [h] at hw; exact hw.1

/-- Three nested containers in three bytes, decoded with the allowance 7. -/
theorem decoder_terminates_witness :
    mp_decode_to_lua_type.go 7 (mp_cur_new [0x91, 0x91, 0xc0] 3)
        = mp_decode_to_lua_type (mp_cur_new [0x91, 0x91, 0xc0] 3) ∧
      mp_decode_to_lua_type (mp_cur_new [0x91, 0x91, 0xc0] 3) ≠ .exhausted :=
  ⟨(decoder_terminates (mp_cur_new [0x91, 0x91, 0xc0] 3) 7 (by decide)).1,
    (decoder_terminates (mp_cur_new [0x91, 0x91, 0xc0] 3) 7 (by decide)).2.1⟩

/-! ## Fix-range dispatch -/

/-- C21: on a cursor with at least one byte left whose leading byte `b` lies in
a fix range, `mp_decode_to_lua_type` pushes the integer `b` and consumes one
byte when `b < 0x80`; pushes `b - 256` and consumes one byte when `0xe0 ≤ b`;
when `0xa0 ≤ b ≤ 0xbf` pushes the string made of the next `b & 0x1f` bytes and
consumes `1 + (b & 0x1f)` bytes (and latches `MP_CUR_ERROR_EOF`, consuming
nothing, when fewer bytes are left); when `0x90 ≤ b ≤ 0x9f` consumes the byte
and runs `mp_decode_to_lua_array` for `b & 0x0f` elements, each decoded by
`mp_decode_to_lua_type`; when `0x80 ≤ b ≤ 0x8f` consumes the byte and runs
`mp_decode_to_lua_hash` for `b & 0x0f` pairs. -/
theorem fix_range_dispatch (b left err : Nat) (rest : List Nat) (hb : b < 256) (hl : 1 ≤ left)
    (h64 : left < 2 ^ 64) :
    (b < 0x80 →
      mp_decode_to_lua_type { p := b :: rest, left := left, err := err }
        = .pushed { p := rest, left := left - 1, err := err } (.number (b : Int))) ∧
    (0xe0 ≤ b →
      mp_decode_to_lua_type { p := b :: rest, left := left, err := err }
        = .pushed { p := rest, left := left - 1, err := err } (.number ((b : Int) - 256))) ∧
    (0xa0 ≤ b → b ≤ 0xbf → 1 + (b &&& 0x1f) ≤ left →
      mp_decode_to_lua_type { p := b :: rest, left := left, err := err }
        = .pushed { p := rest.drop (b &&& 0x1f), left := left - (1 + (b &&& 0x1f)), err := err }
            (.string (rest.take (b &&& 0x1f)))) ∧
    (0xa0 ≤ b → b ≤ 0xbf → left < 1 + (b &&& 0x1f) →
      mp_decode_to_lua_type { p := b :: rest, left := left, err := err }
        = .unwound { p := b :: rest, left := left, err := MP_CUR_ERROR_EOF }) ∧
    (0x90 ≤ b → b ≤ 0x9f →
      mp_decode_to_lua_type { p := b :: rest, left := left, err := err }
        = mp_decode_to_lua_array mp_decode_to_lua_type
            { p := rest, left := left - 1, err := err } (b &&& 0xf)) ∧
    (0x80 ≤ b → b ≤ 0x8f →
      mp_decode_to_lua_type { p := b :: rest, left := left, err := err }
        = mp_decode_to_lua_hash mp_decode_to_lua_type
            { p := rest, left := left - 1, err := err } (b &&& 0xf)) := by
  have hc1 : mp_cur_consume { p := b :: rest, left := left, err := err } 1
      = { p := rest, left := left - 1, err := err } := by
    rw [consume_eq _ 1 (by simpa using hl) (by simpa using h64)]
    rfl
  have e80 := and_80 b hb
  have ee0 := and_e0 b hb
  have ea0 := and_e0_a0 b hb
  have e90 := and_f0_90 b hb
  have e8x := and_f0_80 b hb
  have hlow := fix_low_bits b hb
  refine ⟨fun h => ?_, fun h => ?_, fun h1 h2 h3 => ?_, fun h1 h2 h3 => ?_, fun h1 h2 => ?_,
    fun h1 h2 => ?_⟩
  · rw [mp_decode_to_lua_type, go_default _ _ _ _ _ (Nat.succ_pos _) hl (by omega),
      if_pos (by rw [e80]; omega), hc1]
  · rw [mp_decode_to_lua_type, go_default _ _ _ _ _ (Nat.succ_pos _) hl (by omega),
      if_neg (by rw [e80]; omega), if_pos (by rw [ee0]; omega), hc1, signed_8_high b hb h]
  · rw [mp_decode_to_lua_type, go_default _ _ _ _ _ (Nat.succ_pos _) hl (by omega),
      if_neg (by rw [e80]; omega), if_neg (by rw [ee0]; omega), if_pos (by rw [ea0]; omega)]
    have ha : add_size_t 1 (b &&& 0x1f) = 1 + (b &&& 0x1f) := by unfold add_size_t; omega
    rw [ha, need_ok _ _ _ (by simpa using h3),
      consume_eq _ _ (by simpa using h3) (by simpa using h64)]
    simp only [List.drop_succ_cons, Nat.add_comm 1]
  · rw [mp_decode_to_lua_type, go_default _ _ _ _ _ (Nat.succ_pos _) hl (by omega),
      if_neg (by rw [e80]; omega), if_neg (by rw [ee0]; omega), if_pos (by rw [ea0]; omega)]
    have ha : add_size_t 1 (b &&& 0x1f) = 1 + (b &&& 0x1f) := by unfold add_size_t; omega
    rw [ha]
    unfold mp_cur_need
    rw [if_pos (by simpa using h3)]
  · rw [mp_decode_to_lua_type, go_default _ _ _ _ _ (Nat.succ_pos _) hl (by omega),
      if_neg (by rw [e80]; omega), if_neg (by rw [ee0]; omega), if_neg (by rw [ea0]; omega),
      if_pos (by rw [e90]; omega)]
    have := decode_array_eq { p := b :: rest, left := left, err := err } 1 (b &&& 0xf)
      (le_refl _) (by simp only; omega)
    rw [Nat.succ_sub_one, this, hc1]
  · rw [mp_decode_to_lua_type, go_default _ _ _ _ _ (Nat.succ_pos _) hl (by omega),
      if_neg (by rw [e80]; omega), if_neg (by rw [ee0]; omega), if_neg (by rw [ea0]; omega),
      if_neg (by rw [e90]; omega), if_pos (by rw [e8x]; omega)]
    have := decode_hash_eq { p := b :: rest, left := left, err := err } 1 (b &&& 0xf)
      (le_refl _) (by simp only; omega)
    rw [Nat.succ_sub_one, this, hc1]

/-- The bytes `92 01 02`: a fix array of two elements; and the bytes `a1 78`. -/
theorem fix_range_dispatch_witness :
    mp_decode_to_lua_type { p := [0x92, 0x01, 0x02], left := 3, err := 0 }
        = mp_decode_to_lua_array mp_decode_to_lua_type { p := [0x01, 0x02], left := 2, err := 0 }
            (0x92 &&& 0xf) ∧
      mp_decode_to_lua_array mp_decode_to_lua_type { p := [0x01, 0x02], left := 2, err := 0 }
          (0x92 &&& 0xf)
        = .pushed { p := [], left := 0, err := 0 }
            (.table [(.number 1, .number 1), (.number 2, .number 2)]) ∧
      mp_decode_to_lua_type { p := [0xa1, 0x78], left := 2, err := 0 }
        = .pushed { p := [], left := 0, err := 0 } (.string [0x78]) :=
  ⟨(fix_range_dispatch 0x92 3 0 [0x01, 0x02] (by decide) (by decide) (by decide)).2.2.2.2.1
      (by decide) (by decide),
    rfl,
    (fix_range_dispatch 0xa1 2 0 [0x78] (by decide) (by decide) (by decide)).2.2.1
      (by decide) (by decide) (by decide)⟩

/-! ## Latched errors -/

theorem clear_err (c : mp_cur) (e : Nat) (h : c.err = 0) :
    { ({ c with err := e } : mp_cur) with err := MP_CUR_ERROR_NONE } = c := by
  cases c
  simp only [MP_CUR_ERROR_NONE] at *
  rw [h]

theorem latched_need (c : mp_cur) (k : Nat) (x x1 : Step) (he : c.err = 0)
    (g : mp_decode_to_lua_type.go 1 c = mp_cur_need c k x1) (hx : ¬ c.left < k → x.latched) :
    (mp_cur_need c k x).latched := by
  by_cases hk : c.left < k
  · have e : ∀ y, mp_cur_need c k y = .unwound { c with err := MP_CUR_ERROR_EOF } := by
      intro y; unfold mp_cur_need; rw [if_pos hk]
    rw [e x]
    show mp_decode_to_lua_type.go 1 _ = _
    rw [clear_err c _ he, g, e x1]
  · have e : mp_cur_need c k x = x := by unfold mp_cur_need; rw [if_neg hk]
    rw [e]; exact hx hk

theorem need_pass (c : mp_cur) (k : Nat) (x : Step) (y : Step) (hk : ¬ c.left < k)
    (g : y = mp_cur_need c k x) : y = x := by
  rw [g]; unfold mp_cur_need; rw [if_neg hk]

theorem array_loop_latched (dec : mp_cur → Step) (n : Nat) :
    ∀ (c : mp_cur) (index : Int) (t : List (LuaValue × LuaValue)), c.err = 0 →
      (∀ c1 : mp_cur, c1.err = 0 → c1.left ≤ c.left → (dec c1).latched ∧ (dec c1).within c1) →
      (mp_decode_to_lua_array.loop dec n c index t).latched := by
  induction n with
  | zero => intro c index t _ _; exact trivial
  | succ n ih =>
    intro c index t he hdec
    have h0 := hdec c he (le_refl _)
    rw [mp_decode_to_lua_array.loop]
    cases hd : dec c with
    | pushed c1 v =>
      rw [hd] at h0
      simp only
      have he1 : c1.err = 0 := h0.2.2.trans he
      rw [if_neg (by rw [he1]; exact fun h => h rfl)]
      exact ih c1 _ _ he1 (fun c2 h2 hl => hdec c2 h2 (le_trans hl h0.2.1))
    | unwound c1 => rw [hd] at h0; exact h0.1
    | raised c1 msg => exact trivial
    | exhausted => exact trivial

theorem hash_loop_latched (dec : mp_cur → Step) (n : Nat) :
    ∀ (c : mp_cur) (t : List (LuaValue × LuaValue)), c.err = 0 →
      (∀ c1 : mp_cur, c1.err = 0 → c1.left ≤ c.left → (dec c1).latched ∧ (dec c1).within c1) →
      (mp_decode_to_lua_hash.loop dec n c t).latched := by
  induction n with
  | zero => intro c t _ _; exact trivial
  | succ n ih =>
    intro c t he hdec
    have h0 := hdec c he (le_refl _)
    rw [mp_decode_to_lua_hash.loop]
    cases hd : dec c with
    | pushed c1 k =>
      rw [hd] at h0
      simp only
      have he1 : c1.err = 0 := h0.2.2.trans he
      rw [if_neg (by rw [he1]; exact fun h => h rfl)]
      have h1 := hdec c1 he1 h0.2.1
      cases hd1 : dec c1 with
      | pushed c2 v =>
        rw [hd1] at h1
        simp only
        have he2 : c2.err = 0 := h1.2.2.trans he1
        rw [if_neg (by rw [he2]; exact fun h => h rfl)]
        cases hs : lua_settable t k v with
        | ok t2 =>
          simp only
          exact ih c2 _ he2 (fun c3 h3 hl => hdec c3 h3 (le_trans hl (le_trans h1.2.1 h0.2.1)))
        | error msg => exact trivial
      | unwound c2 => rw [hd1] at h1; exact h1.1
      | raised c2 msg => exact trivial
      | exhausted => exact trivial
    | unwound c1 => rw [hd] at h0; exact h0.1
    | raised c1 msg => exact trivial
    | exhausted => exact trivial

theorem go_latched (fuel : Nat) : ∀ c : mp_cur, c.err = 0 → c.left < fuel →
    (mp_decode_to_lua_type.go fuel c).latched := by
  induction fuel with
  | zero => intro c _ h; omega
  | succ f ih =>
    intro c he hc
    have ha : ∀ (k l : Nat), 1 ≤ k → ¬ c.left < k →
        (mp_decode_to_lua_array (mp_decode_to_lua_type.go f) (mp_cur_consume c k) l).latched := by
      intro k l hk1 hk2
      have hl := consume_left_le c k (by omega)
      exact array_loop_latched _ l _ _ _ he
        (fun c1 h1 h2 => ⟨ih c1 h1 (by omega), go_within f c1 (by omega)⟩)
    have hh : ∀ (k l : Nat), 1 ≤ k → ¬ c.left < k →
        (mp_decode_to_lua_hash (mp_decode_to_lua_type.go f) (mp_cur_consume c k) l).latched := by
      intro k l hk1 hk2
      have hl := consume_left_le c k (by omega)
      exact hash_loop_latched _ l _ _ he
        (fun c1 h1 h2 => ⟨ih c1 h1 (by omega), go_within f c1 (by omega)⟩)
    have g : mp_decode_to_lua_type.go 1 c = _ := mp_decode_to_lua_type.go.eq_2 c 0
    rw [mp_decode_to_lua_type.go]
    refine latched_need c 1 _ _ he g (fun h1 => ?_)
    replace g := need_pass c 1 _ _ h1 g
    dsimp only at g ⊢
    by_cases tcc : c.at 0 = 0xcc
    · rw [if_pos tcc] at g ⊢
      exact latched_need c _ _ _ he g (fun _ => trivial)
    rw [if_neg tcc] at g ⊢
    by_cases td0 : c.at 0 = 0xd0
    · rw [if_pos td0] at g ⊢
      exact latched_need c _ _ _ he g (fun _ => trivial)
    rw [if_neg td0] at g ⊢
    by_cases tcd : c.at 0 = 0xcd
    · rw [if_pos tcd] at g ⊢
      exact latched_need c _ _ _ he g (fun _ => trivial)
    rw [if_neg tcd] at g ⊢
    by_cases td1 : c.at 0 = 0xd1
    · rw [if_pos td1] at g ⊢
      exact latched_need c _ _ _ he g (fun _ => trivial)
    rw [if_neg td1] at g ⊢
    by_cases tce : c.at 0 = 0xce
    · rw [if_pos tce] at g ⊢
      exact latched_need c _ _ _ he g (fun _ => trivial)
    rw [if_neg tce] at g ⊢
    by_cases td2 : c.at 0 = 0xd2
    · rw [if_pos td2] at g ⊢
      exact latched_need c _ _ _ he g (fun _ => trivial)
    rw [if_neg td2] at g ⊢
    by_cases tcf : c.at 0 = 0xcf
    · rw [if_pos tcf] at g ⊢
      exact latched_need c _ _ _ he g (fun _ => trivial)
    rw [if_neg tcf] at g ⊢
    by_cases td3 : c.at 0 = 0xd3
    · rw [if_pos td3] at g ⊢
      exact latched_need c _ _ _ he g (fun _ => trivial)
    rw [if_neg td3] at g ⊢
    by_cases tc0 : c.at 0 = 0xc0
    · rw [if_pos tc0] at g ⊢
      exact trivial
    rw [if_neg tc0] at g ⊢
    by_cases tc3 : c.at 0 = 0xc3
    · rw [if_pos tc3] at g ⊢
      exact trivial
    rw [if_neg tc3] at g ⊢
    by_cases tc2 : c.at 0 = 0xc2
    · rw [if_pos tc2] at g ⊢
      exact trivial
    rw [if_neg tc2] at g ⊢
    by_cases tca : c.at 0 = 0xca
    · rw [if_pos tca] at g ⊢
      exact latched_need c _ _ _ he g (fun _ => trivial)
    rw [if_neg tca] at g ⊢
    by_cases tcb : c.at 0 = 0xcb
    · rw [if_pos tcb] at g ⊢
      exact latched_need c _ _ _ he g (fun _ => trivial)
    rw [if_neg tcb] at g ⊢
    by_cases tda : c.at 0 = 0xda
    · rw [if_pos tda] at g ⊢
      exact latched_need c _ _ _ he g (fun h => latched_need c _ _ _ he (need_pass c _ _ _ h g) (fun _ => trivial))
    rw [if_neg tda] at g ⊢
    by_cases tdb : c.at 0 = 0xdb
    · rw [if_pos tdb] at g ⊢
      exact latched_need c _ _ _ he g (fun h => latched_need c _ _ _ he (need_pass c _ _ _ h g) (fun _ => trivial))
    rw [if_neg tdb] at g ⊢
    by_cases tdc : c.at 0 = 0xdc
    · rw [if_pos tdc] at g ⊢
      exact latched_need c _ _ _ he g (fun h => ha _ _ (by omega) h)
    rw [if_neg tdc] at g ⊢
    by_cases tdd : c.at 0 = 0xdd
    · rw [if_pos tdd] at g ⊢
      exact latched_need c _ _ _ he g (fun h => ha _ _ (by omega) h)
    rw [if_neg tdd] at g ⊢
    by_cases tde : c.at 0 = 0xde
    · rw [if_pos tde] at g ⊢
      exact latched_need c _ _ _ he g (fun h => hh _ _ (by omega) h)
    rw [if_neg tde] at g ⊢
    by_cases tdf : c.at 0 = 0xdf
    · rw [if_pos tdf] at g ⊢
      exact latched_need c _ _ _ he g (fun h => hh _ _ (by omega) h)
    rw [if_neg tdf] at g ⊢
    by_cases tc4 : c.at 0 = 0xc4
    · rw [if_pos tc4] at g ⊢
      exact latched_need c _ _ _ he g (fun h => latched_need c _ _ _ he (need_pass c _ _ _ h g) (fun _ => trivial))
    rw [if_neg tc4] at g ⊢
    by_cases tc5 : c.at 0 = 0xc5
    · rw [if_pos tc5] at g ⊢
      exact latched_need c _ _ _ he g (fun h => latched_need c _ _ _ he (need_pass c _ _ _ h g) (fun _ => trivial))
    rw [if_neg tc5] at g ⊢
    by_cases tc6 : c.at 0 = 0xc6
    · rw [if_pos tc6] at g ⊢
      exact latched_need c _ _ _ he g (fun h => latched_need c _ _ _ he (need_pass c _ _ _ h g) (fun _ => trivial))
    rw [if_neg tc6] at g ⊢
    by_cases m1 : c.at 0 &&& 0x80 = 0
    · rw [if_pos m1]
      exact trivial
    rw [if_neg m1] at g ⊢
    by_cases m2 : c.at 0 &&& 0xe0 = 0xe0
    · rw [if_pos m2]
      exact trivial
    rw [if_neg m2] at g ⊢
    by_cases m3 : c.at 0 &&& 0xe0 = 0xa0
    · rw [if_pos m3] at g ⊢
      exact latched_need c _ _ _ he g (fun _ => trivial)
    rw [if_neg m3] at g ⊢
    by_cases m4 : c.at 0 &&& 0xf0 = 0x90
    · rw [if_pos m4]
      exact ha _ _ (le_refl _) h1
    rw [if_neg m4] at g ⊢
    by_cases m5 : c.at 0 &&& 0xf0 = 0x80
    · rw [if_pos m5]
      exact hh _ _ (le_refl _) h1
    rw [if_neg m5] at g ⊢
    show mp_decode_to_lua_type.go 1 _ = _
    rw [clear_err c _ he, g]

theorem array_loop_guarded (dec : mp_cur → Step) (n : Nat) :
    ∀ (c : mp_cur) (index : Int) (t : List (LuaValue × LuaValue)), c.err = 0 →
      mp_decode_to_lua_array.loop (guarded dec) n c index t
        = mp_decode_to_lua_array.loop dec n c index t := by
  induction n with
  | zero => intro c index t _; rfl
  | succ n ih =>
    intro c index t he
    have e : guarded dec c = dec c := by unfold guarded; rw [if_neg (by rw [he]; exact fun h => h rfl)]
    rw [mp_decode_to_lua_array.loop, mp_decode_to_lua_array.loop, e]
    cases hd : dec c with
    | pushed c1 v =>
      simp only
      by_cases hc : c1.err ≠ 0
      · rw [if_pos hc, if_pos hc]
      · rw [if_neg hc, if_neg hc]
        exact ih c1 _ _ (by simpa using hc)
    | unwound c1 => rfl
    | raised c1 msg => rfl
    | exhausted => rfl

theorem hash_loop_guarded (dec : mp_cur → Step) (n : Nat) :
    ∀ (c : mp_cur) (t : List (LuaValue × LuaValue)), c.err = 0 →
      mp_decode_to_lua_hash.loop (guarded dec) n c t = mp_decode_to_lua_hash.loop dec n c t := by
  induction n with
  | zero => intro c t _; rfl
  | succ n ih =>
    intro c t he
    have e : guarded dec c = dec c := by unfold guarded; rw [if_neg (by rw [he]; exact fun h => h rfl)]
    rw [mp_decode_to_lua_hash.loop, mp_decode_to_lua_hash.loop, e]
    cases hd : dec c with
    | pushed c1 k =>
      simp only
      by_cases hc : c1.err ≠ 0
      · rw [if_pos hc, if_pos hc]
      · rw [if_neg hc, if_neg hc]
        have e1 : guarded dec c1 = dec c1 := by unfold guarded; rw [if_neg hc]
        rw [e1]
        cases hd1 : dec c1 with
        | pushed c2 v =>
          simp only
          by_cases hc2 : c2.err ≠ 0
          · rw [if_pos hc2, if_pos hc2]
          · rw [if_neg hc2, if_neg hc2]
            cases hs : lua_settable t k v with
            | ok t2 => simp only; exact ih c2 _ (by simpa using hc2)
            | error msg => rfl
        | unwound c2 => rfl
        | raised c2 msg => rfl
        | exhausted => rfl
    | unwound c1 => rfl
    | raised c1 msg => rfl
    | exhausted => rfl

/-- C22 as stated fails: on a cursor with `MP_CUR_ERROR_EOF` latched and the
byte `c0` left, `mp_decode_to_lua_type` pushes `nil` and consumes the byte; on
a cursor with `MP_CUR_ERROR_BADFMT` latched and the byte `cc` left it replaces
the error by `MP_CUR_ERROR_EOF`. -/
theorem latched_cursor_consumes :
    mp_decode_to_lua_type { p := [0xc0], left := 1, err := MP_CUR_ERROR_EOF }
        = .pushed { p := [], left := 0, err := MP_CUR_ERROR_EOF } .nil ∧
      mp_decode_to_lua_type { p := [0xcc], left := 1, err := MP_CUR_ERROR_BADFMT }
        = .unwound { p := [0xcc], left := 1, err := MP_CUR_ERROR_EOF } := by
  exact ⟨rfl, rfl⟩

/-- C22, amended: the loops of `mp_decode_to_lua_array` and
`mp_decode_to_lua_hash`, started on a cursor without error, never call the
decoder on a cursor with a latched error: replacing the decoder `dec` by the
one that tests the error at entry and is a no-op on a latched cursor changes
nothing.  When the first call leaves an error latched, whether it ran to its
end or returned early, the loop returns at once with the cursor as that call
left it. -/
theorem latched_error_ends_loops (dec : mp_cur → Step) (n : Nat) (c : mp_cur) (index : Int)
    (t : List (LuaValue × LuaValue)) (he : c.err = 0) :
    mp_decode_to_lua_array.loop (guarded dec) n c index t
      = mp_decode_to_lua_array.loop dec n c index t ∧
    mp_decode_to_lua_hash.loop (guarded dec) n c t = mp_decode_to_lua_hash.loop dec n c t ∧
    (∀ c1 v, dec c = .pushed c1 v → c1.err ≠ 0 →
      mp_decode_to_lua_array.loop dec (n + 1) c index t = .unwound c1 ∧
      mp_decode_to_lua_hash.loop dec (n + 1) c t = .unwound c1) ∧
    (∀ c1, dec c = .unwound c1 →
      mp_decode_to_lua_array.loop dec (n + 1) c index t = .unwound c1 ∧
      mp_decode_to_lua_hash.loop dec (n + 1) c t = .unwound c1) := by
  refine ⟨array_loop_guarded dec n c index t he, hash_loop_guarded dec n c t he, ?_, ?_⟩
  · intro c1 v hd hc
    constructor
    · rw [mp_decode_to_lua_array.loop, hd]; simp only; rw [if_pos hc]
    · rw [mp_decode_to_lua_hash.loop, hd]; simp only; rw [if_pos hc]
  · intro c1 hd
    constructor
    · rw [mp_decode_to_lua_array.loop, hd]
    · rw [mp_decode_to_lua_hash.loop, hd]

/-- The loop of an array of two elements on the bytes `c1 c0`. -/
theorem latched_error_ends_loops_witness :
    mp_decode_to_lua_array.loop (guarded mp_decode_to_lua_type) 2 (mp_cur_new [0xc1, 0xc0] 2) 1 []
      = mp_decode_to_lua_array.loop mp_decode_to_lua_type 2 (mp_cur_new [0xc1, 0xc0] 2) 1 [] ∧
    mp_decode_to_lua_array.loop mp_decode_to_lua_type 2 (mp_cur_new [0xc1, 0xc0] 2) 1 []
      = .unwound { p := [0xc1, 0xc0], left := 2, err := MP_CUR_ERROR_BADFMT } :=
  ⟨(latched_error_ends_loops mp_decode_to_lua_type 2 (mp_cur_new [0xc1, 0xc0] 2) 1 [] rfl).1,
    ((latched_error_ends_loops mp_decode_to_lua_type 1 (mp_cur_new [0xc1, 0xc0] 2) 1 [] rfl).2.2.2
      { p := [0xc1, 0xc0], left := 2, err := MP_CUR_ERROR_BADFMT } rfl).1⟩

/-- C23: when a top-level decode started on an error-free cursor returns with
an error, the error is `MP_CUR_ERROR_EOF` or `MP_CUR_ERROR_BADFMT` and the
cursor is the one of the step that latched it: on the final position and
remaining count, with the error cleared, a single step of the decoder without
nested call latches the same error and leaves position and remaining count as
they are.  The enclosing loops hand such a return on unchanged, from the place
of an element, of a key or of a value, and make no further call. -/
theorem unwind_on_first_error (data : List Nat) (len : Nat) (c1 : mp_cur)
    (h : mp_decode_to_lua_type (mp_cur_new data len) = .unwound c1) :
    (c1.err = MP_CUR_ERROR_EOF ∨ c1.err = MP_CUR_ERROR_BADFMT) ∧
    mp_decode_to_lua_type.go 1 { c1 with err := MP_CUR_ERROR_NONE } = .unwound c1 ∧
    c1.left ≤ len ∧
    (∀ (dec : mp_cur → Step) (n : Nat) (c : mp_cur) (index : Int) (t : List (LuaValue × LuaValue)),
      dec c = .unwound c1 → mp_decode_to_lua_array.loop dec (n + 1) c index t = .unwound c1) ∧
    (∀ (dec : mp_cur → Step) (n : Nat) (c : mp_cur) (t : List (LuaValue × LuaValue)),
      dec c = .unwound c1 → mp_decode_to_lua_hash.loop dec (n + 1) c t = .unwound c1) ∧
    (∀ (dec : mp_cur → Step) (n : Nat) (c c0 : mp_cur) (k : LuaValue)
        (t : List (LuaValue × LuaValue)),
      dec c = .pushed c0 k → c0.err = 0 → dec c0 = .unwound c1 →
        mp_decode_to_lua_hash.loop dec (n + 1) c t = .unwound c1) := by
  have hl : (mp_decode_to_lua_type (mp_cur_new data len)).latched :=
    go_latched _ _ rfl (Nat.lt_succ_self _)
  have hw := mp_decode_within data len
  rw [h] at hl hw
  refine ⟨unwound_err data len c1 h, hl, hw.1, ?_, ?_, ?_⟩
  · intro dec n c index t hd
    rw [mp_decode_to_lua_array.loop, hd]
  · intro dec n c t hd
    rw [mp_decode_to_lua_hash.loop, hd]
  · intro dec n c c0 k t hd he hd0
    rw [mp_decode_to_lua_hash.loop, hd]
    simp only
    rw [if_neg (by rw [he]; exact fun h => h rfl), hd0]

/-- An array of two elements whose second element is the unassigned tag `c1`. -/
theorem unwind_on_first_error_witness :
    mp_decode_to_lua_type (mp_cur_new [0x92, 0x01, 0xc1, 0x05] 4)
        = .unwound { p := [0xc1, 0x05], left := 2, err := MP_CUR_ERROR_BADFMT } ∧
      mp_decode_to_lua_type.go 1 { p := [0xc1, 0x05], left := 2, err := MP_CUR_ERROR_NONE }
        = .unwound { p := [0xc1, 0x05], left := 2, err := MP_CUR_ERROR_BADFMT } :=
  ⟨rfl, (unwind_on_first_error [0x92, 0x01, 0xc1, 0x05] 4
    { p := [0xc1, 0x05], left := 2, err := MP_CUR_ERROR_BADFMT } rfl).2.1⟩

/-! ## A value followed by more bytes -/

theorem raw32_followed (s t : List Nat) (h1 : 2 ^ 31 ≤ s.length) (h2 : s.length < 2 ^ 32 - 5)
    (ht : t.length < 2 ^ 63) :
    mp_decode_to_lua_type
        (mp_cur_new (mp_encode_bytes_hdr s.length ++ s ++ t)
          (mp_encode_bytes_hdr s.length ++ s ++ t).length)
      = .unwound { p := mp_encode_bytes_hdr s.length ++ s ++ t,
                   left := (mp_encode_bytes_hdr s.length ++ s ++ t).length,
                   err := MP_CUR_ERROR_EOF } := by
  rw [mp_encode_bytes_hdr_eq s.length (by omega), raw_header_32 s.length (by omega)]
  unfold mp_decode_to_lua_type mp_cur_new
  simp only [List.cons_append, List.nil_append, List.length_cons, List.length_append, bits_32_nat]
  rw [go_db _ _ _ _ _ _ _ _ (by omega) (by omega) (by omega) (by omega) (by omega) (by omega)]
  have hsum : s.length % 2 ^ 32 / 2 ^ 24 % 256 * 2 ^ 24 + s.length % 2 ^ 32 / 2 ^ 16 % 256 * 2 ^ 16
      + s.length % 2 ^ 32 / 2 ^ 8 % 256 * 2 ^ 8 + s.length % 2 ^ 32 % 256 = s.length := by
    omega
  have hl : size_t (signed 32 s.length) = 2 ^ 64 - 2 ^ 32 + s.length := by
    unfold size_t bits signed
    split_ifs <;> omega
  rw [hsum, hl]
  unfold mp_cur_need add_size_t
  simp only []
  rw [if_pos (by omega)]

/-- C28, the code at a failing input: the bytes packed for a string of `2^31`
zero bytes followed by the byte `c0`; one call of `mp_decode_to_lua_type`
latches `MP_CUR_ERROR_EOF` and consumes nothing, where the 2147483653 bytes of
the string should be consumed and `c0` left. -/
theorem not_self_delimiting :
    ∃ s, _mp_pack (.string (zeros 2147483648)) = .ok s ∧
      mp_decode_to_lua_type (mp_cur_new (s ++ [0xc0]) (s ++ [0xc0]).length)
        = .unwound { p := s ++ [0xc0], left := (s ++ [0xc0]).length,
                     err := MP_CUR_ERROR_EOF } ∧
      s.length = 2147483653 := by
  refine ⟨_, mp_pack_string_bytes _, raw32_followed (zeros 2147483648) [0xc0]
    (by rw [zeros, List.length_replicate]; norm_num)
    (by rw [zeros, List.length_replicate]; norm_num) (by simp), ?_⟩
  rw [List.length_append, zeros, List.length_replicate]
  rfl

end CMsgPack
